import Mathlib

/-!
# simpleClusterization: a shallow embedding and its verified properties

The development embeds the clustering library of `source/simpleClusterization.cpp`
(hard k-means, fuzzy c-means, the Davies-Bouldin index and the cluster-count search).

Modelling conventions.

* A C++ `float` is a value of `Flt`: an exact rational, one of the two infinities, or
  NaN.  Arithmetic follows the IEEE rules for the exceptional values (`x/0`, `0*inf`,
  `inf-inf`, comparisons with NaN are false) and is exact on finite values: rounding,
  overflow of finite arithmetic and signed zeros are not modelled.  Where the roundings
  of `float` decide a property, the default distance and the loop of `kmeansGenerator`
  are given a second time with them (`euclideanNormFloat`, `kmeansGeneratorFloat`).
* An Eigen matrix is a `Mat`: its two dimensions and its coefficient function.  Only
  coefficients inside the dimensions are meaningful; an out-of-range write is ignored.
* The square root of the matrix library is a parameter `sqrtQ : ℚ → ℚ` on the finite
  non-negative values.
* An `assert` that fires, and a loop that does not stop within its fuel, are outcomes of
  their own (`Outcome.violation`, `Outcome.diverged`).
-/

namespace SimpleClusterization

/-! ## Numbers -/

/-- Values of a C++ `float`: NaN, an infinity (`inf true` is the negative one) or a
finite value, kept as an exact rational. -/
inductive Flt where
  | nan : Flt
  | inf : Bool → Flt
  | fin : ℚ → Flt
deriving DecidableEq

namespace Flt

/-- Conversion of an integer count, as in `(float) n`. -/
def ofNat (n : Nat) : Flt := fin (n : ℚ)

/-- Unary minus. -/
def neg : Flt → Flt
  | nan => nan
  | inf s => inf (!s)
  | fin a => fin (-a)

/-- Addition `a + b`. -/
def add : Flt → Flt → Flt
  | fin a, fin b => fin (a + b)
  | fin _, inf s => inf s
  | inf s, fin _ => inf s
  | inf s, inf t => if s = t then inf s else nan
  | _, _ => nan

/-- Subtraction `a - b`. -/
def sub (a b : Flt) : Flt := add a (neg b)

/-- Multiplication `a * b`. -/
def mul : Flt → Flt → Flt
  | fin a, fin b => fin (a * b)
  | fin a, inf s => if a = 0 then nan else inf (xor s (decide (a < 0)))
  | inf s, fin b => if b = 0 then nan else inf (xor s (decide (b < 0)))
  | inf s, inf t => inf (xor s t)
  | _, _ => nan

/-- Division `a / b`. -/
def div : Flt → Flt → Flt
  | fin a, fin b =>
    if b = 0 then (if a = 0 then nan else inf (decide (a < 0))) else fin (a / b)
  | fin _, inf _ => fin 0
  | inf s, fin b => inf (xor s (decide (b < 0)))
  | _, _ => nan

/-- Square root, from a square root `sqrtQ` on the non-negative rationals. -/
def sqrt (sqrtQ : ℚ → ℚ) : Flt → Flt
  | fin a => if a < 0 then nan else fin (sqrtQ a)
  | inf false => inf false
  | _ => nan

/-- Comparison `a < b`; false as soon as one side is NaN. -/
def lt : Flt → Flt → Bool
  | fin a, fin b => decide (a < b)
  | fin _, inf s => !s
  | inf s, fin _ => s
  | inf s, inf t => s && !t
  | _, _ => false

/-- Comparison `a <= b`; false as soon as one side is NaN. -/
def le (a b : Flt) : Bool := lt a b || (a != nan && a == b)

/-- The test `std::isnan`. -/
def isNaN : Flt → Bool
  | nan => true
  | _ => false

/-- The function `std::max(a, b)`, which is `(a < b) ? b : a`. -/
def max (a b : Flt) : Flt := if lt a b then b else a

/-- The function `std::min(a, b)`, which is `(b < a) ? b : a`. -/
def min (a b : Flt) : Flt := if lt b a then b else a

end Flt

/-! ## Outcomes -/

/-- How a call ends: it returns a value, an `assert` fires, or it is still running when
the fuel of the model is spent. -/
inductive Outcome (α : Type) where
  | ok : α → Outcome α
  | violation : Outcome α
  | diverged : Outcome α
deriving DecidableEq

namespace Outcome

/-- Sequencing: the rest of the computation runs on a returned value only. -/
def bind {α β : Type} : Outcome α → (α → Outcome β) → Outcome β
  | ok a, f => f a
  | violation, _ => violation
  | diverged, _ => diverged

end Outcome

/-- The loop `for (i = start; i < start + n; ++i) s = body i s`. -/
def forLoop {σ : Type} (body : Nat → σ → σ) : Nat → Nat → σ → σ
  | 0, _, s => s
  | n + 1, i, s => forLoop body n (i + 1) (body i s)

/-- The loop `for (i = start; i < start + n; ++i)` whose body may fire an `assert`. -/
def forLoopM {σ : Type} (body : Nat → σ → Outcome σ) : Nat → Nat → σ → Outcome σ
  | 0, _, s => Outcome.ok s
  | n + 1, i, s => (body i s).bind (forLoopM body n (i + 1))

/-! ## Matrices -/

/-- A dense matrix: `rows()`, `cols()` and the coefficients `m(i, j)`. -/
@[ext]
structure Mat (α : Type) where
  rows : Nat
  cols : Nat
  coeff : Nat → Nat → α

namespace Mat

variable {α : Type}

/-- The assignment `m(i, j) = v`. -/
def set (m : Mat α) (i j : Nat) (v : α) : Mat α :=
  { m with coeff := fun r c =>
      if r = i ∧ c = j ∧ i < m.rows ∧ j < m.cols then v else m.coeff r c }

/-- The call `m.setConstant(v)`. -/
def setConstant (m : Mat α) (v : α) : Mat α :=
  { m with coeff := fun _ _ => v }

/-- The vector `m.row(i)`. -/
def row (m : Mat α) (i : Nat) : List α :=
  (List.range m.cols).map (m.coeff i)

/-- The assignment `m.row(i) = v`, the new row given by its coefficients. -/
def setRow (m : Mat α) (i : Nat) (v : Nat → α) : Mat α :=
  { m with coeff := fun r c => if r = i ∧ i < m.rows ∧ c < m.cols then v c else m.coeff r c }

/-- The coefficient-wise map, as in `m.array().square()` or `m.cwiseSqrt()`. -/
def map {β : Type} (f : α → β) (m : Mat α) : Mat β :=
  { rows := m.rows, cols := m.cols, coeff := fun r c => f (m.coeff r c) }

/-- The block `m.topLeftCorner(r, c)`, read as a matrix of its own. -/
def topLeftCorner (m : Mat α) (r c : Nat) : Mat α :=
  { rows := r, cols := c, coeff := m.coeff }

/-- The assignment `m.topLeftCorner(b.rows, b.cols) = b`. -/
def setTopLeftCorner (m b : Mat α) : Mat α :=
  { m with coeff := fun r c => if r < b.rows ∧ c < b.cols then b.coeff r c else m.coeff r c }

/-- The comparison `a == b` of two matrices of the same dimensions. -/
def eqb [DecidableEq α] (a b : Mat α) : Bool :=
  (List.range a.rows).all fun r => (List.range a.cols).all fun c =>
    decide (a.coeff r c = b.coeff r c)

/-- The number `m.row(i).count()` of true coefficients of a row. -/
def rowCount (m : Mat Bool) (i : Nat) : Nat :=
  ((List.range m.cols).filter fun c => m.coeff i c).length

end Mat

/-- Sum of `f 0, ..., f (n - 1)`, accumulated from zero in index order. -/
def sumTo (n : Nat) (f : Nat → Flt) : Flt :=
  forLoop (fun k acc => Flt.add acc (f k)) n 0 (Flt.fin 0)

/-- The distance-function type `squaredNorm_t`. -/
abbrev squaredNorm_t := List Flt → List Flt → Flt

/-- The default distance `(v1 - v2).squaredNorm()`. -/
def euclideanNorm : squaredNorm_t := fun v1 v2 =>
  (List.zipWith (fun a b => Flt.mul (Flt.sub a b) (Flt.sub a b)) v1 v2).foldl Flt.add (Flt.fin 0)

/-- The macro `FCM_THRESHOLD`. -/
def FCM_THRESHOLD : Flt := Flt.fin (1 / 10 ^ 19)

/-- The macro `FCM_MAX_ITERATIONS`. -/
def FCM_MAX_ITERATIONS : Nat := 20

/-- The constant `offsetConstant`. -/
def offsetConstant : Flt := Flt.fin (5 / 100)

/-- The constant `attemptsPerClustersNumber`. -/
def attemptsPerClustersNumber : Nat := 3

/-- The constant `maxIterationPerClustersNumber`. -/
def maxIterationPerClustersNumber : Nat := 5

/-! ## Hard weights -/

/-- The inner loop of `calculateBooleanWeights` for the entity `e`: one step compares
the distance of centroid `i` with the running minimum. -/
def nearestStep (centroids : Mat Flt) (norm : squaredNorm_t) (e : List Flt)
    (i : Nat) (s : Flt × Nat) : Flt × Nat :=
  let currentDistance := norm (centroids.row i) e
  if Flt.lt currentDistance s.1 then (currentDistance, i) else s

/-- The pair `(minDistance, minIndex)` that `calculateBooleanWeights` holds for the
entity `e` when its inner loop over the centroids `1 .. clustersNumber - 1` is over. -/
def nearest (centroids : Mat Flt) (norm : squaredNorm_t) (e : List Flt) : Flt × Nat :=
  forLoop (nearestStep centroids norm e) (centroids.rows - 1) 1
    (norm (centroids.row 0) e, 0)

/-- The function `calculateBooleanWeights`. -/
def calculateBooleanWeights (entities centroids : Mat Flt) (weights : Mat Bool)
    (norm : squaredNorm_t) : Mat Bool :=
  forLoop (fun j w => w.set (nearest centroids norm (entities.row j)).2 j true)
    entities.rows 0 (weights.setConstant false)

/-- Invariant of the inner loop of `calculateBooleanWeights`: the running pair is a
centroid index seen so far with its distance, no seen distance is below it, and every
earlier index has a strictly larger distance. -/
def NearestInv (centroids : Mat Flt) (norm : squaredNorm_t) (e : List Flt)
    (bound : Nat) (s : Flt × Nat) : Prop :=
  s.1 = norm (centroids.row s.2) e ∧ s.2 < bound ∧
  (∀ k, k < bound → Flt.lt (norm (centroids.row k) e) s.1 = false) ∧
  (∀ k, k < s.2 → Flt.lt s.1 (norm (centroids.row k) e) = true)

/-! ## Fuzzy weights -/

/-- The body of the double loop of `calculateFuzzyWeights`: the distance is stored, then
the `assert` reads it back. -/
def fuzzyCell (entities centroids : Mat Flt) (norm : squaredNorm_t) (i j : Nat)
    (weights : Mat Flt) : Outcome (Mat Flt) :=
  let w := weights.set i j (norm (centroids.row i) (entities.row j))
  if Flt.lt FCM_THRESHOLD (w.coeff i j) then Outcome.ok w else Outcome.violation

/-- The function `calculateFuzzyWeights`. -/
def calculateFuzzyWeights (entities centroids : Mat Flt) (weights : Mat Flt)
    (norm : squaredNorm_t) : Outcome (Mat Flt) :=
  (forLoopM (fun i w => forLoopM (fun j w => fuzzyCell entities centroids norm i j w)
      entities.rows 0 w) centroids.rows 0 weights).bind
    fun w => Outcome.ok (w.map fun x => Flt.div (Flt.fin 1) x)

/-- The weight matrix in the double loop of `calculateFuzzyWeights` once the rows
`i0 .. i0 + m - 1` are filled with distances over the columns below `n`. -/
def distanceFill (entities centroids : Mat Flt) (norm : squaredNorm_t) (w : Mat Flt)
    (i0 m n : Nat) : Mat Flt :=
  { w with coeff := fun r c =>
      if i0 ≤ r ∧ r < i0 + m ∧ c < n then norm (centroids.row r) (entities.row c)
      else w.coeff r c }

/-! ## Fuzzy c-means -/

/-- The product `a * b` of two matrices. -/
def Mat.mul (a b : Mat Flt) : Mat Flt :=
  { rows := a.rows, cols := b.cols,
    coeff := fun r c => sumTo a.cols fun k => Flt.mul (a.coeff r k) (b.coeff k c) }

/-- The sum `m.row(i).sum()` of a row. -/
def Mat.rowSum (m : Mat Flt) (i : Nat) : Flt :=
  sumTo m.cols fun c => m.coeff i c

/-- The sum of the squares of a row, `m.row(i).squaredNorm()`. -/
def Mat.rowSquaredNorm (m : Mat Flt) (i : Nat) : Flt :=
  sumTo m.cols fun c => Flt.mul (m.coeff i c) (m.coeff i c)

/-- The update `m.row(i) *= x`. -/
def Mat.scaleRow (m : Mat Flt) (i : Nat) (x : Flt) : Mat Flt :=
  { m with coeff := fun r c => if r = i then Flt.mul (m.coeff r c) x else m.coeff r c }

/-- The value `(a - b).squaredNorm()`. -/
def Mat.squaredNormDiff (a b : Mat Flt) : Flt :=
  sumTo a.rows fun r => sumTo a.cols fun c =>
    Flt.mul (Flt.sub (a.coeff r c) (b.coeff r c)) (Flt.sub (a.coeff r c) (b.coeff r c))

/-- The call `m.rowwise().normalize()` of the matrix library: every row is divided by its
Euclidean norm, the square root of the sum of the squares of its entries. -/
def Mat.rowwiseNormalize (sqrtQ : ℚ → ℚ) (m : Mat Flt) : Mat Flt :=
  { m with coeff := fun r c => Flt.div (m.coeff r c) (Flt.sqrt sqrtQ (m.rowSquaredNorm r)) }

/-- The centroids that the loop body of `FCMGenerator` computes from the weights: the
product of the squared weights with the entities, every row then multiplied by one over
the sum of its squared weights. -/
def FCMCentroids (entities weights : Mat Flt) (centroidsNumber : Nat) : Mat Flt :=
  let weights2 := weights.map fun x => Flt.mul x x
  let centroids := Mat.mul weights2 entities
  forLoop (fun i c => c.scaleRow i (Flt.div (Flt.fin 1) (weights2.rowSum i)))
    centroidsNumber 0 centroids

/-- The body of the loop of `FCMGenerator`, from the centroids and weights at its start
to those at its end. -/
def FCMIteration (sqrtQ : ℚ → ℚ) (entities : Mat Flt) (norm : squaredNorm_t)
    (centroids weights : Mat Flt) : Outcome (Mat Flt × Mat Flt) :=
  let centroids := FCMCentroids entities weights centroids.rows
  (calculateFuzzyWeights entities centroids weights norm).bind fun w =>
    Outcome.ok (centroids, w.rowwiseNormalize sqrtQ)

/-- The loop of `FCMGenerator` with `remaining` iterations left before `loopIndex` reaches
the cap. -/
def FCMLoop (sqrtQ : ℚ → ℚ) (entities : Mat Flt) (norm : squaredNorm_t) :
    Nat → Mat Flt → Mat Flt → Mat Flt → Outcome (Mat Flt × Mat Flt)
  | 0, centroids, weights, _ => Outcome.ok (centroids, weights)
  | remaining + 1, centroids, weights, weightsOld =>
    if Flt.lt FCM_THRESHOLD (Mat.squaredNormDiff weights weightsOld) then
      (FCMIteration sqrtQ entities norm centroids weights).bind fun cw =>
        FCMLoop sqrtQ entities norm remaining cw.1 cw.2 weights
    else Outcome.ok (centroids, weights)

/-- The function `FCMGenerator`; `random r c` is the entry that `MatrixXf::Random` draws
for the weight `(r, c)`, and `maxIterations` is the cap `FCM_MAX_ITERATIONS`. -/
def FCMGenerator (sqrtQ : ℚ → ℚ) (random : Nat → Nat → ℚ) (maxIterations : Nat)
    (entities centroids weights : Mat Flt) (norm : squaredNorm_t) :
    Outcome (Mat Flt × Mat Flt) :=
  if weights.cols = entities.rows ∧ centroids.rows = weights.rows ∧
      centroids.cols = entities.cols then
    let weightsOld : Mat Flt := { weights with coeff := fun _ _ => Flt.fin 0 }
    let weights : Mat Flt := { weights with coeff := fun r c => Flt.fin (random r c) }
    FCMLoop sqrtQ entities norm maxIterations centroids weights weightsOld
  else Outcome.violation

/-- The list of the sums of the rows of a weight matrix. -/
def rowSums (w : Mat Flt) : List Flt :=
  (List.range w.rows).map fun i => w.rowSum i

/-- The sums of the rows of the weights that a fuzzy c-means computation returns. -/
def weightRowSums (o : Outcome (Mat Flt × Mat Flt)) : Outcome (List Flt) :=
  o.bind fun cw => Outcome.ok (rowSums cw.2)

/-- The sum over the entities of the squares of the inverse distances to the centroid
`i`: the squared Euclidean norm of row `i` of the fuzzy weights before normalization. -/
def inverseSquares (entities centroids : Mat Flt) (norm : squaredNorm_t) (i : Nat) : Flt :=
  sumTo entities.rows fun j =>
    Flt.mul (Flt.div (Flt.fin 1) (norm (centroids.row i) (entities.row j)))
      (Flt.div (Flt.fin 1) (norm (centroids.row i) (entities.row j)))

/-- Every row of the weights `w` has Euclidean norm one (its squares sum to 1), for the
rows of the centroids `c` whose distances to the entities are finite and whose sum of
squared inverse distances has an exact square root. -/
def UnitRowNorms (sqrtQ : ℚ → ℚ) (entities : Mat Flt) (norm : squaredNorm_t)
    (c w : Mat Flt) : Prop :=
  ∀ i, i < c.rows → 0 < entities.rows →
    (∀ j, j < entities.rows → norm (c.row i) (entities.row j) ≠ Flt.inf false) →
    (∀ q, inverseSquares entities c norm i = Flt.fin q → sqrtQ q * sqrtQ q = q) →
    w.rowSquaredNorm i = Flt.fin 1

/-- The finite value of a number of the model (zero for the other ones). -/
def Flt.toRat : Flt → ℚ
  | Flt.fin a => a
  | _ => 0

/-! ## The Davies-Bouldin index -/

/-- The entry `scatterVector(i)` of `daviesBouldinIndex` after `cwiseSqrt`. -/
def scatterVector (sqrtQ : ℚ → ℚ) (entities centroids : Mat Flt) (weights : Mat Bool)
    (norm : squaredNorm_t) (i : Nat) : Flt :=
  let sum := forLoop (fun j acc =>
      if weights.coeff i j then Flt.add acc (norm (centroids.row i) (entities.row j)) else acc)
    entities.rows 0 (Flt.fin 0)
  let multiplier := Flt.div (Flt.fin 1) (Flt.ofNat (weights.rowCount i))
  Flt.sqrt sqrtQ (Flt.mul sum multiplier)

/-- The entry `clusterSeparationMatrix(i, j)` of `daviesBouldinIndex` after `cwiseSqrt`. -/
def clusterSeparationMatrix (sqrtQ : ℚ → ℚ) (centroids : Mat Flt) (norm : squaredNorm_t)
    (i j : Nat) : Flt :=
  Flt.sqrt sqrtQ (norm (centroids.row i) (centroids.row j))

/-- The value `dbIndexCluster` of `daviesBouldinIndex` for the cluster `i`. -/
def dbIndexCluster (sqrtQ : ℚ → ℚ) (entities centroids : Mat Flt) (weights : Mat Bool)
    (norm : squaredNorm_t) (i : Nat) : Flt :=
  forLoop (fun j acc =>
      if i ≠ j then
        Flt.max (Flt.div
          (Flt.add (scatterVector sqrtQ entities centroids weights norm i)
            (scatterVector sqrtQ entities centroids weights norm j))
          (clusterSeparationMatrix sqrtQ centroids norm i j)) acc
      else acc)
    centroids.rows 0 (Flt.fin 0)

/-- The function `daviesBouldinIndex`. -/
def daviesBouldinIndex (sqrtQ : ℚ → ℚ) (entities centroids : Mat Flt) (weights : Mat Bool)
    (norm : squaredNorm_t) : Flt :=
  let clustersNumber := centroids.rows
  let dbIndex := forLoop
    (fun i acc => Flt.add acc (dbIndexCluster sqrtQ entities centroids weights norm i))
    clustersNumber 0 (Flt.fin 0)
  Flt.div dbIndex (Flt.ofNat clustersNumber)

/-! ## The Davies-Bouldin index as the specification words it -/

/-- The entities assigned to the cluster `i`, in index order. -/
def specCluster (entities : Mat Flt) (weights : Mat Bool) (i : Nat) : List Nat :=
  (List.range entities.rows).filter fun j => weights.coeff i j

/-- The scatter `S_i = sqrt((1/|cluster_i|) * sum of norm(centroid_i, entity_j))`, the sum
over the entities `j` assigned to `i`. -/
def specScatter (sqrtQ : ℚ → ℚ) (entities centroids : Mat Flt) (weights : Mat Bool)
    (norm : squaredNorm_t) (i : Nat) : ℚ :=
  sqrtQ ((1 / ((specCluster entities weights i).length : ℚ)) *
    ((specCluster entities weights i).map fun j =>
      (norm (centroids.row i) (entities.row j)).toRat).sum)

/-- The separation `M_ij = sqrt(norm(centroid_i, centroid_j))`. -/
def specSeparation (sqrtQ : ℚ → ℚ) (centroids : Mat Flt) (norm : squaredNorm_t)
    (i j : Nat) : ℚ :=
  sqrtQ (norm (centroids.row i) (centroids.row j)).toRat

/-- The quotient `(S_i + S_j) / M_ij`. -/
def specQuotient (sqrtQ : ℚ → ℚ) (entities centroids : Mat Flt) (weights : Mat Bool)
    (norm : squaredNorm_t) (i j : Nat) : ℚ :=
  (specScatter sqrtQ entities centroids weights norm i +
    specScatter sqrtQ entities centroids weights norm j) /
      specSeparation sqrtQ centroids norm i j

/-- The number `R` is `max over j != i of (S_i + S_j) / M_ij`: one of these quotients, and
at least every one of them. -/
def IsWorstQuotient (sqrtQ : ℚ → ℚ) (entities centroids : Mat Flt) (weights : Mat Bool)
    (norm : squaredNorm_t) (i : Nat) (R : ℚ) : Prop :=
  (∃ j, j < centroids.rows ∧ j ≠ i ∧
    R = specQuotient sqrtQ entities centroids weights norm i j) ∧
  ∀ j, j < centroids.rows → j ≠ i →
    specQuotient sqrtQ entities centroids weights norm i j ≤ R

/-- A hard clustering on which the Davies-Bouldin index is defined: at least two
clusters, a weight matrix with one column per entity, no empty cluster, distances of the
entities to their centroid that are non-negative numbers, and distances between two
different centroids that are positive numbers. -/
structure ValidClustering (entities centroids : Mat Flt) (weights : Mat Bool)
    (norm : squaredNorm_t) : Prop where
  twoClusters : 2 ≤ centroids.rows
  cols : weights.cols = entities.rows
  nonempty : ∀ i, i < centroids.rows → ∃ j, j < entities.rows ∧ weights.coeff i j = true
  distance : ∀ i j, i < centroids.rows → j < entities.rows → weights.coeff i j = true →
    ∃ a : ℚ, 0 ≤ a ∧ norm (centroids.row i) (entities.row j) = Flt.fin a
  separation : ∀ i j, i < centroids.rows → j < centroids.rows → i ≠ j →
    ∃ a : ℚ, 0 < a ∧ norm (centroids.row i) (centroids.row j) = Flt.fin a

/-- What the index needs of the square root of the matrix library: non-negative values on
the non-negative numbers, positive values on the positive ones. -/
structure SqrtLike (sqrtQ : ℚ → ℚ) : Prop where
  nonneg : ∀ x : ℚ, 0 ≤ x → 0 ≤ sqrtQ x
  pos : ∀ x : ℚ, 0 < x → 0 < sqrtQ x

/-! ## Seeding (k-means++) -/

/-- A draw of `std::uniform_int_distribution<>(a, b)` from the raw output `raw` of the
random engine. -/
def uniformInt (a b raw : Nat) : Nat := a + raw % (b - a + 1)

/-- A draw of `std::uniform_real_distribution<>(a, b)` from the raw output `raw` of the
random engine: `a + u * (b - a)` for the fraction `u` of `[0, 1)` that `raw` stands for. -/
def uniformReal (a b : Flt) (raw : Nat) : Flt :=
  Flt.add a (Flt.mul (Flt.fin (((raw % 2 ^ 32 : Nat) : ℚ) / 2 ^ 32)) (Flt.sub b a))

/-- The running sum that `std::partial_sum` holds at position `k`. -/
def prefixSum (v : Nat → Flt) : Nat → Flt
  | 0 => v 0
  | k + 1 => Flt.add (prefixSum v k) (v (k + 1))

/-- The vector after `std::partial_sum(v, v + len, v)`: the positions below `len` hold
their running sums, the other ones are untouched. -/
def partialSum (v : Nat → Flt) (len : Nat) : Nat → Flt :=
  fun k => if k < len then prefixSum v k else v k

/-- The search of `std::upper_bound` from position `k` over `n` more positions: the first
position whose element is greater than `value`, the end of the range if there is none. -/
def upperBoundFrom (v : Nat → Flt) (value : Flt) : Nat → Nat → Nat
  | 0, k => k
  | n + 1, k => if Flt.lt value (v k) then k else upperBoundFrom v value n (k + 1)

/-- The index `std::upper_bound(v, v + len, value) - v`. -/
def upperBound (v : Nat → Flt) (len : Nat) (value : Flt) : Nat :=
  upperBoundFrom v value len 0

/-- The variables of the loop of `kmeansInitializer`. -/
structure SeedState where
  centroids : Mat Flt
  mEntities : Mat Flt
  squaredDistances : Nat → Flt
  currentClustersNumber : Nat
  randomIndex : Nat

/-- The distance of the pool entity `j` to the nearest of the centroids chosen so far,
as the loop over `i` of `kmeansInitializer` leaves it in `squaredDistances(j)`. -/
def nearestChosenDistance (norm : squaredNorm_t) (centroids mEntities : Mat Flt)
    (currentClustersNumber j : Nat) : Flt :=
  forLoop (fun i d => Flt.min (norm (centroids.row i) (mEntities.row j)) d)
    (currentClustersNumber - 1) 1 (norm (centroids.row 0) (mEntities.row j))

/-- The loop `while(true)` of `kmeansInitializer`; `gen k` is the `k`-th raw output of the
random engine of the call.  The loop leaves at the `break` once `clustersNumber`
centroids are chosen, which takes `clustersNumber` rounds. -/
def kmeansInitializerLoop (norm : squaredNorm_t) (gen : Nat → Nat)
    (statsNumber startingEntitiesNumber clustersNumber : Nat) :
    Nat → SeedState → Outcome (Mat Flt)
  | 0, _ => Outcome.diverged
  | fuel + 1, s =>
    let centroids := s.centroids.setRow s.currentClustersNumber (s.mEntities.coeff s.randomIndex)
    let last := startingEntitiesNumber - s.currentClustersNumber - 1
    let mEntities := s.mEntities.setRow s.randomIndex (s.mEntities.coeff last)
    let mEntities := mEntities.setRow last fun _ => Flt.fin 0
    let currentClustersNumber := s.currentClustersNumber + 1
    if currentClustersNumber = clustersNumber then Outcome.ok centroids
    else
      let pool := startingEntitiesNumber - currentClustersNumber
      let squaredDistances : Nat → Flt := fun j =>
        if j < pool then nearestChosenDistance norm centroids mEntities currentClustersNumber j
        else s.squaredDistances j
      let squaredDistances := partialSum squaredDistances (pool - 1)
      let randomFloat :=
        uniformReal (squaredDistances 0) (squaredDistances (pool - 1)) (gen currentClustersNumber)
      let randomIndex := upperBound squaredDistances (pool - 1) randomFloat
      kmeansInitializerLoop norm gen statsNumber startingEntitiesNumber clustersNumber fuel
        { centroids := centroids, mEntities := mEntities, squaredDistances := squaredDistances,
          currentClustersNumber := currentClustersNumber, randomIndex := randomIndex }

/-- The function `kmeansInitializer`; the result is the centroid matrix it leaves.  The
vector `squaredDistances` starts uninitialised (NaN here) and is written before it is
read whenever there are at least as many entities as centroids. -/
def kmeansInitializer (entities centroids : Mat Flt) (norm : squaredNorm_t)
    (gen : Nat → Nat) : Outcome (Mat Flt) :=
  let startingEntitiesNumber := entities.rows
  kmeansInitializerLoop norm gen entities.cols startingEntitiesNumber centroids.rows
    centroids.rows
    { centroids := centroids, mEntities := entities, squaredDistances := fun _ => Flt.nan,
      currentClustersNumber := 0,
      randomIndex := uniformInt 0 (startingEntitiesNumber - 1) (gen 0) }

/-! ## Hard k-means -/

/-- The centroids after the statements of the loop body of `kmeansGenerator` that precede
the new assignment: the sum of the entities of every cluster, times one over their
number, in exact arithmetic; `clusterMeansFloat` makes the same statements with the
roundings of `float`. -/
def clusterMeans (entities centroids : Mat Flt) (weights : Mat Bool) : Mat Flt :=
  let product : Mat Flt :=
    { centroids with coeff := fun r c => sumTo weights.cols (fun k =>
        Flt.mul (if weights.coeff r k then Flt.fin 1 else Flt.fin 0) (entities.coeff k c)) }
  forLoop (fun i c => c.scaleRow i (Flt.div (Flt.fin 1) (Flt.ofNat (weights.rowCount i))))
    centroids.rows 0 product

/-- The loop `while(oldWeights != weights)` of `kmeansGenerator`, stopped as diverged when
the fuel is spent. -/
def kmeansLoop (entities : Mat Flt) (norm : squaredNorm_t) :
    Nat → Mat Flt → Mat Bool → Mat Bool → Outcome (Mat Flt × Mat Bool)
  | 0, centroids, weights, oldWeights =>
    if Mat.eqb oldWeights weights then Outcome.ok (centroids, weights) else Outcome.diverged
  | fuel + 1, centroids, weights, oldWeights =>
    if Mat.eqb oldWeights weights then Outcome.ok (centroids, weights)
    else
      let oldWeights := weights
      let centroids := clusterMeans entities centroids weights
      let weights := calculateBooleanWeights entities centroids weights norm
      kmeansLoop entities norm fuel centroids weights oldWeights

/-- The function `kmeansGenerator`, with the fuel of its convergence loop. -/
def kmeansGenerator (fuel : Nat) (entities centroids : Mat Flt) (weights : Mat Bool)
    (norm : squaredNorm_t) (gen : Nat → Nat) : Outcome (Mat Flt × Mat Bool) :=
  if entities.cols = centroids.cols then
    (kmeansInitializer entities centroids norm gen).bind fun centroids =>
      let weights := calculateBooleanWeights entities centroids weights norm
      let oldWeights : Mat Bool :=
        { rows := centroids.rows, cols := entities.rows, coeff := fun _ _ => false }
      kmeansLoop entities norm fuel centroids weights oldWeights
  else Outcome.violation

/-! ## The search of the cluster count -/

/-- The variables of `clusterGeneratorApproximate` during its search; `calls` counts the
runs of `kmeansGenerator` made so far, each of which seeds a random engine of its own. -/
structure SearchState where
  centroids : Mat Flt
  boolWeights : Mat Bool
  fitnessCandidate : Flt
  newFitness : Flt
  currentClustersCandidate : Mat Flt
  currentBoolWeightsCandidate : Mat Bool
  clustersNumber : Nat
  calls : Nat

/-- One pass of the body of the `do ... while` of `clusterGeneratorApproximate`: a run of
`kmeansGenerator` on the zeroed candidate blocks, and its Davies-Bouldin index. -/
def searchRun (sqrtQ : ℚ → ℚ) (fuel : Nat) (entities : Mat Flt) (norm : squaredNorm_t)
    (rd : Nat → Nat → Nat) (currentClustersNumber : Nat) (s : SearchState) :
    Outcome SearchState :=
  let statsNumber := entities.cols
  let entitiesNumber := entities.rows
  let candidate := s.currentClustersCandidate.setTopLeftCorner
    { rows := currentClustersNumber, cols := statsNumber, coeff := fun _ _ => Flt.fin 0 }
  let boolCandidate := s.currentBoolWeightsCandidate.setTopLeftCorner
    { rows := currentClustersNumber, cols := entitiesNumber, coeff := fun _ _ => false }
  (kmeansGenerator fuel entities (candidate.topLeftCorner currentClustersNumber statsNumber)
      (boolCandidate.topLeftCorner currentClustersNumber entitiesNumber) norm
      (rd s.calls)).bind fun cw =>
    let candidate := candidate.setTopLeftCorner cw.1
    let boolCandidate := boolCandidate.setTopLeftCorner cw.2
    Outcome.ok
      { s with
        currentClustersCandidate := candidate
        currentBoolWeightsCandidate := boolCandidate
        newFitness := (daviesBouldinIndex sqrtQ entities
          (candidate.topLeftCorner currentClustersNumber statsNumber)
          (boolCandidate.topLeftCorner currentClustersNumber entitiesNumber) norm)
        calls := s.calls + 1 }

/-- The `do ... while` of `clusterGeneratorApproximate`, entered with the counter
`iterations`; `budget` bounds the passes and is never spent when it starts at
`maxIterationPerClustersNumber`. -/
def searchAttemptRuns (sqrtQ : ℚ → ℚ) (fuel : Nat) (entities : Mat Flt)
    (norm : squaredNorm_t) (rd : Nat → Nat → Nat) (currentClustersNumber : Nat) :
    Nat → Nat → SearchState → Outcome SearchState
  | 0, _, _ => Outcome.diverged
  | budget + 1, iterations, s =>
    (searchRun sqrtQ fuel entities norm rd currentClustersNumber s).bind fun s1 =>
      let iterations := iterations + 1
      if s1.newFitness.isNaN && decide (iterations < maxIterationPerClustersNumber) then
        searchAttemptRuns sqrtQ fuel entities norm rd currentClustersNumber budget iterations s1
      else Outcome.ok s1

/-- The body of the loop over the attempts of `clusterGeneratorApproximate`: the runs of
one attempt, then the comparison with the best fitness so far. -/
def searchAttempt (sqrtQ : ℚ → ℚ) (fuel : Nat) (entities : Mat Flt) (norm : squaredNorm_t)
    (rd : Nat → Nat → Nat) (currentClustersNumber : Nat) (s : SearchState) :
    Outcome SearchState :=
  (searchAttemptRuns sqrtQ fuel entities norm rd currentClustersNumber
      maxIterationPerClustersNumber 0 s).bind fun s1 =>
    if Flt.lt s1.newFitness s1.fitnessCandidate then
      Outcome.ok
        { s1 with
          centroids := (s1.centroids.setTopLeftCorner
            (s1.currentClustersCandidate.topLeftCorner currentClustersNumber entities.cols))
          boolWeights := (s1.boolWeights.setTopLeftCorner
            (s1.currentBoolWeightsCandidate.topLeftCorner currentClustersNumber entities.rows))
          fitnessCandidate := s1.newFitness
          clustersNumber := currentClustersNumber }
    else Outcome.ok s1

/-- The two nested `for` loops of `clusterGeneratorApproximate`, over the candidate counts
`2 .. maxClustersNumber` and the attempts of each. -/
def searchLoop (sqrtQ : ℚ → ℚ) (fuel : Nat) (entities : Mat Flt) (norm : squaredNorm_t)
    (rd : Nat → Nat → Nat) (maxClustersNumber : Nat) (s : SearchState) :
    Outcome SearchState :=
  forLoopM (fun currentClustersNumber s =>
      forLoopM (fun _ s => searchAttempt sqrtQ fuel entities norm rd currentClustersNumber s)
        attemptsPerClustersNumber 0 s)
    (maxClustersNumber - 1) 2 s

/-- The block `m.topRightCorner(r, c)`, read as a matrix of its own. -/
def Mat.topRightCorner {α : Type} (m : Mat α) (r c : Nat) : Mat α :=
  { rows := r, cols := c, coeff := fun i j => m.coeff i (m.cols - c + j) }

/-- The correction of the one-entity clusters at the end of `clusterGeneratorApproximate`. -/
def singletonCorrection (entities centroids : Mat Flt) (boolWeights : Mat Bool)
    (clustersNumber : Nat) : Mat Flt :=
  let shiftMultiplier := Flt.div offsetConstant (Flt.ofNat entities.cols)
  let averageEntity : Nat → Flt := fun c =>
    Flt.div (sumTo entities.rows fun j => entities.coeff j c) (Flt.ofNat entities.rows)
  forLoop (fun i (m : Mat Flt) =>
      if boolWeights.rowCount i = 1 then
        { m with coeff := fun r c =>
            (if r = i then
              Flt.add (m.coeff r c)
                (Flt.mul shiftMultiplier (Flt.sub (m.coeff r c) (averageEntity c)))
            else m.coeff r c) }
      else m)
    clustersNumber 0 centroids

/-- What `clusterGeneratorApproximate` returns and leaves in its output arguments. -/
structure ClusterResult where
  clustersNumber : Nat
  centroids : Mat Flt
  weights : Mat Flt
  boolWeights : Mat Bool

/-- The function `clusterGeneratorApproximate`; `rd n` is the stream of raw outputs of the
random engine that the `n`-th run of `kmeansGenerator` seeds, `fuel` bounds the
convergence loop of every run, and the two candidate matrices, uninitialised in the
source, start as NaN and false. -/
def clusterGeneratorApproximate (sqrtQ : ℚ → ℚ) (fuel : Nat) (rd : Nat → Nat → Nat)
    (entities centroids weights : Mat Flt) (boolWeights : Mat Bool)
    (norm : squaredNorm_t) : Outcome ClusterResult :=
  if centroids.cols = entities.cols then
    let statsNumber := entities.cols
    let entitiesNumber := entities.rows
    let maxClustersNumber := centroids.rows
    (searchLoop sqrtQ fuel entities norm rd maxClustersNumber
      { centroids := centroids, boolWeights := boolWeights,
        fitnessCandidate := Flt.fin 50, newFitness := Flt.fin 50,
        currentClustersCandidate :=
          { rows := maxClustersNumber, cols := statsNumber, coeff := fun _ _ => Flt.nan },
        currentBoolWeightsCandidate :=
          { rows := maxClustersNumber, cols := entitiesNumber, coeff := fun _ _ => false },
        clustersNumber := 2, calls := 0 }).bind fun s =>
      let centroids := singletonCorrection entities s.centroids s.boolWeights s.clustersNumber
      (calculateFuzzyWeights entities (centroids.topRightCorner s.clustersNumber statsNumber)
          (weights.topLeftCorner s.clustersNumber entitiesNumber) norm).bind fun w =>
        Outcome.ok
          { clustersNumber := s.clustersNumber, centroids := centroids,
            weights := weights.setTopLeftCorner w, boolWeights := s.boolWeights }
  else Outcome.violation

/-- The count that a call of `clusterGeneratorApproximate` returns, when it returns. -/
def returnedCount (o : Outcome ClusterResult) : Outcome Nat :=
  o.bind fun r => Outcome.ok r.clustersNumber

/-! ## Worked examples -/

/-- Entities of the worked examples on hard weights: the two points 0 and 3 on a line. -/
def exampleEntities : Mat Flt :=
  { rows := 2, cols := 1, coeff := fun r _ => if r = 0 then Flt.fin 0 else Flt.fin 3 }

/-- Centroids of the worked examples: 1, -1 and 3, the first two at the same distance
from the entity 0. -/
def exampleCentroids : Mat Flt :=
  { rows := 3, cols := 1,
    coeff := fun r _ => if r = 0 then Flt.fin 1 else if r = 1 then Flt.fin (-1) else Flt.fin 3 }

/-- Weight matrix of the worked examples before the call: every entry true. -/
def exampleWeights : Mat Bool :=
  { rows := 3, cols := 2, coeff := fun _ _ => true }

/-- The first two centroids of the worked examples, none of them on an entity. -/
def exampleCentroids2 : Mat Flt := exampleCentroids.topLeftCorner 2 1

/-- Fuzzy weight matrix of the worked examples before the call, for three centroids. -/
def exampleFuzzyWeights : Mat Flt :=
  { rows := 3, cols := 2, coeff := fun _ _ => Flt.fin 7 }

/-- Fuzzy weight matrix of the worked examples before the call, for two centroids. -/
def exampleFuzzyWeights2 : Mat Flt :=
  { rows := 2, cols := 2, coeff := fun _ _ => Flt.fin 7 }

/-- Entities of the worked example on fuzzy c-means: three points of the plane. -/
def fcmEntities : Mat Flt :=
  { rows := 3, cols := 2,
    coeff := fun r c =>
      if r = 0 then Flt.fin (-1) else if r = 1 then (if c = 0 then Flt.fin 1 else Flt.fin 0)
      else (if c = 0 then Flt.fin 0 else Flt.fin 1) }

/-- Centroid matrix of the worked example on fuzzy c-means before the call: one row. -/
def fcmCentroids : Mat Flt :=
  { rows := 1, cols := 2, coeff := fun _ _ => Flt.fin 0 }

/-- Weight matrix of the worked example on fuzzy c-means before the call. -/
def fcmWeights : Mat Flt :=
  { rows := 1, cols := 3, coeff := fun _ _ => Flt.fin 0 }

/-- The random weights of the worked example on fuzzy c-means: every entry 1/2. -/
def fcmRandom : Nat → Nat → ℚ := fun _ _ => 1 / 2

/-- The weights of the worked example after `MatrixXf::Random`. -/
def fcmRandomWeights : Mat Flt :=
  { fcmWeights with coeff := fun r c => Flt.fin (fcmRandom r c) }

/-- The weights of the worked example after the first pass of the loop of
`FCMGenerator`. -/
def fcmWeightsAfter : Mat Flt :=
  ((distanceFill fcmEntities (FCMCentroids fcmEntities fcmRandomWeights 1) euclideanNorm
    fcmRandomWeights 0 1 3).map fun x => Flt.div (Flt.fin 1) x).rowwiseNormalize Rat.sqrt

/-- Entities of the worked example on the index: the points 0, 1, 10 and 11 of a line. -/
def dbEntities : Mat Flt :=
  { rows := 4, cols := 1,
    coeff := fun r _ =>
      if r = 0 then Flt.fin 0 else if r = 1 then Flt.fin 1
      else if r = 2 then Flt.fin 10 else Flt.fin 11 }

/-- Centroids of the worked example on the index: 1/2 and 21/2. -/
def dbCentroids : Mat Flt :=
  { rows := 2, cols := 1, coeff := fun r _ => if r = 0 then Flt.fin (1 / 2) else Flt.fin (21 / 2) }

/-- Hard weights of the worked example on the index: the first two entities in the
cluster 0, the last two in the cluster 1. -/
def dbWeights : Mat Bool :=
  { rows := 2, cols := 4, coeff := fun r c => if r = 0 then decide (c < 2) else decide (2 ≤ c) }

/-- Centroids that lie on the two entities of `exampleEntities`. -/
def exactCentroids : Mat Flt :=
  { rows := 2, cols := 1, coeff := fun r _ => if r = 0 then Flt.fin 0 else Flt.fin 3 }

/-- Hard weights that assign each of the two entities to the centroid lying on it. -/
def exactWeights : Mat Bool :=
  { rows := 2, cols := 2, coeff := fun r c => decide (r = c) }

/-- A single centroid, at 1. -/
def oneCentroid : Mat Flt :=
  { rows := 1, cols := 1, coeff := fun _ _ => Flt.fin 1 }

/-- Hard weights that assign the two entities to the single centroid. -/
def oneClusterWeights : Mat Bool :=
  { rows := 1, cols := 2, coeff := fun _ _ => true }

/-- Centroid matrix handed to the search in its worked example: room for two clusters. -/
def searchCentroids : Mat Flt :=
  { rows := 2, cols := 1, coeff := fun _ _ => Flt.fin 0 }

/-- Fuzzy weight matrix handed to the search in its worked example. -/
def searchWeights : Mat Flt :=
  { rows := 2, cols := 2, coeff := fun _ _ => Flt.fin 0 }

/-- Hard weight matrix handed to the search in its worked example. -/
def searchBoolWeights : Mat Bool :=
  { rows := 2, cols := 2, coeff := fun _ _ => false }

/-- Random engines of the worked example of the search: every raw output is 0. -/
def searchDraws : Nat → Nat → Nat := fun _ _ => 0

/-- A single entity, at 1 on a line. -/
def singleEntity : Mat Flt :=
  { rows := 1, cols := 1, coeff := fun _ _ => Flt.fin 1 }

/-- A one by one matrix of zeros, the centroids and the weights handed to `FCMGenerator`
with the single entity. -/
def singleZero : Mat Flt :=
  { rows := 1, cols := 1, coeff := fun _ _ => Flt.fin 0 }

/-! ## The exact search -/

/-- The function `silhouetteTest` of the source file: a stub that returns 1. -/
def silhouetteTest (_entities _clusters _weights : Mat Flt) : Flt := Flt.fin 1

/-- The variables of `clusterGeneratorExact` during its loop. -/
structure ExactState where
  centroids : Mat Flt
  weights : Mat Flt
  fitnessCandidate : Flt
  newFitness : Flt
  currentClustersCandidate : Mat Flt
  currentWeightsCandidate : Mat Flt
  centroidsNumber : Nat

/-- The body of the loop of `clusterGeneratorExact` for the candidate count
`clustersNumber`; `random` gives the weights that `MatrixXf::Random` draws in the call of
`FCMGenerator`, which receives the two candidate matrices whole. -/
def exactStep (sqrtQ : ℚ → ℚ) (random : Nat → Nat → Nat → ℚ) (maxIterations : Nat)
    (entities : Mat Flt) (norm : squaredNorm_t) (clustersNumber : Nat) (s : ExactState) :
    Outcome ExactState :=
  let statsNumber := entities.cols
  let entitiesNumber := entities.rows
  let candidate := s.currentClustersCandidate.setTopLeftCorner
    { rows := clustersNumber, cols := statsNumber, coeff := fun _ _ => Flt.fin 0 }
  let weightsCandidate := s.currentWeightsCandidate.setTopLeftCorner
    { rows := clustersNumber, cols := entitiesNumber, coeff := fun _ _ => Flt.fin 0 }
  (FCMGenerator sqrtQ (random clustersNumber) maxIterations entities candidate
      weightsCandidate norm).bind fun cw =>
    let newFitness := silhouetteTest entities cw.1 cw.2
    if Flt.lt s.fitnessCandidate newFitness then
      Outcome.ok
        { centroids := s.centroids.setTopLeftCorner (cw.1.topLeftCorner clustersNumber statsNumber),
          weights := s.weights.setTopLeftCorner (cw.2.topLeftCorner clustersNumber entitiesNumber),
          fitnessCandidate := newFitness, newFitness := newFitness,
          currentClustersCandidate := cw.1, currentWeightsCandidate := cw.2,
          centroidsNumber := clustersNumber }
    else
      Outcome.ok
        { s with
          newFitness := newFitness
          currentClustersCandidate := cw.1
          currentWeightsCandidate := cw.2 }

/-- The function `clusterGeneratorExact`: the count it returns with the centroids and the
weights it leaves.  The matrix `currentWeightsCandidate` is declared without a size and
never given one, so it has no row and no column; `currentClustersCandidate`,
uninitialised in the source, starts as NaN. -/
def clusterGeneratorExact (sqrtQ : ℚ → ℚ) (random : Nat → Nat → Nat → ℚ)
    (maxIterations : Nat) (entities centroids weights : Mat Flt) (norm : squaredNorm_t) :
    Outcome (Nat × Mat Flt × Mat Flt) :=
  if weights.rows = weights.cols then
    let statsNumber := entities.cols
    let maxClustersNumber := centroids.rows
    (forLoopM (exactStep sqrtQ random maxIterations entities norm) (maxClustersNumber - 1) 2
      { centroids := centroids, weights := weights,
        fitnessCandidate := Flt.fin 0, newFitness := Flt.fin 0,
        currentClustersCandidate :=
          { rows := maxClustersNumber, cols := statsNumber, coeff := fun _ _ => Flt.nan },
        currentWeightsCandidate := { rows := 0, cols := 0, coeff := fun _ _ => Flt.nan },
        centroidsNumber := 2 }).bind fun s =>
      Outcome.ok (s.centroidsNumber, s.centroids, s.weights)
  else Outcome.violation

/-- Random weights of the worked example of the exact search: every entry 1/2. -/
def exactRandom : Nat → Nat → Nat → ℚ := fun _ _ _ => 1 / 2

/-- Three entities on a line, at -1, 0 and 1: the second one is the mean of the set. -/
def threeEntities : Mat Flt :=
  { rows := 3, cols := 1,
    coeff := fun r _ => if r = 0 then Flt.fin (-1) else if r = 1 then Flt.fin 0 else Flt.fin 1 }

/-- Hard weights that put each of the three entities in a cluster of its own. -/
def threeSingletons : Mat Bool :=
  { rows := 3, cols := 3, coeff := fun r c => decide (r = c) }

/-- Centroid matrix handed to the search on the three entities: room for three clusters. -/
def threeCentroids : Mat Flt :=
  { rows := 3, cols := 1, coeff := fun _ _ => Flt.fin 0 }

/-- Fuzzy weight matrix handed to the search on the three entities. -/
def threeWeights : Mat Flt :=
  { rows := 3, cols := 3, coeff := fun _ _ => Flt.fin 0 }

/-- Hard weight matrix handed to the search on the three entities. -/
def threeBoolWeights : Mat Bool :=
  { rows := 3, cols := 3, coeff := fun _ _ => false }

/-! ## One round of the seeding loop, piece by piece -/

/-- The centroid matrix after the first statement of a round of the loop of
`kmeansInitializer`: the row of the pool at `randomIndex` becomes the next centroid. -/
def seedRoundCentroids (s : SeedState) : Mat Flt :=
  s.centroids.setRow s.currentClustersNumber (s.mEntities.coeff s.randomIndex)

/-- The pool after the compaction of a round: the last live row moves to the place of the
chosen one and is set to zero. -/
def seedRoundPool (startingEntitiesNumber : Nat) (s : SeedState) : Mat Flt :=
  (s.mEntities.setRow s.randomIndex
    (s.mEntities.coeff (startingEntitiesNumber - s.currentClustersNumber - 1))).setRow
    (startingEntitiesNumber - s.currentClustersNumber - 1) fun _ => Flt.fin 0

/-- The vector `squaredDistances` of a round before `std::partial_sum`: the distance of
every entity left in the pool to the nearest centroid chosen so far. -/
def seedRoundDistances (norm : squaredNorm_t) (startingEntitiesNumber : Nat) (s : SeedState) :
    Nat → Flt :=
  fun j =>
    if j < startingEntitiesNumber - (s.currentClustersNumber + 1) then
      nearestChosenDistance norm (seedRoundCentroids s) (seedRoundPool startingEntitiesNumber s)
        (s.currentClustersNumber + 1) j
    else s.squaredDistances j

/-- The vector `squaredDistances` of a round after `std::partial_sum`. -/
def seedRoundCumulative (norm : squaredNorm_t) (startingEntitiesNumber : Nat) (s : SeedState) :
    Nat → Flt :=
  partialSum (seedRoundDistances norm startingEntitiesNumber s)
    (startingEntitiesNumber - (s.currentClustersNumber + 1) - 1)

/-- The value `randomFloat` that a round draws. -/
def seedRoundDraw (norm : squaredNorm_t) (gen : Nat → Nat) (startingEntitiesNumber : Nat)
    (s : SeedState) : Flt :=
  uniformReal (seedRoundCumulative norm startingEntitiesNumber s 0)
    (seedRoundCumulative norm startingEntitiesNumber s
      (startingEntitiesNumber - (s.currentClustersNumber + 1) - 1))
    (gen (s.currentClustersNumber + 1))

/-- The variables of the loop of `kmeansInitializer` at the end of a round that does not
leave at the `break`. -/
def kmeansInitializerNext (norm : squaredNorm_t) (gen : Nat → Nat)
    (startingEntitiesNumber : Nat) (s : SeedState) : SeedState :=
  { centroids := seedRoundCentroids s,
    mEntities := seedRoundPool startingEntitiesNumber s,
    squaredDistances := seedRoundCumulative norm startingEntitiesNumber s,
    currentClustersNumber := s.currentClustersNumber + 1,
    randomIndex := upperBound (seedRoundCumulative norm startingEntitiesNumber s)
      (startingEntitiesNumber - (s.currentClustersNumber + 1) - 1)
      (seedRoundDraw norm gen startingEntitiesNumber s) }

/-- The state in which `kmeansInitializer` enters its loop. -/
def kmeansInitializerStart (entities centroids : Mat Flt) (gen : Nat → Nat) : SeedState :=
  { centroids := centroids, mEntities := entities, squaredDistances := fun _ => Flt.nan,
    currentClustersNumber := 0,
    randomIndex := uniformInt 0 (entities.rows - 1) (gen 0) }

/-- The rows of a centroid matrix that a call returns, as lists. -/
def centroidRows (o : Outcome (Mat Flt)) : Outcome (List (List Flt)) :=
  o.bind fun c => Outcome.ok ((List.range c.rows).map fun i => c.row i)

/-- Entities of the worked example on the seeding: the points 1, 2, 3 and 0 of a line. -/
def seedEntities : Mat Flt :=
  { rows := 4, cols := 1,
    coeff := fun r _ =>
      if r = 0 then Flt.fin 1 else if r = 1 then Flt.fin 2
      else if r = 2 then Flt.fin 3 else Flt.fin 0 }

/-- Centroid matrix of the worked example on the seeding: two rows to fill. -/
def seedCentroids : Mat Flt :=
  { rows := 2, cols := 1, coeff := fun _ _ => Flt.fin 7 }

/-- Raw outputs of the random engine in the worked example on the seeding: the first one
picks the entity 3 (the point 0), the next ones stand for the fraction 1/2. -/
def seedDraws : Nat → Nat := fun k => if k = 0 then 3 else 2 ^ 31

/-- Invariant of the loop of `kmeansInitializer` at the start of a round, for an entity
matrix and `clustersNumber` centroids to choose: `orig j` is the row of the entity matrix
that the live row `j` of the pool holds, `pos i` the row that the centroid `i` was taken
from; the live rows hold pairwise different rows, none of them chosen so far. -/
structure SeedInv (entities : Mat Flt) (clustersNumber : Nat) (s : SeedState)
    (orig pos : Nat → Nat) : Prop where
  cur_lt : s.currentClustersNumber < clustersNumber
  index_lt : s.randomIndex < entities.rows - s.currentClustersNumber
  centroids_rows : s.centroids.rows = clustersNumber
  centroids_cols : s.centroids.cols = entities.cols
  pool_rows : s.mEntities.rows = entities.rows
  pool_cols : s.mEntities.cols = entities.cols
  pool_orig : ∀ j, j < entities.rows - s.currentClustersNumber →
    orig j < entities.rows ∧
      ∀ c, c < entities.cols → s.mEntities.coeff j c = entities.coeff (orig j) c
  pool_inj : ∀ j k, j < entities.rows - s.currentClustersNumber →
    k < entities.rows - s.currentClustersNumber → orig j = orig k → j = k
  chosen : ∀ i, i < s.currentClustersNumber →
    pos i < entities.rows ∧
      ∀ c, c < entities.cols → s.centroids.coeff i c = entities.coeff (pos i) c
  chosen_inj : ∀ i k, i < s.currentClustersNumber → k < s.currentClustersNumber →
    pos i = pos k → i = k
  disjoint : ∀ i j, i < s.currentClustersNumber →
    j < entities.rows - s.currentClustersNumber → pos i ≠ orig j

/-! ## The attempts of the search, recorded -/

/-- The state in which `clusterGeneratorApproximate` enters its search. -/
def searchStart (entities centroids : Mat Flt) (boolWeights : Mat Bool) : SearchState :=
  { centroids := centroids, boolWeights := boolWeights,
    fitnessCandidate := Flt.fin 50, newFitness := Flt.fin 50,
    currentClustersCandidate :=
      { rows := centroids.rows, cols := entities.cols, coeff := fun _ _ => Flt.nan },
    currentBoolWeightsCandidate :=
      { rows := centroids.rows, cols := entities.rows, coeff := fun _ _ => false },
    clustersNumber := 2, calls := 0 }

/-- An attempt of the search, with a log: the attempt is `searchAttempt`, and the log
gets the candidate count of the attempt with the state it ends in, whose `newFitness` is
the final score of the attempt and whose candidate matrices hold its centroids and hard
weights. -/
def searchAttemptLogged (sqrtQ : ℚ → ℚ) (fuel : Nat) (entities : Mat Flt)
    (norm : squaredNorm_t) (rd : Nat → Nat → Nat) (currentClustersNumber : Nat)
    (sl : SearchState × List (Nat × SearchState)) :
    Outcome (SearchState × List (Nat × SearchState)) :=
  (searchAttempt sqrtQ fuel entities norm rd currentClustersNumber sl.1).bind fun t =>
    Outcome.ok (t, sl.2 ++ [(currentClustersNumber, t)])

/-- The two nested loops of the search, with the log of all the attempts made. -/
def searchLoopLogged (sqrtQ : ℚ → ℚ) (fuel : Nat) (entities : Mat Flt) (norm : squaredNorm_t)
    (rd : Nat → Nat → Nat) (maxClustersNumber : Nat)
    (sl : SearchState × List (Nat × SearchState)) :
    Outcome (SearchState × List (Nat × SearchState)) :=
  forLoopM (fun currentClustersNumber sl =>
      forLoopM
        (fun _ sl => searchAttemptLogged sqrtQ fuel entities norm rd currentClustersNumber sl)
        attemptsPerClustersNumber 0 sl)
    (maxClustersNumber - 1) 2 sl

/-- The outputs of the search state `s` are those of the logged attempt `a`: its count,
its final score, and its centroids and hard weights in the blocks of that count. -/
def AttemptSelected (entities : Mat Flt) (a : Nat × SearchState) (s : SearchState) : Prop :=
  s.clustersNumber = a.1 ∧ s.fitnessCandidate = a.2.newFitness ∧
  (∀ i c, i < a.1 → c < entities.cols →
    s.centroids.coeff i c = a.2.currentClustersCandidate.coeff i c) ∧
  (∀ i j, i < a.1 → j < entities.rows →
    s.boolWeights.coeff i j = a.2.currentBoolWeightsCandidate.coeff i j)

/-- Invariant of the search from the state `s0`: no attempt so far scored below 50 and the
outputs are untouched, or the outputs are those of an attempt that scored below 50 and
that no attempt so far beats. -/
def SearchInv (entities : Mat Flt) (s0 : SearchState)
    (sl : SearchState × List (Nat × SearchState)) : Prop :=
  (sl.1.fitnessCandidate = Flt.fin 50 ∧ sl.1.centroids = s0.centroids ∧
    sl.1.boolWeights = s0.boolWeights ∧ sl.1.clustersNumber = s0.clustersNumber ∧
    ∀ b, b ∈ sl.2 → Flt.lt b.2.newFitness (Flt.fin 50) = false) ∨
  (∃ a, a ∈ sl.2 ∧ Flt.lt a.2.newFitness (Flt.fin 50) = true ∧
    AttemptSelected entities a sl.1 ∧
    ∀ b, b ∈ sl.2 → Flt.lt b.2.newFitness a.2.newFitness = false)

/-- The final scores of the logged attempts. -/
def loggedScores (o : Outcome (SearchState × List (Nat × SearchState))) :
    Outcome (List Flt) :=
  o.bind fun sl => Outcome.ok (sl.2.map fun a => a.2.newFitness)

/-- The centroids of the logged attempts, row by row. -/
def loggedCentroids (o : Outcome (SearchState × List (Nat × SearchState))) :
    Outcome (List (List (List Flt))) :=
  o.bind fun sl => Outcome.ok (sl.2.map fun a =>
    (List.range a.1).map fun i => a.2.currentClustersCandidate.row i)

/-- The rows of the selected clusters in the centroids that a call returns. -/
def returnedCentroidRows (o : Outcome ClusterResult) : Outcome (List (List Flt)) :=
  o.bind fun r => Outcome.ok ((List.range r.clustersNumber).map fun i => r.centroids.row i)

/-- Entities of the worked example on the selection: four points of the plane, two on
each of two vertical lines 1/10 apart, 6 apart on their line. -/
def tallEntities : Mat Flt :=
  { rows := 4, cols := 2,
    coeff := fun r c =>
      if c = 0 then (if r = 0 ∨ r = 2 then Flt.fin 0 else Flt.fin (1 / 10))
      else (if r < 2 then Flt.fin 3 else Flt.fin (-3)) }

/-- Centroid matrix handed to the search on the four points: every entry 7. -/
def tallCentroids : Mat Flt :=
  { rows := 2, cols := 2, coeff := fun _ _ => Flt.fin 7 }

/-- Fuzzy weight matrix handed to the search on the four points. -/
def tallWeights : Mat Flt :=
  { rows := 2, cols := 4, coeff := fun _ _ => Flt.fin 0 }

/-- Hard weight matrix handed to the search on the four points. -/
def tallBoolWeights : Mat Bool :=
  { rows := 2, cols := 4, coeff := fun _ _ => false }


/-! ## Hard k-means as the specification words it -/

/-- The entities that the weights assign to cluster `i`. -/
def assignedEntities (entities : Mat Flt) (weights : Mat Bool) (i : Nat) : Finset Nat :=
  (Finset.range entities.rows).filter fun j => weights.coeff i j = true

/-- The arithmetic mean, in the coordinate `c`, of the entities that the weights assign to
cluster `i`: their sum over their number. -/
def assignedMean (entities : Mat Flt) (weights : Mat Bool) (i c : Nat) : ℚ :=
  (∑ j in assignedEntities entities weights i, (entities.coeff j c).toRat) /
    (assignedEntities entities weights i).card

/-- Every entry of the matrix is a finite number. -/
def FiniteEntries (m : Mat Flt) : Prop :=
  ∀ r c, r < m.rows → c < m.cols → ∃ q : ℚ, m.coeff r c = Flt.fin q

/-- What holds of the variables of `kmeansGenerator` whenever the test of its loop is
made, for the weight matrix `weights0` of the caller and the centroids `seeds` of
`kmeansInitializer`: the weights are the assignment of the centroids, and either nothing
was done yet, or the old weights are an assignment too and the centroids are the means
that the body of the loop makes of them. -/
def KmeansInv (entities : Mat Flt) (norm : squaredNorm_t) (weights0 : Mat Bool)
    (seeds centroids : Mat Flt) (weights oldWeights : Mat Bool) : Prop :=
  centroids.rows = seeds.rows ∧ centroids.cols = seeds.cols ∧
  weights = calculateBooleanWeights entities centroids weights0 norm ∧
  ((oldWeights = { rows := seeds.rows, cols := entities.rows, coeff := fun _ _ => false } ∧
      centroids = seeds) ∨
    ∃ previous : Mat Flt,
      oldWeights = calculateBooleanWeights entities previous weights0 norm ∧
      centroids = clusterMeans entities previous oldWeights)

/-- The number of entities of every cluster in what a call of `kmeansGenerator` returns. -/
def clusterSizes (o : Outcome (Mat Flt × Mat Bool)) : Outcome (List Nat) :=
  o.bind fun r => Outcome.ok ((List.range r.1.rows).map fun i => r.2.rowCount i)


/-! ## The cost of a clustering -/

/-- The coefficient of a matrix of finite entries as a rational number. -/
def Mat.value (m : Mat Flt) (r c : Nat) : ℚ := (m.coeff r c).toRat

/-- The mean, in the coordinate `k`, of the entities that the assignment `a` sends to
the cluster `i`. -/
def assignmentMean (entities : Mat Flt) (a : Nat → Nat) (i k : Nat) : ℚ :=
  (∑ j in (Finset.range entities.rows).filter (fun j => a j = i), entities.value j k) /
    ((Finset.range entities.rows).filter (fun j => a j = i)).card

/-- The squared Euclidean distance of the entity `j` to the point `c i`. -/
def squaredDistance (entities : Mat Flt) (c : Nat → Nat → ℚ) (i j : Nat) : ℚ :=
  ∑ k in Finset.range entities.cols, (c i k - entities.value j k) ^ 2

/-- The total squared distance of the entities to the points that the assignment `a`
gives them among the `c i`. -/
def assignmentCost (entities : Mat Flt) (c : Nat → Nat → ℚ) (a : Nat → Nat) : ℚ :=
  ∑ j in Finset.range entities.rows, squaredDistance entities c (a j) j

/-- The assignment `b` sends every entity to the first of the nearest of the `K` points
`c i`. -/
def NearestFirst (entities : Mat Flt) (K : Nat) (c : Nat → Nat → ℚ) (b : Nat → Nat) : Prop :=
  ∀ j, j < entities.rows → b j < K ∧
    (∀ i, i < K → squaredDistance entities c (b j) j ≤ squaredDistance entities c i j) ∧
    (∀ i, i < b j → squaredDistance entities c (b j) j < squaredDistance entities c i j)

/-- The quantity that every pass of the loop of `kmeansGenerator` lowers: the cost of the
assignment at the means of its clusters, then the sum of the cluster indices. -/
def assignmentPotential (entities : Mat Flt) (a : Nat → Nat) : Lex (ℚ × Nat) :=
  toLex (assignmentCost entities (assignmentMean entities a) a,
    ∑ j in Finset.range entities.rows, a j)

/-- The cluster that `calculateBooleanWeights` gives the entity `j`: its `minIndex`. -/
def assignment (entities centroids : Mat Flt) (norm : squaredNorm_t) (j : Nat) : Nat :=
  (nearest centroids norm (entities.row j)).2

/-- The total within-cluster distance: the sum over the entities `j` of the distance of
the entity `j` to the centroid of the cluster that the weights give it. -/
def withinClusterDistance (entities centroids : Mat Flt) (weights : Mat Bool)
    (norm : squaredNorm_t) : Flt :=
  sumTo entities.rows fun j => sumTo centroids.rows fun i =>
    if weights.coeff i j then norm (centroids.row i) (entities.row j) else Flt.fin 0

/-- One pass of the body of the loop of `kmeansGenerator` on the centroids and the
weights: the centroids become the means, then the entities are assigned again. -/
def kmeansStep (entities : Mat Flt) (norm : squaredNorm_t) (s : Mat Flt × Mat Bool) :
    Mat Flt × Mat Bool :=
  (clusterMeans entities s.1 s.2,
    calculateBooleanWeights entities (clusterMeans entities s.1 s.2) s.2 norm)

/-- The centroids and the weights after `n` passes of the body of the loop. -/
def kmeansStates (entities : Mat Flt) (norm : squaredNorm_t) :
    Nat → Mat Flt × Mat Bool → Mat Flt × Mat Bool
  | 0, s => s
  | n + 1, s => kmeansStates entities norm n (kmeansStep entities norm s)

/-- The centroids and the weights with which `kmeansGenerator` enters its loop, for the
centroids `seeds` that `kmeansInitializer` left. -/
def kmeansStart (entities seeds : Mat Flt) (weights : Mat Bool) (norm : squaredNorm_t) :
    Mat Flt × Mat Bool :=
  (seeds, calculateBooleanWeights entities seeds weights norm)

/-- The centroids that `kmeansInitializer` leaves on the two points 0 and 3, for two
clusters and every raw output of the engine 0. -/
def exampleSeeds : Mat Flt :=
  seedRoundCentroids (kmeansInitializerNext euclideanNorm (searchDraws 0) exampleEntities.rows
    (kmeansInitializerStart exampleEntities searchCentroids (searchDraws 0)))

/-- Hard weight matrix of the worked example on the seeding: one row for each of the two
clusters, one column for each of the four entities. -/
def seedBoolWeights : Mat Bool :=
  { rows := 2, cols := 4, coeff := fun _ _ => false }

/-- The centroids that `kmeansInitializer` leaves in the worked example on the seeding:
the points 0 and 3. -/
def seedExampleSeeds : Mat Flt :=
  seedRoundCentroids (kmeansInitializerNext euclideanNorm seedDraws seedEntities.rows
    (kmeansInitializerStart seedEntities seedCentroids seedDraws))


/-! ## The runs of an attempt -/

/-- What a search state holds of the selection, and the number of runs made so far: the
score of the last run, the best score, the selected count and `calls`. -/
def attemptSummary (o : Outcome SearchState) : Outcome (Flt × Flt × Nat × Nat) :=
  o.bind fun t => Outcome.ok (t.newFitness, t.fitnessCandidate, t.clustersNumber, t.calls)

/-- Entities of the worked example on the discarded attempts: the points 0, 0 and 3 of a
line, which make two clusters and never three. -/
def tripleEntities : Mat Flt :=
  { rows := 3, cols := 1, coeff := fun r _ => if r < 2 then Flt.fin 0 else Flt.fin 3 }

/-- Centroid matrix handed to the search on the three points: room for three clusters. -/
def tripleCentroids : Mat Flt :=
  { rows := 3, cols := 1, coeff := fun _ _ => Flt.fin 7 }

/-- Hard weight matrix handed to the search on the three points. -/
def tripleBoolWeights : Mat Bool :=
  { rows := 3, cols := 3, coeff := fun _ _ => false }

/-- Random engines of the worked example on the discarded attempts: the first raw output
of every engine picks the entity 2, the next ones stand for the fraction 1/2. -/
def tripleDraws : Nat → Nat → Nat := fun _ k => if k = 0 then 2 else 2 ^ 31

/-! ## The search, with the scores of every run recorded -/

/-- The comparison that ends an attempt of `clusterGeneratorApproximate`: the candidate
of the last run becomes the output when its fitness is below the best one so far. -/
def searchSelect (entities : Mat Flt) (currentClustersNumber : Nat) (s1 : SearchState) :
    SearchState :=
  if Flt.lt s1.newFitness s1.fitnessCandidate then
    { s1 with
      centroids := (s1.centroids.setTopLeftCorner
        (s1.currentClustersCandidate.topLeftCorner currentClustersNumber entities.cols))
      boolWeights := (s1.boolWeights.setTopLeftCorner
        (s1.currentBoolWeightsCandidate.topLeftCorner currentClustersNumber entities.rows))
      fitnessCandidate := s1.newFitness
      clustersNumber := currentClustersNumber }
  else s1

/-- The `do ... while` of `clusterGeneratorApproximate` as `searchAttemptRuns` makes it,
with a trace: every pass adds the score of its run to the list. -/
def searchAttemptRunsTraced (sqrtQ : ℚ → ℚ) (fuel : Nat) (entities : Mat Flt)
    (norm : squaredNorm_t) (rd : Nat → Nat → Nat) (currentClustersNumber : Nat) :
    Nat → Nat → SearchState × List Flt → Outcome (SearchState × List Flt)
  | 0, _, _ => Outcome.diverged
  | budget + 1, iterations, st =>
    (searchRun sqrtQ fuel entities norm rd currentClustersNumber st.1).bind fun s1 =>
      let iterations := iterations + 1
      if s1.newFitness.isNaN && decide (iterations < maxIterationPerClustersNumber) then
        searchAttemptRunsTraced sqrtQ fuel entities norm rd currentClustersNumber budget
          iterations (s1, st.2 ++ [s1.newFitness])
      else Outcome.ok (s1, st.2 ++ [s1.newFitness])

/-- An attempt of the search, with a trace: the trace gets the candidate count of the
attempt with the scores of its runs, in the order of the runs. -/
def searchAttemptTraced (sqrtQ : ℚ → ℚ) (fuel : Nat) (entities : Mat Flt)
    (norm : squaredNorm_t) (rd : Nat → Nat → Nat) (currentClustersNumber : Nat)
    (sl : SearchState × List (Nat × List Flt)) :
    Outcome (SearchState × List (Nat × List Flt)) :=
  (searchAttemptRunsTraced sqrtQ fuel entities norm rd currentClustersNumber
      maxIterationPerClustersNumber 0 (sl.1, [])).bind fun st =>
    Outcome.ok (searchSelect entities currentClustersNumber st.1,
      sl.2 ++ [(currentClustersNumber, st.2)])

/-- The two nested loops of the search, with the trace of all the attempts made. -/
def searchLoopTraced (sqrtQ : ℚ → ℚ) (fuel : Nat) (entities : Mat Flt) (norm : squaredNorm_t)
    (rd : Nat → Nat → Nat) (maxClustersNumber : Nat)
    (sl : SearchState × List (Nat × List Flt)) :
    Outcome (SearchState × List (Nat × List Flt)) :=
  forLoopM (fun currentClustersNumber sl =>
      forLoopM
        (fun _ sl => searchAttemptTraced sqrtQ fuel entities norm rd currentClustersNumber sl)
        attemptsPerClustersNumber 0 sl)
    (maxClustersNumber - 1) 2 sl

/-- The scores of the runs of an attempt are as the `do ... while` allows: one run at
least, `maxIterationPerClustersNumber` at most, every run but the last one with the score
NaN, and the last one with a score that is not NaN when the cap was not reached. -/
def RunsAllowed (scores : List Flt) : Prop :=
  1 ≤ scores.length ∧ scores.length ≤ maxIterationPerClustersNumber ∧
  (∀ x, x ∈ scores.dropLast → x.isNaN = true) ∧
  (scores.length < maxIterationPerClustersNumber →
    ∀ x, x ∈ scores.getLast? → x.isNaN = false)

/-- The trace that a traced search returns. -/
def tracedRuns (o : Outcome (SearchState × List (Nat × List Flt))) :
    Outcome (List (Nat × List Flt)) :=
  o.bind fun sl => Outcome.ok sl.2


/-! ## The roundings of `float`

The definitions above compute in exact arithmetic.  The ones of this section round as the
`float` and `double` types do, to nearest with ties to even, so that the loop of
`kmeansGenerator` can also be run with the roundings that the source makes. -/

/-- The greatest `e` with `2 ^ e ≤ n`, for `n` not zero; `fuel` bounds the halvings. -/
def log2Floor : Nat → Nat → Nat
  | 0, _ => 0
  | fuel + 1, n => if n < 2 then 0 else log2Floor fuel (n / 2) + 1

/-- The power `2 ^ e` of an integer `e`, as a rational number. -/
def twoPow (e : Int) : ℚ :=
  if 0 ≤ e then ((2 ^ e.toNat : Nat) : ℚ) else 1 / ((2 ^ (-e).toNat : Nat) : ℚ)

/-- The absolute value of a rational number. -/
def absQ (q : ℚ) : ℚ := if q < 0 then -q else q

/-- The binary exponent of a rational number that is not zero: the greatest `e` with
`2 ^ e ≤ |q|`. -/
def binade (q : ℚ) : Int :=
  let e0 : Int :=
    (log2Floor q.num.natAbs q.num.natAbs : Int) - (log2Floor q.den q.den : Int)
  if twoPow e0 ≤ absQ q then e0 else e0 - 1

/-- The integer nearest to a non-negative rational number, the even one of the two on a
tie. -/
def roundHalfEven (x : ℚ) : Nat :=
  let m := x.num.natAbs / x.den
  let r := x.num.natAbs % x.den
  if 2 * r < x.den then m
  else if x.den < 2 * r then m + 1
  else if m % 2 = 0 then m else m + 1

/-- The rounding of a rational number to the binary floating-point format with `prec`
significant bits and exponents from `emin` to `emax`: to nearest, ties to even, gradual
underflow below `2 ^ emin`, infinity when the rounded value is beyond the format. -/
def roundBinary (prec : Nat) (emin emax : Int) (q : ℚ) : Flt :=
  if q = 0 then Flt.fin 0
  else
    let e := if binade q < emin then emin else binade q
    let ulp := twoPow (e - ((prec : Int) - 1))
    let r := (roundHalfEven (absQ q / ulp) : ℚ) * ulp
    if twoPow (emax + 1) ≤ r then Flt.inf (decide (q < 0))
    else Flt.fin (if q < 0 then -r else r)

/-- The conversion of a value to `float`: 24 significant bits, exponents -126 to 127. -/
def Flt.toFloat : Flt → Flt
  | Flt.fin q => roundBinary 24 (-126) 127 q
  | x => x

/-- The conversion of a value to `double`: 53 significant bits, exponents -1022 to
1023. -/
def Flt.toDouble : Flt → Flt
  | Flt.fin q => roundBinary 53 (-1022) 1023 q
  | x => x

/-- The sum `a + b` of two `float` values. -/
def Flt.addFloat (a b : Flt) : Flt := (Flt.add a b).toFloat

/-- The difference `a - b` of two `float` values. -/
def Flt.subFloat (a b : Flt) : Flt := (Flt.sub a b).toFloat

/-- The product `a * b` of two `float` values. -/
def Flt.mulFloat (a b : Flt) : Flt := (Flt.mul a b).toFloat

/-- The default distance `(v1 - v2).squaredNorm()` with the roundings of `float`: the
differences, their squares and the sums, accumulated in index order. -/
def euclideanNormFloat : squaredNorm_t := fun v1 v2 =>
  (List.zipWith (fun a b => Flt.mulFloat (Flt.subFloat a b) (Flt.subFloat a b)) v1 v2).foldl
    Flt.addFloat (Flt.fin 0)

/-- The value `multiplier` of the loop of `kmeansGenerator` for a cluster of `count`
entities, `1.0 / (float) count`: the count becomes a `float`, the quotient is taken in
`double` and stored in a `float`. -/
def kmeansMultiplier (count : Nat) : Flt :=
  (Flt.div (Flt.fin 1) (Flt.ofNat count).toFloat).toDouble.toFloat

/-- The centroids after the statements of the loop body of `kmeansGenerator` that precede
the new assignment, with the roundings of `float`: the product
`weights.cast<float>() * entities`, accumulated in index order, then every row times its
`multiplier`. -/
def clusterMeansFloat (entities centroids : Mat Flt) (weights : Mat Bool) : Mat Flt :=
  let product : Mat Flt :=
    { centroids with coeff := (fun r c =>
        forLoop (fun k acc => Flt.addFloat acc
          (Flt.mulFloat (if weights.coeff r k then Flt.fin 1 else Flt.fin 0)
            (entities.coeff k c))) weights.cols 0 (Flt.fin 0)) }
  forLoop (fun i c =>
      { c with coeff := (fun r k =>
          if r = i then Flt.mulFloat (c.coeff r k) (kmeansMultiplier (weights.rowCount i))
          else c.coeff r k) })
    centroids.rows 0 product

/-- The loop `while(oldWeights != weights)` of `kmeansGenerator` with the roundings of
`float`, stopped as diverged when the fuel is spent. -/
def kmeansLoopFloat (entities : Mat Flt) (norm : squaredNorm_t) :
    Nat → Mat Flt → Mat Bool → Mat Bool → Outcome (Mat Flt × Mat Bool)
  | 0, centroids, weights, oldWeights =>
    if Mat.eqb oldWeights weights then Outcome.ok (centroids, weights) else Outcome.diverged
  | fuel + 1, centroids, weights, oldWeights =>
    if Mat.eqb oldWeights weights then Outcome.ok (centroids, weights)
    else
      let oldWeights := weights
      let centroids := clusterMeansFloat entities centroids weights
      let weights := calculateBooleanWeights entities centroids weights norm
      kmeansLoopFloat entities norm fuel centroids weights oldWeights

/-- The function `kmeansGenerator` with the roundings of `float` in its loop.  The
seeding is `kmeansInitializer`, whose arithmetic only decides which rows of the entity
matrix become the seeds. -/
def kmeansGeneratorFloat (fuel : Nat) (entities centroids : Mat Flt) (weights : Mat Bool)
    (norm : squaredNorm_t) (gen : Nat → Nat) : Outcome (Mat Flt × Mat Bool) :=
  if entities.cols = centroids.cols then
    (kmeansInitializer entities centroids norm gen).bind fun centroids =>
      let weights := calculateBooleanWeights entities centroids weights norm
      let oldWeights : Mat Bool :=
        { rows := centroids.rows, cols := entities.rows, coeff := fun _ _ => false }
      kmeansLoopFloat entities norm fuel centroids weights oldWeights
  else Outcome.violation

/-- One pass of the body of the loop of `kmeansGenerator` with the roundings of `float`. -/
def kmeansStepFloat (entities : Mat Flt) (norm : squaredNorm_t) (s : Mat Flt × Mat Bool) :
    Mat Flt × Mat Bool :=
  (clusterMeansFloat entities s.1 s.2,
    calculateBooleanWeights entities (clusterMeansFloat entities s.1 s.2) s.2 norm)

/-- The returned centroids next to the arithmetic means of their clusters: for every
cluster and coordinate, the entry of the centroid and the mean of the entities that the
returned weights assign to the cluster. -/
def returnedMeans (entities : Mat Flt) (o : Outcome (Mat Flt × Mat Bool)) :
    Outcome (List (List (Flt × ℚ))) :=
  o.bind fun r => Outcome.ok ((List.range r.1.rows).map fun i =>
    (List.range r.1.cols).map fun k => (r.1.coeff i k, assignedMean entities r.2 i k))

/-- Entities of the worked example on the roundings: the points 1000, 3, 0, 1, 2, 4, 5
and 6 of a line; the mean of the last seven is 3. -/
def eightEntities : Mat Flt :=
  { rows := 8, cols := 1,
    coeff := fun r _ =>
      if r = 0 then Flt.fin 1000 else if r = 1 then Flt.fin 3
      else if r < 5 then Flt.fin (r - 2 : Nat) else Flt.fin (r - 1 : Nat) }

/-- Centroid matrix of the worked example on the roundings: two clusters. -/
def eightCentroids : Mat Flt :=
  { rows := 2, cols := 1, coeff := fun _ _ => Flt.fin 0 }

/-- Hard weight matrix of the worked example on the roundings. -/
def eightBoolWeights : Mat Bool :=
  { rows := 2, cols := 8, coeff := fun _ _ => false }

/-- The seeds that `kmeansInitializer` leaves in the worked example on the roundings when
every raw output of the engine is 0: the points 1000 and 3. -/
def eightSeeds : Mat Flt :=
  seedRoundCentroids (kmeansInitializerNext euclideanNormFloat (searchDraws 0)
    eightEntities.rows (kmeansInitializerStart eightEntities eightCentroids (searchDraws 0)))

/-- The rows of a weight matrix that a call returns, as lists. -/
def weightRows (o : Outcome (Mat Flt)) : Outcome (List (List Flt)) :=
  o.bind fun w => Outcome.ok ((List.range w.rows).map fun i => w.row i)

/-- A single entity far from the origin of a line, at `2 ^ 70`, which is a `float`. -/
def farEntity : Mat Flt :=
  { rows := 1, cols := 1, coeff := fun _ _ => Flt.fin (2 ^ 70) }

/-! ## Lemmas on loops and matrices -/

theorem forLoop_succ_last {σ : Type} (body : Nat → σ → σ) (n i : Nat) (s : σ) :
    forLoop body (n + 1) i s = body (i + n) (forLoop body n i s) := by
  induction n generalizing i s with
  | zero => simp [forLoop]
  | succ n ih =>
    rw [forLoop, ih (i + 1) (body i s)]
    have h : i + 1 + n = i + (n + 1) := by omega
    rw [h]
    rfl

theorem forLoop_set_rows (f : Nat → Nat) (v : Bool) (n i : Nat) (w : Mat Bool) :
    (forLoop (fun j w => w.set (f j) j v) n i w).rows = w.rows ∧
    (forLoop (fun j w => w.set (f j) j v) n i w).cols = w.cols := by
  induction n generalizing i w with
  | zero => simp [forLoop]
  | succ n ih =>
    rw [forLoop]
    have h := ih (i + 1) (w.set (f i) i v)
    simpa [Mat.set] using h

theorem forLoop_set_coeff (f : Nat → Nat) (n i : Nat) (w : Mat Bool) (r c : Nat) :
    (forLoop (fun j w => w.set (f j) j true) n i w).coeff r c =
      if i ≤ c ∧ c < i + n ∧ r = f c ∧ f c < w.rows ∧ c < w.cols then true
      else w.coeff r c := by
  induction n generalizing w with
  | zero =>
    have h : ¬ (i ≤ c ∧ c < i + 0 ∧ r = f c ∧ f c < w.rows ∧ c < w.cols) := by omega
    rw [if_neg h]
    rfl
  | succ n ih =>
    rw [forLoop_succ_last]
    have hd := forLoop_set_rows f true n i w
    show (if r = f (i + n) ∧ c = i + n ∧
        f (i + n) < (forLoop (fun j w => w.set (f j) j true) n i w).rows ∧
        i + n < (forLoop (fun j w => w.set (f j) j true) n i w).cols then true
      else (forLoop (fun j w => w.set (f j) j true) n i w).coeff r c) = _
    rw [hd.1, hd.2, ih]
    by_cases hc : c = i + n
    · subst hc
      by_cases h1 : r = f (i + n) ∧ f (i + n) < w.rows ∧ i + n < w.cols
      · rw [if_pos (by tauto), if_pos (by refine ⟨?_, ?_, h1.1, h1.2.1, h1.2.2⟩ <;> omega)]
      · rw [if_neg (by tauto), if_neg (by omega), if_neg (by tauto)]
    · rw [if_neg (by tauto)]
      by_cases h2 : i ≤ c ∧ c < i + n ∧ r = f c ∧ f c < w.rows ∧ c < w.cols
      · rw [if_pos h2, if_pos (by refine ⟨h2.1, ?_, h2.2.2⟩; omega)]
      · rw [if_neg h2, if_neg]
        intro h3
        exact h2 ⟨h3.1, by omega, h3.2.2⟩

/-- Every coefficient of the result of `calculateBooleanWeights` in a column `j` of the
weight matrix: true exactly in the row of the nearest centroid. -/
theorem calculateBooleanWeights_coeff (entities centroids : Mat Flt) (weights : Mat Bool)
    (norm : squaredNorm_t) (r c : Nat) :
    (calculateBooleanWeights entities centroids weights norm).coeff r c =
      decide (c < entities.rows ∧ r = (nearest centroids norm (entities.row c)).2 ∧
        (nearest centroids norm (entities.row c)).2 < weights.rows ∧ c < weights.cols) := by
  unfold calculateBooleanWeights
  rw [forLoop_set_coeff]
  simp [Mat.setConstant]

theorem calculateBooleanWeights_dims (entities centroids : Mat Flt) (weights : Mat Bool)
    (norm : squaredNorm_t) :
    (calculateBooleanWeights entities centroids weights norm).rows = weights.rows ∧
    (calculateBooleanWeights entities centroids weights norm).cols = weights.cols := by
  unfold calculateBooleanWeights
  simpa [Mat.setConstant] using
    forLoop_set_rows (fun j => (nearest centroids norm (entities.row j)).2) true
      entities.rows 0 (weights.setConstant false)

/-- The running index of the inner loop stays the start index or one already visited. -/
theorem nearestLoop_index (centroids : Mat Flt) (norm : squaredNorm_t) (e : List Flt)
    (n i : Nat) (s : Flt × Nat) :
    (forLoop (nearestStep centroids norm e) n i s).2 = s.2 ∨
      (i ≤ (forLoop (nearestStep centroids norm e) n i s).2 ∧
        (forLoop (nearestStep centroids norm e) n i s).2 < i + n) := by
  induction n generalizing s with
  | zero => simp [forLoop]
  | succ n ih =>
    rw [forLoop_succ_last]
    by_cases hlt : Flt.lt (norm (centroids.row (i + n)) e)
        (forLoop (nearestStep centroids norm e) n i s).1 = true
    · right
      simp only [nearestStep, hlt, if_true]
      omega
    · simp only [nearestStep, hlt]
      rcases ih s with h | h
      · left; simpa using h
      · right
        simp only [Bool.false_eq_true, if_false]
        omega

theorem nearest_lt_rows (centroids : Mat Flt) (norm : squaredNorm_t) (e : List Flt)
    (hK : 1 ≤ centroids.rows) : (nearest centroids norm e).2 < centroids.rows := by
  unfold nearest
  rcases nearestLoop_index centroids norm e (centroids.rows - 1) 1
      (norm (centroids.row 0) e, 0) with h | h
  · rw [h]; exact hK
  · omega

/-- The column of an entity holds one true entry after `calculateBooleanWeights`: the one
in the row of the nearest centroid. -/
theorem assignedColumn_unique (entities centroids : Mat Flt)
    (weights : Mat Bool) (norm : squaredNorm_t)
    (hK : 1 ≤ centroids.rows)
    (hrows : weights.rows = centroids.rows) (hcols : weights.cols = entities.rows)
    (j : Nat) (hj : j < entities.rows) :
    ∃! i, i < centroids.rows ∧
      (calculateBooleanWeights entities centroids weights norm).coeff i j = true := by
  have hn := nearest_lt_rows centroids norm (entities.row j) hK
  refine ⟨(nearest centroids norm (entities.row j)).2, ⟨hn, ?_⟩, ?_⟩
  · rw [calculateBooleanWeights_coeff]
    simp [hj, hrows, hcols, hn]
  · rintro i ⟨_, hi⟩
    rw [calculateBooleanWeights_coeff] at hi
    simp at hi
    exact hi.2.1

/-! ## Lemmas on the order of `Flt` -/

theorem Flt.lt_irrefl (a : Flt) : Flt.lt a a = false := by
  cases a with
  | nan => rfl
  | inf s => cases s <;> rfl
  | fin a => simp [Flt.lt]

theorem Flt.lt_trans {a b c : Flt} (h1 : Flt.lt a b = true) (h2 : Flt.lt b c = true) :
    Flt.lt a c = true := by
  cases a <;> cases b <;> cases c <;> simp_all [Flt.lt]
  exact h1.trans h2

theorem Flt.le_of_not_lt {a b : Flt} (ha : a ≠ Flt.nan) (hb : b ≠ Flt.nan)
    (h : Flt.lt b a = false) : Flt.le a b = true := by
  cases a <;> cases b <;> simp_all [Flt.lt, Flt.le]
  · rename_i s t
    cases s <;> cases t <;> simp_all
  · rename_i x y
    rcases lt_or_eq_of_le h with h3 | h3
    · exact Or.inl h3
    · exact Or.inr h3

theorem Flt.lt_of_lt_of_le {a b c : Flt} (h1 : Flt.lt a b = true) (h2 : Flt.le b c = true) :
    Flt.lt a c = true := by
  unfold Flt.le at h2
  rcases Bool.or_eq_true _ _ |>.mp h2 with h | h
  · exact Flt.lt_trans h1 h
  · have h3 : b = c := by simpa using (Bool.and_eq_true _ _ |>.mp h).2
    rw [← h3]
    exact h1

theorem Flt.not_lt_of_le {a b : Flt} (h : Flt.le a b = true) : Flt.lt b a = false := by
  cases hba : Flt.lt b a with
  | false => rfl
  | true =>
    have h3 := Flt.lt_of_lt_of_le hba h
    rw [Flt.lt_irrefl] at h3
    exact absurd h3 (by simp)

theorem nearestLoop_inv (centroids : Mat Flt) (norm : squaredNorm_t) (e : List Flt)
    (n : Nat) (s : Flt × Nat)
    (hnan : ∀ k, k < 1 + n → norm (centroids.row k) e ≠ Flt.nan)
    (hs : NearestInv centroids norm e 1 s) :
    NearestInv centroids norm e (1 + n) (forLoop (nearestStep centroids norm e) n 1 s) := by
  induction n with
  | zero => simpa [forLoop] using hs
  | succ n ih =>
    rw [forLoop_succ_last]
    have ih1 := ih (fun k hk => hnan k (by omega))
    obtain ⟨h1, h2, h3, h4⟩ := ih1
    by_cases hlt : Flt.lt (norm (centroids.row (1 + n)) e)
        (forLoop (nearestStep centroids norm e) n 1 s).1 = true
    · simp only [nearestStep, hlt, if_true]
      refine ⟨rfl, by omega, ?_, ?_⟩
      · intro k hk
        show Flt.lt (norm (centroids.row k) e) (norm (centroids.row (1 + n)) e) = false
        by_cases hkn : k = 1 + n
        · rw [hkn]; exact Flt.lt_irrefl _
        · cases hc : Flt.lt (norm (centroids.row k) e) (norm (centroids.row (1 + n)) e) with
          | false => rfl
          | true =>
            have h5 := Flt.lt_trans hc hlt
            rw [h3 k (by omega)] at h5
            exact absurd h5 (by simp)
      · intro k hk
        show Flt.lt (norm (centroids.row (1 + n)) e) (norm (centroids.row k) e) = true
        have hk1 : k < 1 + n := hk
        have h6 : Flt.le (forLoop (nearestStep centroids norm e) n 1 s).1
            (norm (centroids.row k) e) = true := by
          apply Flt.le_of_not_lt
          · rw [h1]; exact hnan _ (by omega)
          · exact hnan k (by omega)
          · exact h3 k hk1
        exact Flt.lt_of_lt_of_le hlt h6
    · have hlt2 : Flt.lt (norm (centroids.row (1 + n)) e)
          (forLoop (nearestStep centroids norm e) n 1 s).1 = false := by
        simpa using hlt
      simp only [nearestStep, hlt2, Bool.false_eq_true, if_false]
      refine ⟨h1, by omega, ?_, h4⟩
      intro k hk
      by_cases hkn : k = 1 + n
      · rw [hkn]; exact hlt2
      · exact h3 k (by omega)

/-- The pair held after the inner loop of `calculateBooleanWeights`, when no distance of
the entity is NaN: the index of a centroid at minimal distance, the first such one. -/
theorem nearest_spec (centroids : Mat Flt) (norm : squaredNorm_t) (e : List Flt)
    (hK : 1 ≤ centroids.rows)
    (hnan : ∀ k, k < centroids.rows → norm (centroids.row k) e ≠ Flt.nan) :
    NearestInv centroids norm e centroids.rows (nearest centroids norm e) := by
  have h := nearestLoop_inv centroids norm e (centroids.rows - 1) (norm (centroids.row 0) e, 0)
    (fun k hk => hnan k (by omega))
    ⟨rfl, Nat.zero_lt_one, fun k hk => by
      have : k = 0 := by omega
      subst this
      exact Flt.lt_irrefl _, fun k hk => absurd hk (by simp)⟩
  have h2 : 1 + (centroids.rows - 1) = centroids.rows := by omega
  rw [h2] at h
  exact h

/-! ## Lemmas on fuzzy weights -/

theorem Outcome.bind_ok_right {α : Type} (x : Outcome α) : x.bind Outcome.ok = x := by
  cases x <;> rfl

theorem Outcome.bind_assoc {α β γ : Type} (x : Outcome α) (f : α → Outcome β)
    (g : β → Outcome γ) : (x.bind f).bind g = x.bind fun a => (f a).bind g := by
  cases x <;> rfl

theorem forLoopM_succ_last {σ : Type} (body : Nat → σ → Outcome σ) (n i : Nat) (s : σ) :
    forLoopM body (n + 1) i s = (forLoopM body n i s).bind (body (i + n)) := by
  induction n generalizing i s with
  | zero =>
    show (body i s).bind Outcome.ok = body (i + 0) s
    rw [Outcome.bind_ok_right]
    rfl
  | succ n ih =>
    show (body i s).bind (forLoopM body (n + 1) (i + 1)) =
      ((body i s).bind (forLoopM body n (i + 1))).bind (body (i + (n + 1)))
    rw [Outcome.bind_assoc]
    congr 1
    funext a
    rw [ih (i + 1) a]
    have h : i + 1 + n = i + (n + 1) := by omega
    rw [h]

theorem fuzzyInner_ok (entities centroids : Mat Flt) (norm : squaredNorm_t) (i n : Nat)
    (w : Mat Flt) (hi : i < w.rows) (hn : n ≤ w.cols)
    (hgood : ∀ j, j < n →
      Flt.lt FCM_THRESHOLD (norm (centroids.row i) (entities.row j)) = true) :
    forLoopM (fun j w => fuzzyCell entities centroids norm i j w) n 0 w =
      Outcome.ok (distanceFill entities centroids norm w i 1 n) := by
  induction n with
  | zero =>
    show Outcome.ok w = _
    congr 1
    ext r c
    · rfl
    · rfl
    · simp [distanceFill]
  | succ n ih =>
    rw [forLoopM_succ_last, ih (by omega) (fun j hj => hgood j (by omega))]
    show fuzzyCell entities centroids norm i (0 + n)
      (distanceFill entities centroids norm w i 1 n) = _
    have hg := hgood n (by omega)
    have hn1 : n < w.cols := by omega
    simp only [fuzzyCell, Mat.set, distanceFill, Nat.zero_add, hi, hn1, and_self, true_and,
      if_true, hg]
    congr 1
    ext r c
    · rfl
    · rfl
    · dsimp only
      by_cases h1 : r = i ∧ c = n
      · obtain ⟨rfl, rfl⟩ := h1
        simp
      · rw [if_neg (by tauto)]
        by_cases h2 : i ≤ r ∧ r < i + 1 ∧ c < n
        · rw [if_pos h2, if_pos (by omega)]
        · rw [if_neg h2, if_neg (by omega)]

theorem fuzzyInner_bad (entities centroids : Mat Flt) (norm : squaredNorm_t) (i n : Nat)
    (w : Mat Flt) (hi : i < w.rows) (hn : n ≤ w.cols)
    (hbad : ∃ j, j < n ∧
      Flt.lt FCM_THRESHOLD (norm (centroids.row i) (entities.row j)) = false) :
    forLoopM (fun j w => fuzzyCell entities centroids norm i j w) n 0 w =
      Outcome.violation := by
  induction n with
  | zero =>
    obtain ⟨j, hj, _⟩ := hbad
    omega
  | succ n ih =>
    rw [forLoopM_succ_last]
    by_cases hprev : ∃ j, j < n ∧
        Flt.lt FCM_THRESHOLD (norm (centroids.row i) (entities.row j)) = false
    · rw [ih (by omega) hprev]
      rfl
    · have hgood : ∀ j, j < n →
          Flt.lt FCM_THRESHOLD (norm (centroids.row i) (entities.row j)) = true := by
        intro j hj
        cases h : Flt.lt FCM_THRESHOLD (norm (centroids.row i) (entities.row j)) with
        | true => rfl
        | false => exact absurd ⟨j, hj, h⟩ hprev
      rw [fuzzyInner_ok entities centroids norm i n w hi (by omega) hgood]
      obtain ⟨j, hj, hjbad⟩ := hbad
      have hjn : j = n := by
        by_contra hne
        exact hprev ⟨j, by omega, hjbad⟩
      subst hjn
      have hn1 : j < w.cols := by omega
      show fuzzyCell entities centroids norm i (0 + j)
        (distanceFill entities centroids norm w i 1 j) = _
      simp [fuzzyCell, Mat.set, distanceFill, hi, hn1, hjbad]

theorem fuzzyOuter_ok (entities centroids : Mat Flt) (norm : squaredNorm_t) (m : Nat)
    (w : Mat Flt) (hm : m ≤ w.rows) (hn : entities.rows ≤ w.cols)
    (hgood : ∀ i j, i < m → j < entities.rows →
      Flt.lt FCM_THRESHOLD (norm (centroids.row i) (entities.row j)) = true) :
    forLoopM (fun i w => forLoopM (fun j w => fuzzyCell entities centroids norm i j w)
        entities.rows 0 w) m 0 w =
      Outcome.ok (distanceFill entities centroids norm w 0 m entities.rows) := by
  induction m with
  | zero =>
    show Outcome.ok w = _
    congr 1
    ext r c
    · rfl
    · rfl
    · simp [distanceFill]
  | succ m ih =>
    rw [forLoopM_succ_last, ih (by omega) (fun i j hi hj => hgood i j (by omega) hj)]
    show forLoopM (fun j w => fuzzyCell entities centroids norm (0 + m) j w) entities.rows 0
      (distanceFill entities centroids norm w 0 m entities.rows) = _
    rw [fuzzyInner_ok entities centroids norm (0 + m) entities.rows _
      (by show 0 + m < w.rows; omega) (by show entities.rows ≤ w.cols; omega)
      (fun j hj => hgood (0 + m) j (by omega) hj)]
    congr 1
    ext r c
    · rfl
    · rfl
    · show (if _ then _ else (if _ then _ else _)) = (if _ then _ else _)
      by_cases h1 : 0 + m ≤ r ∧ r < 0 + m + 1 ∧ c < entities.rows
      · rw [if_pos h1, if_pos (by omega)]
      · rw [if_neg h1]
        by_cases h2 : 0 ≤ r ∧ r < 0 + m ∧ c < entities.rows
        · rw [if_pos h2, if_pos (by omega)]
        · rw [if_neg h2, if_neg (by omega)]

theorem fuzzyOuter_bad (entities centroids : Mat Flt) (norm : squaredNorm_t) (m : Nat)
    (w : Mat Flt) (hm : m ≤ w.rows) (hn : entities.rows ≤ w.cols)
    (hbad : ∃ i j, i < m ∧ j < entities.rows ∧
      Flt.lt FCM_THRESHOLD (norm (centroids.row i) (entities.row j)) = false) :
    forLoopM (fun i w => forLoopM (fun j w => fuzzyCell entities centroids norm i j w)
        entities.rows 0 w) m 0 w = Outcome.violation := by
  induction m with
  | zero =>
    obtain ⟨i, j, hi, _⟩ := hbad
    omega
  | succ m ih =>
    rw [forLoopM_succ_last]
    by_cases hprev : ∃ i j, i < m ∧ j < entities.rows ∧
        Flt.lt FCM_THRESHOLD (norm (centroids.row i) (entities.row j)) = false
    · rw [ih (by omega) hprev]
      rfl
    · have hgood : ∀ i j, i < m → j < entities.rows →
          Flt.lt FCM_THRESHOLD (norm (centroids.row i) (entities.row j)) = true := by
        intro i j hi hj
        cases h : Flt.lt FCM_THRESHOLD (norm (centroids.row i) (entities.row j)) with
        | true => rfl
        | false => exact absurd ⟨i, j, hi, hj, h⟩ hprev
      rw [fuzzyOuter_ok entities centroids norm m w (by omega) hn hgood]
      obtain ⟨i, j, hi, hj, hbadij⟩ := hbad
      have him : i = m := by
        by_contra hne
        exact hprev ⟨i, j, by omega, hj, hbadij⟩
      subst him
      show forLoopM (fun j w => fuzzyCell entities centroids norm (0 + i) j w) entities.rows 0
        (distanceFill entities centroids norm w 0 i entities.rows) = _
      rw [Nat.zero_add]
      exact fuzzyInner_bad entities centroids norm i entities.rows _
        (by show i < w.rows; omega) (by show entities.rows ≤ w.cols; omega) ⟨j, hj, hbadij⟩

/-- The result of `calculateFuzzyWeights` when no distance trips the guard. -/
theorem calculateFuzzyWeights_ok (entities centroids : Mat Flt) (weights : Mat Flt)
    (norm : squaredNorm_t) (hrows : centroids.rows ≤ weights.rows)
    (hcols : entities.rows ≤ weights.cols)
    (hgood : ∀ i j, i < centroids.rows → j < entities.rows →
      Flt.lt FCM_THRESHOLD (norm (centroids.row i) (entities.row j)) = true) :
    calculateFuzzyWeights entities centroids weights norm =
      Outcome.ok ((distanceFill entities centroids norm weights 0 centroids.rows
        entities.rows).map fun x => Flt.div (Flt.fin 1) x) := by
  unfold calculateFuzzyWeights
  rw [fuzzyOuter_ok entities centroids norm centroids.rows weights hrows hcols hgood]
  rfl

/-- The result of `calculateFuzzyWeights` when some distance trips the guard. -/
theorem calculateFuzzyWeights_bad (entities centroids : Mat Flt) (weights : Mat Flt)
    (norm : squaredNorm_t) (hrows : centroids.rows ≤ weights.rows)
    (hcols : entities.rows ≤ weights.cols)
    (hbad : ∃ i j, i < centroids.rows ∧ j < entities.rows ∧
      Flt.lt FCM_THRESHOLD (norm (centroids.row i) (entities.row j)) = false) :
    calculateFuzzyWeights entities centroids weights norm = Outcome.violation := by
  unfold calculateFuzzyWeights
  rw [fuzzyOuter_bad entities centroids norm centroids.rows weights hrows hcols hbad]
  rfl

/-- The guard of `calculateFuzzyWeights` fires exactly when some computed distance is
not above `FCM_THRESHOLD`. -/
theorem calculateFuzzyWeights_violation_iff (entities centroids : Mat Flt)
    (weights : Mat Flt) (norm : squaredNorm_t) (hrows : centroids.rows ≤ weights.rows)
    (hcols : entities.rows ≤ weights.cols) :
    calculateFuzzyWeights entities centroids weights norm = Outcome.violation ↔
      ∃ i j, i < centroids.rows ∧ j < entities.rows ∧
        Flt.lt FCM_THRESHOLD (norm (centroids.row i) (entities.row j)) = false := by
  constructor
  · intro h
    by_contra hno
    have hgood : ∀ i j, i < centroids.rows → j < entities.rows →
        Flt.lt FCM_THRESHOLD (norm (centroids.row i) (entities.row j)) = true := by
      intro i j hi hj
      cases h2 : Flt.lt FCM_THRESHOLD (norm (centroids.row i) (entities.row j)) with
      | true => rfl
      | false => exact absurd ⟨i, j, hi, hj, h2⟩ hno
    rw [calculateFuzzyWeights_ok entities centroids weights norm hrows hcols hgood] at h
    cases h
  · exact calculateFuzzyWeights_bad entities centroids weights norm hrows hcols

theorem Flt.inv_pos_of_threshold_lt {d : Flt} (h : Flt.lt FCM_THRESHOLD d = true)
    (hinf : d ≠ Flt.inf false) : Flt.lt (Flt.fin 0) (Flt.div (Flt.fin 1) d) = true := by
  cases d with
  | nan => simp [Flt.lt, FCM_THRESHOLD] at h
  | inf s =>
    cases s with
    | false => exact absurd rfl hinf
    | true => simp [Flt.lt, FCM_THRESHOLD] at h
  | fin q =>
    have hq : (1 : ℚ) / 10 ^ 19 < q := by simpa [Flt.lt, FCM_THRESHOLD] using h
    have hpos : (0 : ℚ) < q := (by norm_num : (0 : ℚ) < 1 / 10 ^ 19).trans hq
    have hne : q ≠ 0 := ne_of_gt hpos
    simp only [Flt.div, hne, if_false, Flt.lt, decide_eq_true_eq]
    positivity

/-- Whether `calculateFuzzyWeights` returns: exactly when every distance is above the
threshold, and then with the inverse distances in the block of the centroids and
entities. -/
theorem calculateFuzzyWeights_cases (entities centroids : Mat Flt) (weights : Mat Flt)
    (norm : squaredNorm_t) (hrows : centroids.rows ≤ weights.rows)
    (hcols : entities.rows ≤ weights.cols) (out : Mat Flt)
    (hok : calculateFuzzyWeights entities centroids weights norm = Outcome.ok out) :
    (∀ i j, i < centroids.rows → j < entities.rows →
      Flt.lt FCM_THRESHOLD (norm (centroids.row i) (entities.row j)) = true) ∧
    out = (distanceFill entities centroids norm weights 0 centroids.rows
        entities.rows).map fun x => Flt.div (Flt.fin 1) x := by
  have hgood : ∀ i j, i < centroids.rows → j < entities.rows →
      Flt.lt FCM_THRESHOLD (norm (centroids.row i) (entities.row j)) = true := by
    intro i j hi hj
    cases h2 : Flt.lt FCM_THRESHOLD (norm (centroids.row i) (entities.row j)) with
    | true => rfl
    | false =>
      rw [calculateFuzzyWeights_bad entities centroids weights norm hrows hcols
        ⟨i, j, hi, hj, h2⟩] at hok
      cases hok
  refine ⟨hgood, ?_⟩
  rw [calculateFuzzyWeights_ok entities centroids weights norm hrows hcols hgood] at hok
  cases hok
  rfl

/-! ## Lemmas on fuzzy c-means -/

theorem sumTo_succ (n : Nat) (f : Nat → Flt) :
    sumTo (n + 1) f = Flt.add (sumTo n f) (f n) := by
  unfold sumTo
  rw [forLoop_succ_last]
  simp

theorem sumTo_congr (n : Nat) (f g : Nat → Flt) (h : ∀ k, k < n → f k = g k) :
    sumTo n f = sumTo n g := by
  induction n with
  | zero => rfl
  | succ n ih =>
    rw [sumTo_succ, sumTo_succ, ih (fun k hk => h k (by omega)), h n (by omega)]

theorem sumTo_fin (n : Nat) (f : Nat → Flt) (a : Nat → ℚ)
    (h : ∀ k, k < n → f k = Flt.fin (a k)) :
    sumTo n f = Flt.fin (∑ k in Finset.range n, a k) := by
  induction n with
  | zero => rfl
  | succ n ih =>
    rw [sumTo_succ, ih (fun k hk => h k (by omega)), h n (by omega), Finset.sum_range_succ]
    rfl

theorem scaleRows_dims (x : Nat → Flt) (n i : Nat) (m : Mat Flt) :
    (forLoop (fun i c => c.scaleRow i (x i)) n i m).rows = m.rows ∧
    (forLoop (fun i c => c.scaleRow i (x i)) n i m).cols = m.cols := by
  induction n generalizing i m with
  | zero => exact ⟨rfl, rfl⟩
  | succ n ih =>
    rw [forLoop]
    exact ih (i + 1) (m.scaleRow i (x i))

theorem FCMCentroids_rows (entities weights : Mat Flt) (centroidsNumber : Nat) :
    (FCMCentroids entities weights centroidsNumber).rows = weights.rows := by
  unfold FCMCentroids
  exact (scaleRows_dims _ centroidsNumber 0 _).1

theorem Outcome.bind_eq_ok {α β : Type} {x : Outcome α} {f : α → Outcome β} {b : β}
    (h : x.bind f = Outcome.ok b) : ∃ a, x = Outcome.ok a ∧ f a = Outcome.ok b := by
  cases x with
  | ok a => exact ⟨a, rfl, h⟩
  | violation => cases h
  | diverged => cases h

theorem FCMIteration_cases (sqrtQ : ℚ → ℚ) (entities : Mat Flt) (norm : squaredNorm_t)
    (centroids weights c w : Mat Flt)
    (h : FCMIteration sqrtQ entities norm centroids weights = Outcome.ok (c, w)) :
    c = FCMCentroids entities weights centroids.rows ∧
    ∃ u, calculateFuzzyWeights entities c weights norm = Outcome.ok u ∧
      w = u.rowwiseNormalize sqrtQ := by
  unfold FCMIteration at h
  obtain ⟨u, hu, hcw⟩ := Outcome.bind_eq_ok h
  have h2 : (FCMCentroids entities weights centroids.rows, u.rowwiseNormalize sqrtQ) = (c, w) := by
    simpa using hcw
  have hc : FCMCentroids entities weights centroids.rows = c := congrArg Prod.fst h2
  have hw : u.rowwiseNormalize sqrtQ = w := congrArg Prod.snd h2
  refine ⟨hc.symm, u, ?_, hw.symm⟩
  rw [← hc]
  exact hu

theorem Flt.inv_of_threshold_lt {d : Flt} (h : Flt.lt FCM_THRESHOLD d = true)
    (hinf : d ≠ Flt.inf false) :
    ∃ a : ℚ, 0 < a ∧ Flt.div (Flt.fin 1) d = Flt.fin a := by
  cases d with
  | nan => simp [Flt.lt, FCM_THRESHOLD] at h
  | inf s =>
    cases s with
    | false => exact absurd rfl hinf
    | true => simp [Flt.lt, FCM_THRESHOLD] at h
  | fin q =>
    have hq : (1 : ℚ) / 10 ^ 19 < q := by simpa [Flt.lt, FCM_THRESHOLD] using h
    have hpos : (0 : ℚ) < q := (by norm_num : (0 : ℚ) < 1 / 10 ^ 19).trans hq
    have hne : q ≠ 0 := ne_of_gt hpos
    refine ⟨1 / q, by positivity, ?_⟩
    simp [Flt.div, hne]

/-- A row of inverse distances, divided by the exact square root of its sum of squares,
has squares that sum to one. -/
theorem rowSquaredNorm_normalize (sqrtQ : ℚ → ℚ) (u : Mat Flt) (i : Nat) (a : Nat → ℚ)
    (hcols : 0 < u.cols) (ha : ∀ j, j < u.cols → 0 < a j)
    (hu : ∀ j, j < u.cols → u.coeff i j = Flt.fin (a j))
    (hexact : sqrtQ (∑ j in Finset.range u.cols, a j * a j) *
      sqrtQ (∑ j in Finset.range u.cols, a j * a j) = ∑ j in Finset.range u.cols, a j * a j) :
    (u.rowwiseNormalize sqrtQ).rowSquaredNorm i = Flt.fin 1 := by
  have hsq : u.rowSquaredNorm i = Flt.fin (∑ j in Finset.range u.cols, a j * a j) := by
    unfold Mat.rowSquaredNorm
    apply sumTo_fin
    intro k hk
    rw [hu k hk]
    rfl
  have hZ : 0 < ∑ j in Finset.range u.cols, a j * a j := by
    apply Finset.sum_pos
    · intro j hj
      have := ha j (Finset.mem_range.mp hj)
      positivity
    · exact ⟨0, Finset.mem_range.mpr hcols⟩
  generalize hZdef : (∑ j in Finset.range u.cols, a j * a j) = Z at hsq hZ hexact
  have hs : sqrtQ Z ≠ 0 := by
    intro h0
    rw [h0] at hexact
    simp at hexact
    exact absurd hexact.symm (ne_of_gt hZ)
  have hcoeff : ∀ j, j < u.cols →
      (u.rowwiseNormalize sqrtQ).coeff i j = Flt.fin (a j / sqrtQ Z) := by
    intro j hj
    show Flt.div (u.coeff i j) (Flt.sqrt sqrtQ (u.rowSquaredNorm i)) = _
    rw [hu j hj, hsq]
    simp [Flt.sqrt, Flt.div, not_lt.mpr (le_of_lt hZ), hs]
  have hfinal : (u.rowwiseNormalize sqrtQ).rowSquaredNorm i =
      Flt.fin (∑ j in Finset.range u.cols, (a j / sqrtQ Z) * (a j / sqrtQ Z)) := by
    unfold Mat.rowSquaredNorm
    apply sumTo_fin
    intro k hk
    rw [hcoeff k hk]
    rfl
  rw [hfinal]
  congr 1
  have h1 : ∀ j, (a j / sqrtQ Z) * (a j / sqrtQ Z) = (a j * a j) / Z := by
    intro j
    rw [div_mul_div_comm, hexact]
  simp only [h1]
  rw [← Finset.sum_div, hZdef]
  exact div_self (ne_of_gt hZ)

/-- The weights after one pass of the body of the loop of `FCMGenerator` have rows of
Euclidean norm one. -/
theorem FCMIteration_unitRowNorms (sqrtQ : ℚ → ℚ) (entities : Mat Flt)
    (norm : squaredNorm_t) (centroids weights c w : Mat Flt)
    (hcols : weights.cols = entities.rows)
    (h : FCMIteration sqrtQ entities norm centroids weights = Outcome.ok (c, w)) :
    UnitRowNorms sqrtQ entities norm c w := by
  obtain ⟨hc, u, hu, hw⟩ := FCMIteration_cases sqrtQ entities norm centroids weights c w h
  have hcrows : c.rows = weights.rows := by rw [hc]; exact FCMCentroids_rows _ _ _
  obtain ⟨hgood, hout⟩ := calculateFuzzyWeights_cases entities c weights norm
    (by omega) (by omega) u hu
  intro i hi hN hfin hexact
  have hucols : u.cols = entities.rows := by rw [hout]; exact hcols
  have hex : ∀ j, j < entities.rows → ∃ a : ℚ, 0 < a ∧
      Flt.div (Flt.fin 1) (norm (c.row i) (entities.row j)) = Flt.fin a :=
    fun j hj => Flt.inv_of_threshold_lt (hgood i j hi hj) (hfin j hj)
  have ha : ∀ j, j < u.cols →
      0 < (Flt.div (Flt.fin 1) (norm (c.row i) (entities.row j))).toRat := by
    intro j hj
    obtain ⟨a, hpos, heq⟩ := hex j (by omega)
    rw [heq]
    exact hpos
  have hucoeff : ∀ j, j < u.cols → u.coeff i j =
      Flt.fin (Flt.div (Flt.fin 1) (norm (c.row i) (entities.row j))).toRat := by
    intro j hj
    obtain ⟨a, _, heq⟩ := hex j (by omega)
    rw [hout]
    have hj2 : j < entities.rows := by omega
    simp only [Mat.map, distanceFill, hi, hj2, Nat.zero_le, Nat.zero_add, and_self, if_true]
    rw [heq]
    rfl
  rw [hw]
  apply rowSquaredNorm_normalize sqrtQ u i _ (by omega) ha hucoeff
  apply hexact
  unfold inverseSquares
  rw [hucols]
  apply sumTo_fin
  intro k hk
  obtain ⟨a, _, heq⟩ := hex k hk
  rw [heq]
  rfl

theorem FCMIteration_dims (sqrtQ : ℚ → ℚ) (entities : Mat Flt) (norm : squaredNorm_t)
    (centroids weights c w : Mat Flt) (hcols : weights.cols = entities.rows)
    (h : FCMIteration sqrtQ entities norm centroids weights = Outcome.ok (c, w)) :
    w.cols = entities.rows := by
  obtain ⟨hc, u, hu, hw⟩ := FCMIteration_cases sqrtQ entities norm centroids weights c w h
  have hcrows : c.rows = weights.rows := by rw [hc]; exact FCMCentroids_rows _ _ _
  obtain ⟨_, hout⟩ := calculateFuzzyWeights_cases entities c weights norm
    (by omega) (by omega) u hu
  rw [hw, hout]
  exact hcols

/-- The result of a pass of the body of the loop of `FCMGenerator` when no distance
trips the guard. -/
theorem FCMIteration_ok (sqrtQ : ℚ → ℚ) (entities : Mat Flt) (norm : squaredNorm_t)
    (centroids weights : Mat Flt) (hcols : weights.cols = entities.rows)
    (hgood : ∀ i j, i < (FCMCentroids entities weights centroids.rows).rows →
      j < entities.rows →
      Flt.lt FCM_THRESHOLD
        (norm ((FCMCentroids entities weights centroids.rows).row i) (entities.row j)) = true) :
    FCMIteration sqrtQ entities norm centroids weights =
      Outcome.ok (FCMCentroids entities weights centroids.rows,
        ((distanceFill entities (FCMCentroids entities weights centroids.rows) norm weights 0
          (FCMCentroids entities weights centroids.rows).rows entities.rows).map
            fun x => Flt.div (Flt.fin 1) x).rowwiseNormalize sqrtQ) := by
  unfold FCMIteration
  have hr := FCMCentroids_rows entities weights centroids.rows
  simp only []
  rw [calculateFuzzyWeights_ok entities _ weights norm (by omega) (by omega) hgood]
  rfl

/-- What the loop of `FCMGenerator` returns is what it started from, or the result of a
pass of its body. -/
theorem FCMLoop_result (sqrtQ : ℚ → ℚ) (entities : Mat Flt) (norm : squaredNorm_t)
    (n : Nat) (centroids weights weightsOld c w : Mat Flt)
    (hcols : weights.cols = entities.rows)
    (h : FCMLoop sqrtQ entities norm n centroids weights weightsOld = Outcome.ok (c, w)) :
    (c = centroids ∧ w = weights) ∨
    ∃ c0 w0, w0.cols = entities.rows ∧
      FCMIteration sqrtQ entities norm c0 w0 = Outcome.ok (c, w) := by
  induction n generalizing centroids weights weightsOld with
  | zero =>
    left
    have h2 : (centroids, weights) = (c, w) := by simpa [FCMLoop] using h
    exact ⟨(congrArg Prod.fst h2).symm, (congrArg Prod.snd h2).symm⟩
  | succ n ih =>
    unfold FCMLoop at h
    by_cases hlt : Flt.lt FCM_THRESHOLD (Mat.squaredNormDiff weights weightsOld) = true
    · rw [if_pos hlt] at h
      obtain ⟨cw, hcw, hrest⟩ := Outcome.bind_eq_ok h
      obtain ⟨c1, w1⟩ := cw
      have hd := FCMIteration_dims sqrtQ entities norm centroids weights c1 w1 hcols hcw
      rcases ih c1 w1 weights hd hrest with hsame | hlater
      · right
        refine ⟨centroids, weights, hcols, ?_⟩
        rw [hsame.1, hsame.2]
        exact hcw
      · right
        exact hlater
    · rw [if_neg hlt] at h
      left
      have h2 : (centroids, weights) = (c, w) := by simpa using h
      exact ⟨(congrArg Prod.fst h2).symm, (congrArg Prod.snd h2).symm⟩

/-! ## Lemmas on the Davies-Bouldin index -/

theorem scatterSum_loop (weights : Mat Bool) (d : Nat → Flt) (i n : Nat)
    (hd : ∀ j, j < n → weights.coeff i j = true → ∃ a : ℚ, 0 ≤ a ∧ d j = Flt.fin a) :
    forLoop (fun j acc => if weights.coeff i j then Flt.add acc (d j) else acc) n 0
        (Flt.fin 0) =
      Flt.fin ((((List.range n).filter fun j => weights.coeff i j).map
        fun j => (d j).toRat).sum) ∧
    0 ≤ (((List.range n).filter fun j => weights.coeff i j).map fun j => (d j).toRat).sum := by
  induction n with
  | zero => exact ⟨rfl, le_refl _⟩
  | succ n ih =>
    obtain ⟨ih1, ih2⟩ := ih (fun j hj => hd j (by omega))
    rw [forLoop_succ_last, ih1, List.range_succ, List.filter_append, List.map_append,
      List.sum_append]
    by_cases hw : weights.coeff i n = true
    · obtain ⟨a, ha, hda⟩ := hd n (by omega) hw
      simp only [Nat.zero_add, hw, if_true, hda, List.filter_cons, List.filter_nil,
        List.map_cons, List.map_nil, List.sum_cons, List.sum_nil, Flt.toRat, add_zero]
      exact ⟨rfl, add_nonneg ih2 ha⟩
    · have hw2 : weights.coeff i n = false := by simpa using hw
      simp only [Nat.zero_add, hw2, Bool.false_eq_true, if_false, List.filter_cons,
        List.filter_nil, List.map_nil, List.sum_nil, add_zero]
      exact ⟨trivial, ih2⟩

theorem specCluster_length_pos (entities : Mat Flt) (weights : Mat Bool) (i : Nat)
    (h : ∃ j, j < entities.rows ∧ weights.coeff i j = true) :
    0 < (specCluster entities weights i).length := by
  obtain ⟨j, hj, hw⟩ := h
  apply List.length_pos_of_mem (a := j)
  unfold specCluster
  simp [hj, hw]

/-- The scatter entry that the code computes is the scatter of the specification. -/
theorem scatterVector_eq (sqrtQ : ℚ → ℚ) (entities centroids : Mat Flt) (weights : Mat Bool)
    (norm : squaredNorm_t) (hs : SqrtLike sqrtQ)
    (hv : ValidClustering entities centroids weights norm) (i : Nat)
    (hi : i < centroids.rows) :
    scatterVector sqrtQ entities centroids weights norm i =
      Flt.fin (specScatter sqrtQ entities centroids weights norm i) ∧
    0 ≤ specScatter sqrtQ entities centroids weights norm i := by
  obtain ⟨hsum, hnn⟩ := scatterSum_loop weights
    (fun j => norm (centroids.row i) (entities.row j)) i entities.rows
    (fun j hj hw => hv.distance i j hi hj hw)
  have hlen := specCluster_length_pos entities weights i (hv.nonempty i hi)
  have hcount : weights.rowCount i = (specCluster entities weights i).length := by
    unfold Mat.rowCount specCluster
    rw [hv.cols]
  have hlenQ : (0 : ℚ) < ((specCluster entities weights i).length : ℚ) := by
    exact_mod_cast hlen
  have harg : 0 ≤ (1 / ((specCluster entities weights i).length : ℚ)) *
      ((specCluster entities weights i).map fun j =>
        (norm (centroids.row i) (entities.row j)).toRat).sum := by
    apply mul_nonneg
    · positivity
    · exact hnn
  refine ⟨?_, hs.nonneg _ harg⟩
  unfold scatterVector specScatter
  simp only []
  rw [hsum, hcount]
  have hne : ((specCluster entities weights i).length : ℚ) ≠ 0 := ne_of_gt hlenQ
  simp only [Flt.ofNat, Flt.div, hne, if_false, Flt.mul, Flt.sqrt]
  rw [mul_comm]
  unfold specCluster at harg ⊢
  rw [if_neg (not_lt.mpr harg)]

/-- The separation entry that the code computes is the separation of the specification,
a positive number for two different clusters. -/
theorem clusterSeparationMatrix_eq (sqrtQ : ℚ → ℚ) (entities centroids : Mat Flt)
    (weights : Mat Bool) (norm : squaredNorm_t) (hs : SqrtLike sqrtQ)
    (hv : ValidClustering entities centroids weights norm) (i j : Nat)
    (hi : i < centroids.rows) (hj : j < centroids.rows) (hij : i ≠ j) :
    clusterSeparationMatrix sqrtQ centroids norm i j =
      Flt.fin (specSeparation sqrtQ centroids norm i j) ∧
    0 < specSeparation sqrtQ centroids norm i j := by
  obtain ⟨a, ha, hda⟩ := hv.separation i j hi hj hij
  unfold clusterSeparationMatrix specSeparation
  rw [hda]
  simp only [Flt.sqrt, Flt.toRat, if_neg (not_lt.mpr (le_of_lt ha))]
  exact ⟨trivial, hs.pos a ha⟩

/-- The quotient of the code for two different clusters is the quotient of the
specification, a non-negative number. -/
theorem quotient_eq (sqrtQ : ℚ → ℚ) (entities centroids : Mat Flt) (weights : Mat Bool)
    (norm : squaredNorm_t) (hs : SqrtLike sqrtQ)
    (hv : ValidClustering entities centroids weights norm) (i j : Nat)
    (hi : i < centroids.rows) (hj : j < centroids.rows) (hij : i ≠ j) :
    Flt.div (Flt.add (scatterVector sqrtQ entities centroids weights norm i)
        (scatterVector sqrtQ entities centroids weights norm j))
        (clusterSeparationMatrix sqrtQ centroids norm i j) =
      Flt.fin (specQuotient sqrtQ entities centroids weights norm i j) ∧
    0 ≤ specQuotient sqrtQ entities centroids weights norm i j := by
  obtain ⟨h1, h1n⟩ := scatterVector_eq sqrtQ entities centroids weights norm hs hv i hi
  obtain ⟨h2, h2n⟩ := scatterVector_eq sqrtQ entities centroids weights norm hs hv j hj
  obtain ⟨h3, h3p⟩ := clusterSeparationMatrix_eq sqrtQ entities centroids weights norm hs hv
    i j hi hj hij
  rw [h1, h2, h3]
  unfold specQuotient
  refine ⟨?_, div_nonneg (add_nonneg h1n h2n) (le_of_lt h3p)⟩
  simp [Flt.add, Flt.div, ne_of_gt h3p]

theorem Flt.max_fin (a b : ℚ) : Flt.max (Flt.fin a) (Flt.fin b) = Flt.fin (Max.max a b) := by
  unfold Flt.max Flt.lt
  by_cases h : a < b
  · simp [h, max_eq_right (le_of_lt h)]
  · simp [h, max_eq_left (not_lt.mp h)]

/-- The running maximum of the inner loop of the index after the clusters below `n`. -/
theorem dbIndexCluster_loop (ratio : Nat → Flt) (r : Nat → ℚ) (i n : Nat)
    (hr : ∀ j, j < n → j ≠ i → ratio j = Flt.fin (r j) ∧ 0 ≤ r j) :
    ∃ m : ℚ,
      forLoop (fun j acc => if i ≠ j then Flt.max (ratio j) acc else acc) n 0 (Flt.fin 0) =
        Flt.fin m ∧
      0 ≤ m ∧ (∀ j, j < n → j ≠ i → r j ≤ m) ∧
      (((∀ j, j < n → j = i) ∧ m = 0) ∨ ∃ j, j < n ∧ j ≠ i ∧ m = r j) := by
  induction n with
  | zero =>
    exact ⟨0, rfl, le_refl _, fun j hj => absurd hj (by omega),
      Or.inl ⟨fun j hj => absurd hj (by omega), rfl⟩⟩
  | succ n ih =>
    obtain ⟨m, hm, hm0, hmax, hwit⟩ := ih (fun j hj => hr j (by omega))
    rw [forLoop_succ_last, hm]
    by_cases hin : i = n
    · refine ⟨m, by simp [hin], hm0, ?_, ?_⟩
      · intro j hj hji
        exact hmax j (by omega) hji
      · rcases hwit with ⟨hall, hzero⟩ | ⟨j, hj, hji, hjm⟩
        · left
          refine ⟨?_, hzero⟩
          intro j hj
          by_cases hjn : j = n
          · omega
          · exact hall j (by omega)
        · right
          exact ⟨j, by omega, hji, hjm⟩
    · obtain ⟨hrn, hrn0⟩ := hr n (by omega) (fun h => hin h.symm)
      refine ⟨Max.max (r n) m, ?_, le_max_of_le_right hm0, ?_, ?_⟩
      · simp only [Nat.zero_add, ne_eq, hin, not_false_eq_true, if_true, hrn]
        exact Flt.max_fin _ _
      · intro j hj hji
        by_cases hjn : j = n
        · rw [hjn]; exact le_max_left _ _
        · exact le_trans (hmax j (by omega) hji) (le_max_right _ _)
      · right
        rcases le_total (r n) m with hle | hle
        · rcases hwit with ⟨_, hzero⟩ | ⟨j, hj, hji, hjm⟩
          · refine ⟨n, by omega, fun h => hin h.symm, ?_⟩
            rw [hzero]
            exact max_eq_left hrn0
          · exact ⟨j, by omega, hji, by rw [max_eq_right hle]; exact hjm⟩
        · exact ⟨n, by omega, fun h => hin h.symm, max_eq_left hle⟩

/-- The value `dbIndexCluster` of a cluster of a valid clustering is the maximum of the
quotients of the specification, a non-negative number. -/
theorem dbIndexCluster_eq (sqrtQ : ℚ → ℚ) (entities centroids : Mat Flt) (weights : Mat Bool)
    (norm : squaredNorm_t) (hs : SqrtLike sqrtQ)
    (hv : ValidClustering entities centroids weights norm) (i : Nat)
    (hi : i < centroids.rows) :
    ∃ R : ℚ, dbIndexCluster sqrtQ entities centroids weights norm i = Flt.fin R ∧ 0 ≤ R ∧
      IsWorstQuotient sqrtQ entities centroids weights norm i R := by
  obtain ⟨m, hm, hm0, hmax, hwit⟩ := dbIndexCluster_loop
    (fun j => Flt.div (Flt.add (scatterVector sqrtQ entities centroids weights norm i)
        (scatterVector sqrtQ entities centroids weights norm j))
        (clusterSeparationMatrix sqrtQ centroids norm i j))
    (fun j => specQuotient sqrtQ entities centroids weights norm i j) i centroids.rows
    (fun j hj hji => quotient_eq sqrtQ entities centroids weights norm hs hv i j hi hj
      (fun h => hji h.symm))
  refine ⟨m, hm, hm0, ?_, hmax⟩
  rcases hwit with ⟨hall, _⟩ | hex
  · have h2 := hv.twoClusters
    have h0 := hall 0 (by omega)
    have h1 := hall 1 (by omega)
    omega
  · exact hex

/-- The value of `daviesBouldinIndex` on a valid clustering: the mean over the clusters
of the maxima of the quotients. -/
theorem daviesBouldinIndex_eq (sqrtQ : ℚ → ℚ) (entities centroids : Mat Flt)
    (weights : Mat Bool) (norm : squaredNorm_t) (hs : SqrtLike sqrtQ)
    (hv : ValidClustering entities centroids weights norm) :
    daviesBouldinIndex sqrtQ entities centroids weights norm =
      Flt.fin ((1 / (centroids.rows : ℚ)) * ∑ i in Finset.range centroids.rows,
        (dbIndexCluster sqrtQ entities centroids weights norm i).toRat) := by
  have hsum : forLoop
      (fun i acc => Flt.add acc (dbIndexCluster sqrtQ entities centroids weights norm i))
      centroids.rows 0 (Flt.fin 0) =
      Flt.fin (∑ i in Finset.range centroids.rows,
        (dbIndexCluster sqrtQ entities centroids weights norm i).toRat) := by
    apply sumTo_fin centroids.rows
      (fun i => dbIndexCluster sqrtQ entities centroids weights norm i)
    intro k hk
    obtain ⟨R, hR, _, _⟩ := dbIndexCluster_eq sqrtQ entities centroids weights norm hs hv k hk
    rw [hR]
    rfl
  unfold daviesBouldinIndex
  simp only []
  rw [hsum]
  have hK : (centroids.rows : ℚ) ≠ 0 := by
    have h2 := hv.twoClusters
    have : (0 : ℚ) < (centroids.rows : ℚ) := by exact_mod_cast (by omega : 0 < centroids.rows)
    exact ne_of_gt this
  simp only [Flt.ofNat, Flt.div, hK, if_false]
  congr 1
  field_simp

/-- The rational square root of the library is a square root in the sense of `SqrtLike`. -/
theorem sqrtLike_ratSqrt : SqrtLike Rat.sqrt := by
  refine ⟨fun x _ => Rat.sqrt_nonneg x, fun x hx => ?_⟩
  unfold Rat.sqrt
  rw [Rat.mkRat_eq_div]
  have hnum : 0 < x.num := Rat.num_pos.mpr hx
  have h1 : 0 < Int.sqrt x.num := by
    unfold Int.sqrt
    have : 0 < x.num.toNat := by omega
    exact_mod_cast Nat.sqrt_pos.mpr this
  have h2 : 0 < Nat.sqrt x.den := Nat.sqrt_pos.mpr x.den_pos
  apply div_pos
  · exact_mod_cast h1
  · exact_mod_cast h2

/-- The worked example on the index is a valid clustering. -/
theorem dbExample_valid : ValidClustering dbEntities dbCentroids dbWeights euclideanNorm := by
  refine ⟨by decide, rfl, ?_, ?_, ?_⟩
  · intro i hi
    have hi2 : i < 2 := hi
    interval_cases i
    · exact ⟨0, by decide, by decide⟩
    · exact ⟨2, by decide, by decide⟩
  · intro i j hi hj hw
    have hi2 : i < 2 := hi
    have hj2 : j < 4 := hj
    interval_cases i <;> interval_cases j <;>
      first
        | exact absurd hw (by decide)
        | exact ⟨1 / 4, by norm_num, by decide!⟩
  · intro i j hi hj hij
    have hi2 : i < 2 := hi
    have hj2 : j < 2 := hj
    interval_cases i <;> interval_cases j <;>
      first
        | exact absurd rfl hij
        | exact ⟨100, by norm_num, by decide!⟩

/-- Two centroids lying on the two entities they are assigned form a valid clustering. -/
theorem exactExample_valid :
    ValidClustering exampleEntities exactCentroids exactWeights euclideanNorm := by
  refine ⟨by decide, rfl, ?_, ?_, ?_⟩
  · intro i hi
    have hi2 : i < 2 := hi
    interval_cases i
    · exact ⟨0, by decide, by decide⟩
    · exact ⟨1, by decide, by decide⟩
  · intro i j hi hj hw
    have hi2 : i < 2 := hi
    have hj2 : j < 2 := hj
    interval_cases i <;> interval_cases j <;>
      first
        | exact absurd hw (by decide)
        | exact ⟨0, le_refl _, by decide!⟩
  · intro i j hi hj hij
    have hi2 : i < 2 := hi
    have hj2 : j < 2 := hj
    interval_cases i <;> interval_cases j <;>
      first
        | exact absurd rfl hij
        | exact ⟨9, by norm_num, by decide!⟩

/-! ## Lemmas on the search of the cluster count -/

/-- A property that every pass of the body keeps holds when a loop returns. -/
theorem forLoopM_invariant {σ : Type} (P : σ → Prop) (body : Nat → σ → Outcome σ)
    (n i : Nat) (s t : σ)
    (hbody : ∀ k a b, i ≤ k → k < i + n → P a → body k a = Outcome.ok b → P b)
    (hs : P s) (h : forLoopM body n i s = Outcome.ok t) : P t := by
  induction n generalizing i s with
  | zero =>
    have h2 : s = t := by simpa [forLoopM] using h
    rw [← h2]
    exact hs
  | succ n ih =>
    obtain ⟨a, ha, hrest⟩ := Outcome.bind_eq_ok h
    exact ih (i + 1) a (fun k x y hk1 hk2 hx hy => hbody k x y (by omega) (by omega) hx hy)
      (hbody i s a (le_refl _) (by omega) hs ha) hrest

theorem searchRun_clustersNumber (sqrtQ : ℚ → ℚ) (fuel : Nat) (entities : Mat Flt)
    (norm : squaredNorm_t) (rd : Nat → Nat → Nat) (current : Nat) (s t : SearchState)
    (h : searchRun sqrtQ fuel entities norm rd current s = Outcome.ok t) :
    t.clustersNumber = s.clustersNumber := by
  unfold searchRun at h
  obtain ⟨cw, _, hcw⟩ := Outcome.bind_eq_ok h
  have h2 := Outcome.ok.inj hcw
  rw [← h2]

theorem searchAttemptRuns_clustersNumber (sqrtQ : ℚ → ℚ) (fuel : Nat) (entities : Mat Flt)
    (norm : squaredNorm_t) (rd : Nat → Nat → Nat) (current budget iterations : Nat)
    (s t : SearchState)
    (h : searchAttemptRuns sqrtQ fuel entities norm rd current budget iterations s =
      Outcome.ok t) :
    t.clustersNumber = s.clustersNumber := by
  induction budget generalizing iterations s with
  | zero => cases h
  | succ budget ih =>
    unfold searchAttemptRuns at h
    obtain ⟨s1, hs1, hrest⟩ := Outcome.bind_eq_ok h
    have h1 := searchRun_clustersNumber sqrtQ fuel entities norm rd current s s1 hs1
    simp only [] at hrest
    split at hrest
    · rw [ih (iterations + 1) s1 hrest, h1]
    · rw [← Outcome.ok.inj hrest, h1]

theorem searchAttempt_clustersNumber (sqrtQ : ℚ → ℚ) (fuel : Nat) (entities : Mat Flt)
    (norm : squaredNorm_t) (rd : Nat → Nat → Nat) (current : Nat) (s t : SearchState)
    (h : searchAttempt sqrtQ fuel entities norm rd current s = Outcome.ok t) :
    t.clustersNumber = s.clustersNumber ∨ t.clustersNumber = current := by
  unfold searchAttempt at h
  obtain ⟨s1, hs1, hrest⟩ := Outcome.bind_eq_ok h
  have h1 := searchAttemptRuns_clustersNumber sqrtQ fuel entities norm rd current _ 0 s s1 hs1
  split at hrest
  · right
    rw [← Outcome.ok.inj hrest]
  · left
    rw [← Outcome.ok.inj hrest, h1]

/-- The count that the search holds stays between 2 and the maximal count. -/
theorem searchLoop_clustersNumber (sqrtQ : ℚ → ℚ) (fuel : Nat) (entities : Mat Flt)
    (norm : squaredNorm_t) (rd : Nat → Nat → Nat) (maxClustersNumber : Nat)
    (s t : SearchState) (hmax : 2 ≤ maxClustersNumber)
    (hs : 2 ≤ s.clustersNumber ∧ s.clustersNumber ≤ maxClustersNumber)
    (h : searchLoop sqrtQ fuel entities norm rd maxClustersNumber s = Outcome.ok t) :
    2 ≤ t.clustersNumber ∧ t.clustersNumber ≤ maxClustersNumber := by
  unfold searchLoop at h
  refine forLoopM_invariant
    (fun x => 2 ≤ x.clustersNumber ∧ x.clustersNumber ≤ maxClustersNumber) _ _ _ s t ?_ hs h
  intro current a b hc1 hc2 ha hb
  refine forLoopM_invariant
    (fun x => 2 ≤ x.clustersNumber ∧ x.clustersNumber ≤ maxClustersNumber) _ _ _ a b ?_ ha hb
  intro _ x y _ _ hx hy
  rcases searchAttempt_clustersNumber sqrtQ fuel entities norm rd current x y hy with h1 | h1
  · rw [h1]
    exact hx
  · rw [h1]
    omega

/-! ## Lemmas on what the search leaves unchanged -/

/-- A run of `kmeansGenerator` inside the search touches neither the outputs nor the
best fitness nor the selected count. -/
theorem searchRun_frame (sqrtQ : ℚ → ℚ) (fuel : Nat) (entities : Mat Flt)
    (norm : squaredNorm_t) (rd : Nat → Nat → Nat) (current : Nat) (s t : SearchState)
    (h : searchRun sqrtQ fuel entities norm rd current s = Outcome.ok t) :
    t.centroids = s.centroids ∧ t.boolWeights = s.boolWeights ∧
    t.fitnessCandidate = s.fitnessCandidate ∧ t.clustersNumber = s.clustersNumber := by
  unfold searchRun at h
  obtain ⟨cw, _, hcw⟩ := Outcome.bind_eq_ok h
  have h2 := Outcome.ok.inj hcw
  rw [← h2]
  exact ⟨rfl, rfl, rfl, rfl⟩

theorem searchAttemptRuns_frame (sqrtQ : ℚ → ℚ) (fuel : Nat) (entities : Mat Flt)
    (norm : squaredNorm_t) (rd : Nat → Nat → Nat) (current budget iterations : Nat)
    (s t : SearchState)
    (h : searchAttemptRuns sqrtQ fuel entities norm rd current budget iterations s =
      Outcome.ok t) :
    t.centroids = s.centroids ∧ t.boolWeights = s.boolWeights ∧
    t.fitnessCandidate = s.fitnessCandidate ∧ t.clustersNumber = s.clustersNumber := by
  induction budget generalizing iterations s with
  | zero => cases h
  | succ budget ih =>
    unfold searchAttemptRuns at h
    obtain ⟨s1, hs1, hrest⟩ := Outcome.bind_eq_ok h
    obtain ⟨h1, h2, h3, h4⟩ := searchRun_frame sqrtQ fuel entities norm rd current s s1 hs1
    simp only [] at hrest
    split at hrest
    · obtain ⟨g1, g2, g3, g4⟩ := ih (iterations + 1) s1 hrest
      exact ⟨g1.trans h1, g2.trans h2, g3.trans h3, g4.trans h4⟩
    · rw [← Outcome.ok.inj hrest]
      exact ⟨h1, h2, h3, h4⟩

/-- What an attempt does to the outputs: it leaves them, or it copies the candidate
blocks of its last run into them and records the fitness and the count. -/
theorem searchAttempt_cases (sqrtQ : ℚ → ℚ) (fuel : Nat) (entities : Mat Flt)
    (norm : squaredNorm_t) (rd : Nat → Nat → Nat) (current : Nat) (s t : SearchState)
    (h : searchAttempt sqrtQ fuel entities norm rd current s = Outcome.ok t) :
    (Flt.lt t.newFitness s.fitnessCandidate = true ∧
      t.centroids = s.centroids.setTopLeftCorner
        (t.currentClustersCandidate.topLeftCorner current entities.cols) ∧
      t.boolWeights = s.boolWeights.setTopLeftCorner
        (t.currentBoolWeightsCandidate.topLeftCorner current entities.rows) ∧
      t.fitnessCandidate = t.newFitness ∧ t.clustersNumber = current) ∨
    (Flt.lt t.newFitness s.fitnessCandidate = false ∧
      t.centroids = s.centroids ∧ t.boolWeights = s.boolWeights ∧
      t.fitnessCandidate = s.fitnessCandidate ∧ t.clustersNumber = s.clustersNumber) := by
  unfold searchAttempt at h
  obtain ⟨s1, hs1, hrest⟩ := Outcome.bind_eq_ok h
  obtain ⟨h1, h2, h3, h4⟩ :=
    searchAttemptRuns_frame sqrtQ fuel entities norm rd current _ 0 s s1 hs1
  by_cases hlt : Flt.lt s1.newFitness s1.fitnessCandidate = true
  · rw [if_pos hlt] at hrest
    left
    rw [← Outcome.ok.inj hrest]
    rw [h3] at hlt
    exact ⟨hlt, by rw [h1], by rw [h2], rfl, rfl⟩
  · rw [if_neg hlt] at hrest
    right
    rw [← Outcome.ok.inj hrest]
    rw [h3] at hlt
    exact ⟨by simpa using hlt, h1, h2, h3, h4⟩

/-- The search keeps the dimensions of the two output matrices. -/
theorem searchLoop_dims (sqrtQ : ℚ → ℚ) (fuel : Nat) (entities : Mat Flt)
    (norm : squaredNorm_t) (rd : Nat → Nat → Nat) (maxClustersNumber : Nat)
    (s t : SearchState)
    (h : searchLoop sqrtQ fuel entities norm rd maxClustersNumber s = Outcome.ok t) :
    (t.centroids.rows = s.centroids.rows ∧ t.centroids.cols = s.centroids.cols) ∧
    (t.boolWeights.rows = s.boolWeights.rows ∧ t.boolWeights.cols = s.boolWeights.cols) := by
  unfold searchLoop at h
  refine forLoopM_invariant
    (fun x => (x.centroids.rows = s.centroids.rows ∧ x.centroids.cols = s.centroids.cols) ∧
      (x.boolWeights.rows = s.boolWeights.rows ∧ x.boolWeights.cols = s.boolWeights.cols))
    _ _ _ s t ?_ ⟨⟨rfl, rfl⟩, ⟨rfl, rfl⟩⟩ h
  intro current a b _ _ ha hb
  refine forLoopM_invariant
    (fun x => (x.centroids.rows = s.centroids.rows ∧ x.centroids.cols = s.centroids.cols) ∧
      (x.boolWeights.rows = s.boolWeights.rows ∧ x.boolWeights.cols = s.boolWeights.cols))
    _ _ _ a b ?_ ha hb
  intro _ x y _ _ hx hy
  rcases searchAttempt_cases sqrtQ fuel entities norm rd current x y hy with
    ⟨_, h1, h2, _, _⟩ | ⟨_, h1, h2, _, _⟩
  · rw [h1, h2]
    exact hx
  · rw [h1, h2]
    exact hx

theorem singletonCorrection_loop_dims (f : Nat → Mat Flt → Nat → Nat → Flt) (p : Nat → Prop)
    [DecidablePred p] (n i : Nat) (m : Mat Flt) :
    (forLoop (fun i (m : Mat Flt) =>
      if p i then { m with coeff := f i m } else m) n i m).rows = m.rows ∧
    (forLoop (fun i (m : Mat Flt) =>
      if p i then { m with coeff := f i m } else m) n i m).cols = m.cols := by
  induction n generalizing i m with
  | zero => exact ⟨rfl, rfl⟩
  | succ n ih =>
    rw [forLoop]
    by_cases hp : p i
    · simp only [hp, if_true]
      exact ih (i + 1) _
    · simp only [hp, if_false]
      exact ih (i + 1) m

theorem singletonCorrection_dims (entities centroids : Mat Flt) (boolWeights : Mat Bool)
    (clustersNumber : Nat) :
    (singletonCorrection entities centroids boolWeights clustersNumber).rows = centroids.rows ∧
    (singletonCorrection entities centroids boolWeights clustersNumber).cols = centroids.cols := by
  unfold singletonCorrection
  exact singletonCorrection_loop_dims _ (fun i => boolWeights.rowCount i = 1) _ _ _

/-- What a returning call of `clusterGeneratorApproximate` is made of: the state that the
search ends in, the corrected centroids, and the fuzzy weights of the selected block. -/
theorem clusterGeneratorApproximate_cases (sqrtQ : ℚ → ℚ) (fuel : Nat)
    (rd : Nat → Nat → Nat) (entities centroids weights : Mat Flt) (boolWeights : Mat Bool)
    (norm : squaredNorm_t) (r : ClusterResult)
    (h : clusterGeneratorApproximate sqrtQ fuel rd entities centroids weights boolWeights
      norm = Outcome.ok r) :
    centroids.cols = entities.cols ∧
    ∃ s w,
      searchLoop sqrtQ fuel entities norm rd centroids.rows
        { centroids := centroids, boolWeights := boolWeights,
          fitnessCandidate := Flt.fin 50, newFitness := Flt.fin 50,
          currentClustersCandidate :=
            { rows := centroids.rows, cols := entities.cols, coeff := fun _ _ => Flt.nan },
          currentBoolWeightsCandidate :=
            { rows := centroids.rows, cols := entities.rows, coeff := fun _ _ => false },
          clustersNumber := 2, calls := 0 } = Outcome.ok s ∧
      calculateFuzzyWeights entities
        ((singletonCorrection entities s.centroids s.boolWeights
          s.clustersNumber).topRightCorner s.clustersNumber entities.cols)
        (weights.topLeftCorner s.clustersNumber entities.rows) norm = Outcome.ok w ∧
      r.clustersNumber = s.clustersNumber ∧
      r.centroids = singletonCorrection entities s.centroids s.boolWeights s.clustersNumber ∧
      r.weights = weights.setTopLeftCorner w ∧ r.boolWeights = s.boolWeights := by
  unfold clusterGeneratorApproximate at h
  by_cases hc : centroids.cols = entities.cols
  · rw [if_pos hc] at h
    obtain ⟨s, hs, hrest⟩ := Outcome.bind_eq_ok h
    obtain ⟨w, hw, hr⟩ := Outcome.bind_eq_ok hrest
    have hr2 := Outcome.ok.inj hr
    refine ⟨hc, s, w, hs, hw, ?_⟩
    rw [← hr2]
    exact ⟨rfl, rfl, rfl, rfl⟩
  · rw [if_neg hc] at h
    cases h

theorem returnedCount_ok {o : Outcome ClusterResult} {n : Nat}
    (h : returnedCount o = Outcome.ok n) : ∃ r, o = Outcome.ok r ∧ r.clustersNumber = n := by
  unfold returnedCount at h
  obtain ⟨r, hr, hn⟩ := Outcome.bind_eq_ok h
  exact ⟨r, hr, Outcome.ok.inj hn⟩

/-- A row of the top right block that spans every column is the row of the matrix. -/
theorem Mat.topRightCorner_row (m : Mat Flt) (r i : Nat) :
    (m.topRightCorner r m.cols).row i = m.row i := by
  unfold Mat.topRightCorner Mat.row
  simp

/-! ## Lemmas on the failures of fuzzy c-means -/

theorem Outcome.bind_eq_violation {α β : Type} {x : Outcome α} {f : α → Outcome β}
    (h : x.bind f = Outcome.violation) :
    x = Outcome.violation ∨ ∃ a, x = Outcome.ok a ∧ f a = Outcome.violation := by
  cases x with
  | ok a => exact Or.inr ⟨a, rfl, h⟩
  | violation => exact Or.inl rfl
  | diverged => cases h

theorem weightRowSums_violation {o : Outcome (Mat Flt × Mat Flt)}
    (h : weightRowSums o = Outcome.violation) : o = Outcome.violation := by
  unfold weightRowSums at h
  rcases Outcome.bind_eq_violation h with h1 | ⟨a, _, h2⟩
  · exact h1
  · cases h2

/-! ## Lemmas on the exact search -/

/-- With room for two clusters or more, `clusterGeneratorExact` never returns: its first
call of `FCMGenerator` gets a weight matrix without rows and fails the size check. -/
theorem clusterGeneratorExact_never_returns (sqrtQ : ℚ → ℚ) (random : Nat → Nat → Nat → ℚ)
    (maxIterations : Nat) (entities centroids weights : Mat Flt) (norm : squaredNorm_t)
    (hK : 2 ≤ centroids.rows) :
    clusterGeneratorExact sqrtQ random maxIterations entities centroids weights norm =
      Outcome.violation := by
  unfold clusterGeneratorExact
  by_cases hsq : weights.rows = weights.cols
  · rw [if_pos hsq]
    obtain ⟨n, hn⟩ : ∃ n, centroids.rows - 1 = n + 1 := ⟨centroids.rows - 2, by omega⟩
    simp only [hn, forLoopM]
    have hstep : ∀ s : ExactState, s.currentClustersCandidate.rows = centroids.rows →
        s.currentWeightsCandidate.rows = 0 →
        exactStep sqrtQ random maxIterations entities norm 2 s = Outcome.violation := by
      intro s h1 h2
      unfold exactStep FCMGenerator
      simp only [Mat.setTopLeftCorner]
      rw [if_neg]
      · rfl
      · intro hd
        have := hd.2.1
        omega
    rw [hstep _ rfl rfl]
    rfl
  · rw [if_neg hsq]

/-! ## Lemmas on the seeding -/

/-- One round of the loop of `kmeansInitializer`: the `break` with the centroids of the
round, or the next round from the state `kmeansInitializerNext`. -/
theorem kmeansInitializerLoop_succ (norm : squaredNorm_t) (gen : Nat → Nat)
    (statsNumber startingEntitiesNumber clustersNumber fuel : Nat) (s : SeedState) :
    kmeansInitializerLoop norm gen statsNumber startingEntitiesNumber clustersNumber
        (fuel + 1) s =
      if s.currentClustersNumber + 1 = clustersNumber then Outcome.ok (seedRoundCentroids s)
      else kmeansInitializerLoop norm gen statsNumber startingEntitiesNumber clustersNumber
        fuel (kmeansInitializerNext norm gen startingEntitiesNumber s) := rfl

theorem kmeansInitializer_eq (entities centroids : Mat Flt) (norm : squaredNorm_t)
    (gen : Nat → Nat) :
    kmeansInitializer entities centroids norm gen =
      kmeansInitializerLoop norm gen entities.cols entities.rows centroids.rows
        centroids.rows (kmeansInitializerStart entities centroids gen) := rfl

theorem upperBoundFrom_spec (v : Nat → Flt) (value : Flt) (n k : Nat) :
    k ≤ upperBoundFrom v value n k ∧ upperBoundFrom v value n k ≤ k + n ∧
    (upperBoundFrom v value n k < k + n →
      Flt.lt value (v (upperBoundFrom v value n k)) = true) ∧
    (∀ i, k ≤ i → i < upperBoundFrom v value n k → Flt.lt value (v i) = false) := by
  induction n generalizing k with
  | zero =>
    refine ⟨le_refl _, le_refl _, fun h => absurd h (by simp [upperBoundFrom]), ?_⟩
    intro i h1 h2
    simp only [upperBoundFrom] at h2
    omega
  | succ n ih =>
    unfold upperBoundFrom
    by_cases hlt : Flt.lt value (v k) = true
    · rw [if_pos hlt]
      exact ⟨le_refl _, by omega, fun _ => hlt, fun i h1 h2 => absurd h2 (by omega)⟩
    · rw [if_neg hlt]
      obtain ⟨h1, h2, h3, h4⟩ := ih (k + 1)
      refine ⟨by omega, by omega, fun h => h3 (by omega), ?_⟩
      intro i hi1 hi2
      by_cases hik : i = k
      · rw [hik]
        simpa using hlt
      · exact h4 i (by omega) hi2

/-- What `std::upper_bound` returns on the first `len` positions: the first position
whose element is above the value, `len` if there is none. -/
theorem upperBound_spec (v : Nat → Flt) (len : Nat) (value : Flt) :
    upperBound v len value ≤ len ∧
    (upperBound v len value < len → Flt.lt value (v (upperBound v len value)) = true) ∧
    (∀ i, i < upperBound v len value → Flt.lt value (v i) = false) := by
  obtain ⟨_, h2, h3, h4⟩ := upperBoundFrom_spec v value len 0
  unfold upperBound
  refine ⟨by omega, fun h => h3 (by omega), fun i hi => h4 i (Nat.zero_le _) hi⟩

theorem seedRoundCumulative_below (norm : squaredNorm_t) (startingEntitiesNumber : Nat)
    (s : SeedState) (k : Nat)
    (hk : k < startingEntitiesNumber - (s.currentClustersNumber + 1) - 1) :
    seedRoundCumulative norm startingEntitiesNumber s k =
      prefixSum (seedRoundDistances norm startingEntitiesNumber s) k := by
  unfold seedRoundCumulative partialSum
  rw [if_pos hk]

/-- The centroids of a round: the chosen row of the pool in the row of the round, the
earlier rows as they were. -/
theorem seedRoundCentroids_chosen (entities : Mat Flt) (clustersNumber : Nat) (s : SeedState)
    (orig pos : Nat → Nat) (hinv : SeedInv entities clustersNumber s orig pos) :
    (seedRoundCentroids s).rows = clustersNumber ∧
    (seedRoundCentroids s).cols = entities.cols ∧
    (∀ i, i < s.currentClustersNumber + 1 →
      (if i = s.currentClustersNumber then orig s.randomIndex else pos i) < entities.rows ∧
      ∀ c, c < entities.cols → (seedRoundCentroids s).coeff i c =
        entities.coeff (if i = s.currentClustersNumber then orig s.randomIndex else pos i) c) ∧
    (∀ i k, i < s.currentClustersNumber + 1 → k < s.currentClustersNumber + 1 →
      (if i = s.currentClustersNumber then orig s.randomIndex else pos i) =
        (if k = s.currentClustersNumber then orig s.randomIndex else pos k) → i = k) := by
  have hri := hinv.pool_orig s.randomIndex hinv.index_lt
  refine ⟨hinv.centroids_rows, hinv.centroids_cols, ?_, ?_⟩
  · intro i hi
    by_cases hic : i = s.currentClustersNumber
    · rw [if_pos hic]
      refine ⟨hri.1, fun c hc => ?_⟩
      show (if i = s.currentClustersNumber ∧ s.currentClustersNumber < s.centroids.rows ∧
        c < s.centroids.cols then s.mEntities.coeff s.randomIndex c else _) = _
      rw [if_pos ⟨hic, by rw [hinv.centroids_rows]; exact hinv.cur_lt,
        by rw [hinv.centroids_cols]; exact hc⟩]
      exact hri.2 c hc
    · rw [if_neg hic]
      have hi2 : i < s.currentClustersNumber := by omega
      refine ⟨(hinv.chosen i hi2).1, fun c hc => ?_⟩
      show (if i = s.currentClustersNumber ∧ s.currentClustersNumber < s.centroids.rows ∧
        c < s.centroids.cols then s.mEntities.coeff s.randomIndex c else _) = _
      rw [if_neg (fun h => hic h.1)]
      exact (hinv.chosen i hi2).2 c hc
  · intro i k hi hk heq
    by_cases hic : i = s.currentClustersNumber <;> by_cases hkc : k = s.currentClustersNumber
    · omega
    · rw [if_pos hic, if_neg hkc] at heq
      exact absurd heq.symm (hinv.disjoint k s.randomIndex (by omega) hinv.index_lt)
    · rw [if_neg hic, if_pos hkc] at heq
      exact absurd heq (hinv.disjoint i s.randomIndex (by omega) hinv.index_lt)
    · rw [if_neg hic, if_neg hkc] at heq
      exact hinv.chosen_inj i k (by omega) (by omega) heq

/-- A round that does not leave the loop keeps the invariant of the seeding. -/
theorem kmeansInitializerNext_inv (entities : Mat Flt) (clustersNumber : Nat)
    (norm : squaredNorm_t) (gen : Nat → Nat) (s : SeedState) (orig pos : Nat → Nat)
    (hinv : SeedInv entities clustersNumber s orig pos)
    (hKN : clustersNumber ≤ entities.rows)
    (hmore : s.currentClustersNumber + 1 < clustersNumber) :
    SeedInv entities clustersNumber (kmeansInitializerNext norm gen entities.rows s)
      (fun j => if j = s.randomIndex
        then orig (entities.rows - s.currentClustersNumber - 1) else orig j)
      (fun i => if i = s.currentClustersNumber then orig s.randomIndex else pos i) := by
  obtain ⟨hc1, hc2, hc3, hc4⟩ := seedRoundCentroids_chosen entities clustersNumber s orig pos hinv
  have hcur := hinv.cur_lt
  have hidx := hinv.index_lt
  have hlast : entities.rows - s.currentClustersNumber - 1 <
      entities.rows - s.currentClustersNumber := by omega
  have hpool : ∀ j c, j < entities.rows - s.currentClustersNumber - 1 → c < entities.cols →
      (seedRoundPool entities.rows s).coeff j c =
        entities.coeff (if j = s.randomIndex
          then orig (entities.rows - s.currentClustersNumber - 1) else orig j) c := by
    intro j c hj hc
    show (if j = entities.rows - s.currentClustersNumber - 1 ∧ _ ∧ _ then Flt.fin 0
      else (if j = s.randomIndex ∧ s.randomIndex < s.mEntities.rows ∧ c < s.mEntities.cols
        then s.mEntities.coeff (entities.rows - s.currentClustersNumber - 1) c
        else s.mEntities.coeff j c)) = _
    rw [if_neg (fun h => by omega)]
    by_cases hjr : j = s.randomIndex
    · rw [if_pos ⟨hjr, by rw [hinv.pool_rows]; omega, by rw [hinv.pool_cols]; exact hc⟩,
        if_pos hjr]
      exact (hinv.pool_orig _ hlast).2 c hc
    · rw [if_neg (fun h => hjr h.1), if_neg hjr]
      exact (hinv.pool_orig j (by omega)).2 c hc
  obtain ⟨hub, _, _⟩ := upperBound_spec (seedRoundCumulative norm entities.rows s)
    (entities.rows - (s.currentClustersNumber + 1) - 1) (seedRoundDraw norm gen entities.rows s)
  refine
    { cur_lt := hmore
      index_lt := ?_
      centroids_rows := hc1
      centroids_cols := hc2
      pool_rows := hinv.pool_rows
      pool_cols := hinv.pool_cols
      pool_orig := ?_
      pool_inj := ?_
      chosen := hc3
      chosen_inj := hc4
      disjoint := ?_ }
  · show upperBound _ _ _ < entities.rows - (s.currentClustersNumber + 1)
    omega
  · intro j hj
    have hj2 : j < entities.rows - s.currentClustersNumber - 1 := by
      have : (kmeansInitializerNext norm gen entities.rows s).currentClustersNumber =
        s.currentClustersNumber + 1 := rfl
      omega
    refine ⟨?_, fun c hc => hpool j c hj2 hc⟩
    by_cases hjr : j = s.randomIndex
    · rw [if_pos hjr]
      exact (hinv.pool_orig _ hlast).1
    · rw [if_neg hjr]
      exact (hinv.pool_orig j (by omega)).1
  · intro j k hj hk heq
    have hcn : (kmeansInitializerNext norm gen entities.rows s).currentClustersNumber =
      s.currentClustersNumber + 1 := rfl
    have hj2 : j < entities.rows - s.currentClustersNumber - 1 := by omega
    have hk2 : k < entities.rows - s.currentClustersNumber - 1 := by omega
    by_cases hjr : j = s.randomIndex <;> by_cases hkr : k = s.randomIndex
    · omega
    · rw [if_pos hjr, if_neg hkr] at heq
      have := hinv.pool_inj _ k hlast (by omega) heq
      omega
    · rw [if_neg hjr, if_pos hkr] at heq
      have := hinv.pool_inj j _ (by omega) hlast heq
      omega
    · rw [if_neg hjr, if_neg hkr] at heq
      exact hinv.pool_inj j k (by omega) (by omega) heq
  · intro i j hi hj
    have hcn : (kmeansInitializerNext norm gen entities.rows s).currentClustersNumber =
      s.currentClustersNumber + 1 := rfl
    have hi2 : i < s.currentClustersNumber + 1 := by omega
    have hj2 : j < entities.rows - s.currentClustersNumber - 1 := by omega
    by_cases hic : i = s.currentClustersNumber <;> by_cases hjr : j = s.randomIndex
    · rw [if_pos hic, if_pos hjr]
      intro heq
      have := hinv.pool_inj _ _ hidx hlast heq
      omega
    · rw [if_pos hic, if_neg hjr]
      intro heq
      exact hjr (hinv.pool_inj _ _ hidx (by omega) heq).symm
    · rw [if_neg hic, if_pos hjr]
      exact hinv.disjoint i _ (by omega) hlast
    · rw [if_neg hic, if_neg hjr]
      exact hinv.disjoint i j (by omega) (by omega)

/-- From a state that meets the invariant, the loop of `kmeansInitializer` returns, and
every centroid it returns is a row of the entity matrix, no row being taken twice. -/
theorem kmeansInitializerLoop_returns (entities : Mat Flt) (clustersNumber : Nat)
    (norm : squaredNorm_t) (gen : Nat → Nat) (hKN : clustersNumber ≤ entities.rows)
    (fuel : Nat) (s : SeedState) (orig pos : Nat → Nat)
    (hinv : SeedInv entities clustersNumber s orig pos)
    (hfuel : s.currentClustersNumber + fuel = clustersNumber) :
    ∃ (out : Mat Flt) (chosen : Nat → Nat),
      kmeansInitializerLoop norm gen entities.cols entities.rows clustersNumber fuel s =
        Outcome.ok out ∧
      out.rows = clustersNumber ∧ out.cols = entities.cols ∧
      (∀ i, i < clustersNumber → chosen i < entities.rows ∧
        ∀ c, c < entities.cols → out.coeff i c = entities.coeff (chosen i) c) ∧
      (∀ i k, i < clustersNumber → k < clustersNumber → chosen i = chosen k → i = k) := by
  induction fuel generalizing s orig pos with
  | zero =>
    have := hinv.cur_lt
    omega
  | succ fuel ih =>
    rw [kmeansInitializerLoop_succ]
    by_cases hlast : s.currentClustersNumber + 1 = clustersNumber
    · rw [if_pos hlast]
      obtain ⟨hc1, hc2, hc3, hc4⟩ :=
        seedRoundCentroids_chosen entities clustersNumber s orig pos hinv
      rw [hlast] at hc3 hc4
      exact ⟨seedRoundCentroids s, _, rfl, hc1, hc2, hc3, hc4⟩
    · rw [if_neg hlast]
      have hmore : s.currentClustersNumber + 1 < clustersNumber := by omega
      exact ih _ _ _ (kmeansInitializerNext_inv entities clustersNumber norm gen s orig pos
        hinv hKN hmore) (by
          show s.currentClustersNumber + 1 + fuel = clustersNumber
          omega)

/-- The state in which `kmeansInitializer` enters its loop meets the invariant. -/
theorem kmeansInitializerStart_inv (entities centroids : Mat Flt) (gen : Nat → Nat)
    (hK : 1 ≤ centroids.rows) (hKN : centroids.rows ≤ entities.rows)
    (hcols : centroids.cols = entities.cols) :
    SeedInv entities centroids.rows (kmeansInitializerStart entities centroids gen)
      (fun j => j) (fun i => i) := by
  refine
    { cur_lt := hK
      index_lt := ?_
      centroids_rows := rfl
      centroids_cols := hcols
      pool_rows := rfl
      pool_cols := rfl
      pool_orig := fun j hj => ⟨hj, fun c _ => rfl⟩
      pool_inj := fun j k _ _ h => h
      chosen := fun i hi => absurd hi (Nat.not_lt_zero i)
      chosen_inj := fun i k hi _ _ => absurd hi (Nat.not_lt_zero i)
      disjoint := fun i j hi _ => absurd hi (Nat.not_lt_zero i) }
  show uniformInt 0 (entities.rows - 1) (gen 0) < entities.rows - 0
  unfold uniformInt
  have hpos : 0 < entities.rows - 1 - 0 + 1 := by omega
  have := Nat.mod_lt (gen 0) hpos
  omega

/-- The centroids that `kmeansInitializer` returns, coefficient by coefficient. -/
theorem kmeansInitializer_returns (entities centroids : Mat Flt) (norm : squaredNorm_t)
    (gen : Nat → Nat) (hK : 1 ≤ centroids.rows) (hKN : centroids.rows ≤ entities.rows)
    (hcols : centroids.cols = entities.cols) :
    ∃ (out : Mat Flt) (chosen : Nat → Nat),
      kmeansInitializer entities centroids norm gen = Outcome.ok out ∧
      out.rows = centroids.rows ∧ out.cols = entities.cols ∧
      (∀ i, i < centroids.rows → chosen i < entities.rows ∧
        ∀ c, c < entities.cols → out.coeff i c = entities.coeff (chosen i) c) ∧
      (∀ i k, i < centroids.rows → k < centroids.rows → chosen i = chosen k → i = k) := by
  rw [kmeansInitializer_eq]
  exact kmeansInitializerLoop_returns entities centroids.rows norm gen hKN centroids.rows _ _ _
    (kmeansInitializerStart_inv entities centroids gen hK hKN hcols) (by
      show 0 + centroids.rows = centroids.rows
      omega)

/-- Two rows with the same coefficients below the number of columns are equal. -/
theorem Mat.row_congr (a b : Mat Flt) (i k : Nat) (hcols : a.cols = b.cols)
    (h : ∀ c, c < b.cols → a.coeff i c = b.coeff k c) : a.row i = b.row k := by
  unfold Mat.row
  rw [hcols]
  apply List.map_congr_left
  intro c hc
  exact h c (List.mem_range.mp hc)

/-! ## Lemmas on the selection of the search -/

/-- A loop over a state with more in it than another loop, whose body does on the shared
part what the body of the other loop does, ends in a state with the shared part of the
end of the other loop. -/
theorem forLoopM_project {σ τ : Type} (π : τ → σ) (body : Nat → σ → Outcome σ)
    (bodyL : Nat → τ → Outcome τ)
    (hbody : ∀ k x, (bodyL k x).bind (fun y => Outcome.ok (π y)) = body k (π x))
    (n i : Nat) (x : τ) :
    (forLoopM bodyL n i x).bind (fun y => Outcome.ok (π y)) = forLoopM body n i (π x) := by
  induction n generalizing i x with
  | zero => rfl
  | succ n ih =>
    show ((bodyL i x).bind (forLoopM bodyL n (i + 1))).bind (fun y => Outcome.ok (π y)) =
      (body i (π x)).bind (forLoopM body n (i + 1))
    rw [Outcome.bind_assoc, ← hbody i x, Outcome.bind_assoc]
    congr 1
    funext a
    exact ih (i + 1) a

theorem searchAttemptLogged_project (sqrtQ : ℚ → ℚ) (fuel : Nat) (entities : Mat Flt)
    (norm : squaredNorm_t) (rd : Nat → Nat → Nat) (current : Nat)
    (sl : SearchState × List (Nat × SearchState)) :
    (searchAttemptLogged sqrtQ fuel entities norm rd current sl).bind
        (fun y => Outcome.ok y.1) =
      searchAttempt sqrtQ fuel entities norm rd current sl.1 := by
  unfold searchAttemptLogged
  rw [Outcome.bind_assoc]
  exact Outcome.bind_ok_right _

/-- The search with the log does to the state what the search does. -/
theorem searchLoopLogged_project (sqrtQ : ℚ → ℚ) (fuel : Nat) (entities : Mat Flt)
    (norm : squaredNorm_t) (rd : Nat → Nat → Nat) (maxClustersNumber : Nat)
    (sl : SearchState × List (Nat × SearchState)) :
    (searchLoopLogged sqrtQ fuel entities norm rd maxClustersNumber sl).bind
        (fun y => Outcome.ok y.1) =
      searchLoop sqrtQ fuel entities norm rd maxClustersNumber sl.1 := by
  unfold searchLoopLogged searchLoop
  apply forLoopM_project (fun y : SearchState × List (Nat × SearchState) => y.1)
  intro current x
  apply forLoopM_project (fun y : SearchState × List (Nat × SearchState) => y.1)
  intro _ y
  exact searchAttemptLogged_project sqrtQ fuel entities norm rd current y

/-- A returning search is a returning search with a log, in the same state. -/
theorem searchLoop_logged (sqrtQ : ℚ → ℚ) (fuel : Nat) (entities : Mat Flt)
    (norm : squaredNorm_t) (rd : Nat → Nat → Nat) (maxClustersNumber : Nat)
    (s t : SearchState)
    (h : searchLoop sqrtQ fuel entities norm rd maxClustersNumber s = Outcome.ok t) :
    ∃ log, searchLoopLogged sqrtQ fuel entities norm rd maxClustersNumber (s, []) =
      Outcome.ok (t, log) := by
  have hp := searchLoopLogged_project sqrtQ fuel entities norm rd maxClustersNumber (s, [])
  rw [h] at hp
  obtain ⟨y, hy, hy2⟩ := Outcome.bind_eq_ok hp
  have hy3 : y.1 = t := Outcome.ok.inj hy2
  refine ⟨y.2, ?_⟩
  rw [hy, ← hy3]

/-- An attempt keeps the invariant of the search. -/
theorem searchAttemptLogged_inv (sqrtQ : ℚ → ℚ) (fuel : Nat) (entities : Mat Flt)
    (norm : squaredNorm_t) (rd : Nat → Nat → Nat) (current : Nat) (s0 : SearchState)
    (sl tl : SearchState × List (Nat × SearchState))
    (hinv : SearchInv entities s0 sl)
    (h : searchAttemptLogged sqrtQ fuel entities norm rd current sl = Outcome.ok tl) :
    SearchInv entities s0 tl := by
  unfold searchAttemptLogged at h
  obtain ⟨t, ht, htl⟩ := Outcome.bind_eq_ok h
  have htl2 := Outcome.ok.inj htl
  rw [← htl2]
  rcases searchAttempt_cases sqrtQ fuel entities norm rd current sl.1 t ht with
    ⟨hlt, hcen, hbw, hfit, hnum⟩ | ⟨hlt, hcen, hbw, hfit, hnum⟩
  · -- the attempt is selected
    right
    have hbelow : Flt.lt t.newFitness (Flt.fin 50) = true := by
      rcases hinv with ⟨hf, _⟩ | ⟨a, _, ha50, hsel, _⟩
      · rw [hf] at hlt
        exact hlt
      · rw [hsel.2.1] at hlt
        exact Flt.lt_trans hlt ha50
    refine ⟨(current, t), List.mem_append_right _ (List.mem_singleton.mpr rfl), hbelow,
      ⟨hnum, hfit, ?_, ?_⟩, ?_⟩
    · intro i c hi hc
      show t.centroids.coeff i c = t.currentClustersCandidate.coeff i c
      rw [hcen]
      show (if i < current ∧ c < entities.cols then _ else _) = _
      rw [if_pos ⟨hi, hc⟩]
      rfl
    · intro i j hi hj
      show t.boolWeights.coeff i j = t.currentBoolWeightsCandidate.coeff i j
      rw [hbw]
      show (if i < current ∧ j < entities.rows then _ else _) = _
      rw [if_pos ⟨hi, hj⟩]
      rfl
    · intro b hb
      show Flt.lt b.2.newFitness t.newFitness = false
      rcases List.mem_append.mp hb with hb1 | hb1
      · cases hc : Flt.lt b.2.newFitness t.newFitness with
        | false => rfl
        | true =>
          rcases hinv with ⟨hf, _, _, _, hall⟩ | ⟨a, _, _, hsel, hall⟩
          · have h2 := Flt.lt_trans hc hbelow
            rw [hall b hb1] at h2
            exact absurd h2 (by simp)
          · rw [hsel.2.1] at hlt
            have h2 := Flt.lt_trans hc hlt
            rw [hall b hb1] at h2
            exact absurd h2 (by simp)
      · rw [List.mem_singleton.mp hb1]
        exact Flt.lt_irrefl _
  · -- the attempt is not selected
    rcases hinv with ⟨hf, h1, h2, h3, hall⟩ | ⟨a, ha, ha50, hsel, hall⟩
    · left
      refine ⟨by rw [hfit]; exact hf, by rw [hcen]; exact h1, by rw [hbw]; exact h2,
        by rw [hnum]; exact h3, ?_⟩
      intro b hb
      rcases List.mem_append.mp hb with hb1 | hb1
      · exact hall b hb1
      · rw [List.mem_singleton.mp hb1]
        rw [hf] at hlt
        exact hlt
    · right
      refine ⟨a, List.mem_append_left _ ha, ha50, ?_, ?_⟩
      · obtain ⟨g1, g2, g3, g4⟩ := hsel
        refine ⟨by rw [hnum]; exact g1, by rw [hfit]; exact g2, ?_, ?_⟩
        · intro i c hi hc
          rw [hcen]
          exact g3 i c hi hc
        · intro i j hi hj
          rw [hbw]
          exact g4 i j hi hj
      · intro b hb
        rcases List.mem_append.mp hb with hb1 | hb1
        · exact hall b hb1
        · rw [List.mem_singleton.mp hb1]
          rw [hsel.2.1] at hlt
          exact hlt

/-- The search with the log keeps its invariant. -/
theorem searchLoopLogged_inv (sqrtQ : ℚ → ℚ) (fuel : Nat) (entities : Mat Flt)
    (norm : squaredNorm_t) (rd : Nat → Nat → Nat) (maxClustersNumber : Nat)
    (s0 : SearchState) (sl tl : SearchState × List (Nat × SearchState))
    (hinv : SearchInv entities s0 sl)
    (h : searchLoopLogged sqrtQ fuel entities norm rd maxClustersNumber sl = Outcome.ok tl) :
    SearchInv entities s0 tl := by
  unfold searchLoopLogged at h
  refine forLoopM_invariant (SearchInv entities s0) _ _ _ sl tl ?_ hinv h
  intro current a b _ _ ha hb
  refine forLoopM_invariant (SearchInv entities s0) _ _ _ a b ?_ ha hb
  intro _ x y _ _ hx hy
  exact searchAttemptLogged_inv sqrtQ fuel entities norm rd current s0 x y hx hy


/-- A log whose scores start with `x` has an attempt of score `x`. -/
theorem loggedScores_ok_mem {sl : SearchState × List (Nat × SearchState)} {x : Flt}
    {xs : List Flt} (h : loggedScores (Outcome.ok sl) = Outcome.ok (x :: xs)) :
    ∃ b, b ∈ sl.2 ∧ b.2.newFitness = x := by
  have h2 : sl.2.map (fun a => a.2.newFitness) = x :: xs := Outcome.ok.inj h
  cases hl : sl.2 with
  | nil => rw [hl] at h2; cases h2
  | cons b bs =>
    rw [hl] at h2
    exact ⟨b, List.mem_cons_self b bs, (List.cons.inj h2).1⟩


/-! ## Lemmas on hard k-means -/

theorem Mat.eqb_eq_true {α : Type} [DecidableEq α] (a b : Mat α) :
    Mat.eqb a b = true ↔ ∀ r c, r < a.rows → c < a.cols → a.coeff r c = b.coeff r c := by
  simp only [Mat.eqb, List.all_eq_true, List.mem_range, decide_eq_true_eq]
  constructor
  · intro h r c hr hc
    exact h r hr c hc
  · intro h r hr c hc
    exact h r c hr hc

theorem Mat.rowCount_pos (m : Mat Bool) (i : Nat) :
    0 < m.rowCount i ↔ ∃ c, c < m.cols ∧ m.coeff i c = true := by
  unfold Mat.rowCount
  rw [List.length_pos_iff_exists_mem]
  constructor
  · rintro ⟨c, hc⟩
    rw [List.mem_filter, List.mem_range] at hc
    exact ⟨c, hc.1, hc.2⟩
  · rintro ⟨c, hc1, hc2⟩
    exact ⟨c, by rw [List.mem_filter, List.mem_range]; exact ⟨hc1, hc2⟩⟩

/-- The number of true coefficients of a row is the number of the entities of the
cluster. -/
theorem Mat.rowCount_eq_card (entities : Mat Flt) (w : Mat Bool) (i : Nat)
    (hcols : w.cols = entities.rows) :
    w.rowCount i = (assignedEntities entities w i).card := by
  unfold Mat.rowCount assignedEntities
  rw [hcols]
  generalize entities.rows = n
  induction n with
  | zero => rfl
  | succ n ih =>
    rw [List.range_succ, List.filter_append, List.length_append, ih, Finset.range_succ,
      Finset.filter_insert]
    by_cases h : w.coeff i n = true
    · rw [if_pos h, Finset.card_insert_of_not_mem (by simp)]
      simp [h]
    · rw [if_neg h]
      simp [h]

/-- The result of `calculateBooleanWeights` takes of the weight matrix it is handed the
dimensions only. -/
theorem calculateBooleanWeights_congr (entities centroids : Mat Flt) (w1 w2 : Mat Bool)
    (norm : squaredNorm_t) (hrows : w1.rows = w2.rows) (hcols : w1.cols = w2.cols) :
    calculateBooleanWeights entities centroids w1 norm =
      calculateBooleanWeights entities centroids w2 norm := by
  apply Mat.ext
  · rw [(calculateBooleanWeights_dims _ _ _ _).1, (calculateBooleanWeights_dims _ _ _ _).1,
      hrows]
  · rw [(calculateBooleanWeights_dims _ _ _ _).2, (calculateBooleanWeights_dims _ _ _ _).2,
      hcols]
  · funext r c
    rw [calculateBooleanWeights_coeff, calculateBooleanWeights_coeff, hrows, hcols]

/-- The loop that scales the rows one by one scales every row below its bound. -/
theorem scaleRows_coeff (x : Nat → Flt) (n : Nat) (m : Mat Flt) (r c : Nat) :
    (forLoop (fun i c => c.scaleRow i (x i)) n 0 m).coeff r c =
      if r < n then Flt.mul (m.coeff r c) (x r) else m.coeff r c := by
  induction n with
  | zero => rfl
  | succ n ih =>
    rw [forLoop_succ_last]
    show (if r = 0 + n then Flt.mul ((forLoop (fun i c => c.scaleRow i (x i)) n 0 m).coeff r c)
        (x (0 + n)) else (forLoop (fun i c => c.scaleRow i (x i)) n 0 m).coeff r c) = _
    rw [ih, Nat.zero_add]
    by_cases h1 : r = n
    · subst h1
      rw [if_pos rfl, if_neg (Nat.lt_irrefl r), if_pos (Nat.lt_succ_self r)]
    · rw [if_neg h1]
      by_cases h2 : r < n
      · rw [if_pos h2, if_pos (by omega)]
      · rw [if_neg h2, if_neg (by omega)]

theorem clusterMeans_dims (entities centroids : Mat Flt) (weights : Mat Bool) :
    (clusterMeans entities centroids weights).rows = centroids.rows ∧
    (clusterMeans entities centroids weights).cols = centroids.cols := by
  unfold clusterMeans
  exact scaleRows_dims _ _ _ _

/-- The centroids that the body of the loop of `kmeansGenerator` computes: in every row
the sum of the entities of the cluster, times one over their number. -/
theorem clusterMeans_coeff (entities centroids : Mat Flt) (weights : Mat Bool) (r c : Nat)
    (hr : r < centroids.rows) :
    (clusterMeans entities centroids weights).coeff r c =
      Flt.mul (sumTo weights.cols (fun k =>
          Flt.mul (if weights.coeff r k then Flt.fin 1 else Flt.fin 0) (entities.coeff k c)))
        (Flt.div (Flt.fin 1) (Flt.ofNat (weights.rowCount r))) := by
  unfold clusterMeans
  simp only []
  rw [scaleRows_coeff, if_pos hr]

/-- The means of non-empty clusters of finite entities, as rational numbers. -/
theorem clusterMeans_fin (entities centroids : Mat Flt) (weights : Mat Bool) (r c : Nat)
    (hr : r < centroids.rows) (hc : c < entities.cols) (hfin : FiniteEntries entities)
    (hcols : weights.cols = entities.rows) (hne : 0 < weights.rowCount r) :
    (clusterMeans entities centroids weights).coeff r c =
      Flt.fin (assignedMean entities weights r c) := by
  rw [clusterMeans_coeff entities centroids weights r c hr, hcols,
    sumTo_fin entities.rows _
      (fun k => if weights.coeff r k = true then (entities.coeff k c).toRat else 0)]
  · have hn : ((weights.rowCount r : Nat) : ℚ) ≠ 0 := by
      exact_mod_cast (Nat.pos_iff_ne_zero.mp hne)
    unfold assignedMean
    rw [← Mat.rowCount_eq_card entities weights r hcols]
    unfold assignedEntities
    rw [Finset.sum_filter]
    have hdiv : Flt.div (Flt.fin 1) (Flt.ofNat (weights.rowCount r)) =
        Flt.fin (1 / ((weights.rowCount r : Nat) : ℚ)) := by
      show (if ((weights.rowCount r : Nat) : ℚ) = 0 then _ else _) = _
      rw [if_neg hn]
    rw [hdiv]
    show Flt.fin (_ * _) = _
    rw [mul_one_div]
  · intro k hk
    obtain ⟨q, hq⟩ := hfin k c hk hc
    rw [hq]
    by_cases hw : weights.coeff r k = true
    · rw [if_pos hw, if_pos hw]
      show Flt.fin (1 * q) = Flt.fin q
      rw [one_mul]
    · rw [if_neg hw, if_neg hw]
      show Flt.fin (0 * q) = Flt.fin 0
      rw [zero_mul]

theorem kmeansLoop_succ (entities : Mat Flt) (norm : squaredNorm_t) (fuel : Nat)
    (centroids : Mat Flt) (weights oldWeights : Mat Bool) :
    kmeansLoop entities norm (fuel + 1) centroids weights oldWeights =
      if Mat.eqb oldWeights weights then Outcome.ok (centroids, weights)
      else kmeansLoop entities norm fuel (clusterMeans entities centroids weights)
        (calculateBooleanWeights entities (clusterMeans entities centroids weights) weights
          norm) weights := rfl

/-- One pass of the body of the loop of `kmeansGenerator` keeps what holds at its test. -/
theorem KmeansInv_step (entities : Mat Flt) (norm : squaredNorm_t) (weights0 : Mat Bool)
    (seeds centroids : Mat Flt) (weights oldWeights : Mat Bool)
    (h : KmeansInv entities norm weights0 seeds centroids weights oldWeights) :
    KmeansInv entities norm weights0 seeds (clusterMeans entities centroids weights)
      (calculateBooleanWeights entities (clusterMeans entities centroids weights) weights
        norm) weights := by
  obtain ⟨h1, h2, h3, _⟩ := h
  have hd := calculateBooleanWeights_dims entities centroids weights0 norm
  rw [← h3] at hd
  refine ⟨?_, ?_, ?_, Or.inr ⟨centroids, h3, rfl⟩⟩
  · rw [(clusterMeans_dims _ _ _).1, h1]
  · rw [(clusterMeans_dims _ _ _).2, h2]
  · exact calculateBooleanWeights_congr _ _ _ _ _ hd.1 hd.2

/-- When the loop of `kmeansGenerator` is left, the test of the loop was made on what is
returned and on old weights that compare equal. -/
theorem kmeansLoop_exit (entities : Mat Flt) (norm : squaredNorm_t) (weights0 : Mat Bool)
    (seeds : Mat Flt) (fuel : Nat) (centroids : Mat Flt) (weights oldWeights : Mat Bool)
    (r : Mat Flt × Mat Bool)
    (hinv : KmeansInv entities norm weights0 seeds centroids weights oldWeights)
    (h : kmeansLoop entities norm fuel centroids weights oldWeights = Outcome.ok r) :
    ∃ old, KmeansInv entities norm weights0 seeds r.1 r.2 old ∧ Mat.eqb old r.2 = true := by
  induction fuel generalizing centroids weights oldWeights with
  | zero =>
    unfold kmeansLoop at h
    by_cases he : Mat.eqb oldWeights weights = true
    · rw [if_pos he] at h
      rw [← Outcome.ok.inj h]
      exact ⟨oldWeights, hinv, he⟩
    · rw [if_neg he] at h
      cases h
  | succ fuel ih =>
    rw [kmeansLoop_succ] at h
    by_cases he : Mat.eqb oldWeights weights = true
    · rw [if_pos he] at h
      rw [← Outcome.ok.inj h]
      exact ⟨oldWeights, hinv, he⟩
    · rw [if_neg he] at h
      exact ih _ _ _ (KmeansInv_step entities norm weights0 seeds centroids weights oldWeights
        hinv) h

/-- The centroids that the loop of `kmeansInitializer` returns have the dimensions of the
ones it starts with. -/
theorem kmeansInitializerLoop_dims (norm : squaredNorm_t) (gen : Nat → Nat)
    (statsNumber startingEntitiesNumber clustersNumber fuel : Nat) (s : SeedState)
    (out : Mat Flt)
    (h : kmeansInitializerLoop norm gen statsNumber startingEntitiesNumber clustersNumber
      fuel s = Outcome.ok out) :
    out.rows = s.centroids.rows ∧ out.cols = s.centroids.cols := by
  induction fuel generalizing s with
  | zero => cases h
  | succ fuel ih =>
    rw [kmeansInitializerLoop_succ] at h
    by_cases hlast : s.currentClustersNumber + 1 = clustersNumber
    · rw [if_pos hlast] at h
      rw [← Outcome.ok.inj h]
      exact ⟨rfl, rfl⟩
    · rw [if_neg hlast] at h
      exact ih (kmeansInitializerNext norm gen startingEntitiesNumber s) h

theorem kmeansInitializer_dims (entities centroids : Mat Flt) (norm : squaredNorm_t)
    (gen : Nat → Nat) (out : Mat Flt)
    (h : kmeansInitializer entities centroids norm gen = Outcome.ok out) :
    out.rows = centroids.rows ∧ out.cols = centroids.cols :=
  kmeansInitializerLoop_dims norm gen _ _ _ _ _ out h

/-- What `kmeansGenerator` returns: the test of its loop was made on it, and held. -/
theorem kmeansGenerator_exit (fuel : Nat) (entities centroids : Mat Flt) (weights : Mat Bool)
    (norm : squaredNorm_t) (gen : Nat → Nat) (r : Mat Flt × Mat Bool)
    (h : kmeansGenerator fuel entities centroids weights norm gen = Outcome.ok r) :
    entities.cols = centroids.cols ∧
    ∃ seeds old, kmeansInitializer entities centroids norm gen = Outcome.ok seeds ∧
      KmeansInv entities norm weights seeds r.1 r.2 old ∧ Mat.eqb old r.2 = true := by
  unfold kmeansGenerator at h
  by_cases hc : entities.cols = centroids.cols
  · rw [if_pos hc] at h
    obtain ⟨seeds, hs, hloop⟩ := Outcome.bind_eq_ok h
    obtain ⟨old, h1, h2⟩ := kmeansLoop_exit entities norm weights seeds fuel seeds _ _ r
      ⟨rfl, rfl, rfl, Or.inl ⟨rfl, rfl⟩⟩ hloop
    exact ⟨hc, seeds, old, hs, h1, h2⟩
  · rw [if_neg hc] at h
    cases h

/-- The state that `kmeansGenerator` returns with no empty cluster: its weights are the
assignment of its centroids, and its centroids the means of its weights. -/
theorem kmeansGenerator_fixed (fuel : Nat) (entities centroids : Mat Flt) (weights : Mat Bool)
    (norm : squaredNorm_t) (gen : Nat → Nat) (c : Mat Flt) (w : Mat Bool)
    (h : kmeansGenerator fuel entities centroids weights norm gen = Outcome.ok (c, w)) :
    c.rows = centroids.rows ∧ c.cols = entities.cols ∧
    w.rows = weights.rows ∧ w.cols = weights.cols ∧
    w = calculateBooleanWeights entities c w norm ∧
    ∀ i, i < c.rows → 0 < w.rowCount i → ∃ previous : Mat Flt,
      previous.rows = c.rows ∧ c = clusterMeans entities previous w := by
  obtain ⟨hcols, seeds, old, hs, ⟨h1, h2, h3, h4⟩, he⟩ :=
    kmeansGenerator_exit fuel entities centroids weights norm gen (c, w) h
  have hsd := kmeansInitializer_dims entities centroids norm gen seeds hs
  have hd := calculateBooleanWeights_dims entities c weights norm
  have h3 : w = calculateBooleanWeights entities c weights norm := h3
  have h1 : c.rows = seeds.rows := h1
  have h2 : c.cols = seeds.cols := h2
  rw [← h3] at hd
  refine ⟨by rw [h1, hsd.1], by rw [h2, hsd.2, hcols], hd.1, hd.2, ?_, ?_⟩
  · rw [calculateBooleanWeights_congr entities c w weights norm hd.1 hd.2]
    exact h3
  · intro i hi hpos
    rw [Mat.eqb_eq_true] at he
    have he : ∀ r k, r < old.rows → k < old.cols → old.coeff r k = w.coeff r k := he
    obtain ⟨j, hj, hwj⟩ := (Mat.rowCount_pos w i).mp hpos
    have hwj2 := hwj
    rw [h3, calculateBooleanWeights_coeff] at hwj2
    have hwj3 := of_decide_eq_true hwj2
    rcases h4 with ⟨hold, _⟩ | ⟨previous, hold, hmeans⟩
    · have hf := he i j (by rw [hold]; show i < seeds.rows; omega)
        (by rw [hold]; exact hwj3.1)
      rw [hwj, hold] at hf
      cases hf
    · have hmeans : c = clusterMeans entities previous old := hmeans
      have hod := calculateBooleanWeights_dims entities previous weights norm
      rw [← hold] at hod
      have hoew : old = w := by
        apply Mat.ext
        · rw [hod.1, hd.1]
        · rw [hod.2, hd.2]
        · funext r k
          by_cases hr : r < old.rows ∧ k < old.cols
          · exact he r k hr.1 hr.2
          · have ho : old.coeff r k = false := by
              rw [hold, calculateBooleanWeights_coeff]
              apply decide_eq_false
              rintro ⟨_, g2, g3, g4⟩
              apply hr
              rw [hod.1, hod.2]
              exact ⟨by omega, g4⟩
            have hw : w.coeff r k = false := by
              rw [h3, calculateBooleanWeights_coeff]
              apply decide_eq_false
              rintro ⟨_, g2, g3, g4⟩
              apply hr
              rw [hod.1, hod.2]
              exact ⟨by omega, g4⟩
            rw [ho, hw]
      refine ⟨previous, ?_, ?_⟩
      · rw [hmeans, (clusterMeans_dims _ _ _).1]
      · rw [hmeans, hoew]

/-- A returned state whose cluster sizes are all positive has no empty cluster. -/
theorem clusterSizes_pos {o : Outcome (Mat Flt × Mat Bool)} {l : List Nat}
    (h : clusterSizes o = Outcome.ok l) (hl : ∀ n, n ∈ l → 0 < n) :
    ∃ c w, o = Outcome.ok (c, w) ∧ ∀ i, i < c.rows → 0 < w.rowCount i := by
  unfold clusterSizes at h
  obtain ⟨r, hr, hrl⟩ := Outcome.bind_eq_ok h
  have hrl2 := Outcome.ok.inj hrl
  refine ⟨r.1, r.2, hr, ?_⟩
  intro i hi
  apply hl
  rw [← hrl2]
  exact List.mem_map.mpr ⟨i, List.mem_range.mpr hi, rfl⟩

theorem exampleEntities_finite : FiniteEntries exampleEntities := by
  intro r c _ _
  show ∃ q, (if r = 0 then Flt.fin 0 else Flt.fin 3) = Flt.fin q
  split <;> exact ⟨_, rfl⟩


/-! ## Lemmas on the cost of a clustering -/

/-- The deviations from the mean of a non-empty family sum to zero. -/
theorem sum_mean_sub_eq_zero (s : Finset Nat) (X : Nat → ℚ) (hs : s.Nonempty) :
    ∑ j in s, ((∑ j in s, X j) / s.card - X j) = 0 := by
  have hcard : (s.card : ℚ) ≠ 0 := by
    exact_mod_cast (Finset.card_pos.mpr hs).ne'
  rw [Finset.sum_sub_distrib, Finset.sum_const, nsmul_eq_mul]
  field_simp

/-- The deviations from the means of the clusters are orthogonal to any shift of the
clusters. -/
theorem assignmentMean_cross (entities : Mat Flt) (a : Nat → Nat) (c : Nat → Nat → ℚ)
    (k : Nat) :
    ∑ j in Finset.range entities.rows,
      (c (a j) k - assignmentMean entities a (a j) k) *
        (assignmentMean entities a (a j) k - entities.value j k) = 0 := by
  rw [← Finset.sum_fiberwise_of_maps_to
    (fun j hj => Finset.mem_image_of_mem a hj :
      ∀ j ∈ Finset.range entities.rows, a j ∈ (Finset.range entities.rows).image a)]
  apply Finset.sum_eq_zero
  intro i hi
  have hne : ((Finset.range entities.rows).filter (fun j => a j = i)).Nonempty := by
    obtain ⟨j, hj, hji⟩ := Finset.mem_image.mp hi
    exact ⟨j, Finset.mem_filter.mpr ⟨hj, hji⟩⟩
  have hrw : ∀ j ∈ (Finset.range entities.rows).filter (fun j => a j = i),
      (c (a j) k - assignmentMean entities a (a j) k) *
        (assignmentMean entities a (a j) k - entities.value j k) =
      (c i k - assignmentMean entities a i k) *
        (assignmentMean entities a i k - entities.value j k) := by
    intro j hj
    rw [(Finset.mem_filter.mp hj).2]
  rw [Finset.sum_congr rfl hrw, ← Finset.mul_sum]
  have h0 := sum_mean_sub_eq_zero _ (fun j => entities.value j k) hne
  unfold assignmentMean
  rw [h0, mul_zero]

/-- The means of the clusters are the points of least cost for an assignment. -/
theorem assignmentCost_mean_le (entities : Mat Flt) (a : Nat → Nat) (c : Nat → Nat → ℚ) :
    assignmentCost entities (assignmentMean entities a) a ≤ assignmentCost entities c a := by
  unfold assignmentCost squaredDistance
  rw [Finset.sum_comm, Finset.sum_comm (s := Finset.range entities.rows)]
  apply Finset.sum_le_sum
  intro k _
  have hsplit : ∀ j ∈ Finset.range entities.rows,
      (c (a j) k - entities.value j k) ^ 2 =
        (assignmentMean entities a (a j) k - entities.value j k) ^ 2 +
        ((c (a j) k - assignmentMean entities a (a j) k) ^ 2 +
          2 * ((c (a j) k - assignmentMean entities a (a j) k) *
            (assignmentMean entities a (a j) k - entities.value j k))) := by
    intro j _
    ring
  rw [Finset.sum_congr rfl hsplit, Finset.sum_add_distrib, Finset.sum_add_distrib,
    ← Finset.mul_sum, assignmentMean_cross, mul_zero, add_zero]
  have hpos : 0 ≤ ∑ j in Finset.range entities.rows,
      (c (a j) k - assignmentMean entities a (a j) k) ^ 2 :=
    Finset.sum_nonneg fun j _ => sq_nonneg _
  linarith

/-- An assignment to points that are nowhere farther costs no more. -/
theorem assignmentCost_le_of_nearer (entities : Mat Flt) (c : Nat → Nat → ℚ)
    (a b : Nat → Nat)
    (h : ∀ j, j < entities.rows →
      squaredDistance entities c (b j) j ≤ squaredDistance entities c (a j) j) :
    assignmentCost entities c b ≤ assignmentCost entities c a :=
  Finset.sum_le_sum fun j hj => h j (Finset.mem_range.mp hj)

/-- An assignment to points that are nowhere farther, of the same cost, is to points at
the same distances. -/
theorem squaredDistance_eq_of_cost_eq (entities : Mat Flt) (c : Nat → Nat → ℚ)
    (a b : Nat → Nat)
    (h : ∀ j, j < entities.rows →
      squaredDistance entities c (b j) j ≤ squaredDistance entities c (a j) j)
    (heq : assignmentCost entities c b = assignmentCost entities c a)
    (j : Nat) (hj : j < entities.rows) :
    squaredDistance entities c (b j) j = squaredDistance entities c (a j) j :=
  (Finset.sum_eq_sum_iff_of_le fun j hj => h j (Finset.mem_range.mp hj)).mp heq j
    (Finset.mem_range.mpr hj)

/-- The cost takes of the points their coordinates at the clusters in use only. -/
theorem assignmentCost_congr (entities : Mat Flt) (c1 c2 : Nat → Nat → ℚ) (a : Nat → Nat)
    (K : Nat) (ha : ∀ j, j < entities.rows → a j < K)
    (h : ∀ i k, i < K → k < entities.cols → c1 i k = c2 i k) :
    assignmentCost entities c1 a = assignmentCost entities c2 a := by
  unfold assignmentCost squaredDistance
  apply Finset.sum_congr rfl
  intro j hj
  apply Finset.sum_congr rfl
  intro k hk
  rw [h (a j) k (ha j (Finset.mem_range.mp hj)) (Finset.mem_range.mp hk)]

/-- The means of the clusters take of the assignment its values at the entities only. -/
theorem assignmentMean_congr (entities : Mat Flt) (a b : Nat → Nat)
    (h : ∀ j, j < entities.rows → a j = b j) (i k : Nat) :
    assignmentMean entities a i k = assignmentMean entities b i k := by
  have hf : (Finset.range entities.rows).filter (fun j => a j = i) =
      (Finset.range entities.rows).filter (fun j => b j = i) := by
    apply Finset.filter_congr
    intro j hj
    rw [h j (Finset.mem_range.mp hj)]
  unfold assignmentMean
  rw [hf]

theorem assignmentPotential_congr (entities : Mat Flt) (a b : Nat → Nat)
    (h : ∀ j, j < entities.rows → a j = b j) :
    assignmentPotential entities a = assignmentPotential entities b := by
  have hm : assignmentMean entities a = assignmentMean entities b :=
    funext fun i => funext fun k => assignmentMean_congr entities a b h i k
  have hc : assignmentCost entities (assignmentMean entities a) a =
      assignmentCost entities (assignmentMean entities b) b := by
    rw [hm]
    unfold assignmentCost
    apply Finset.sum_congr rfl
    intro j hj
    rw [h j (Finset.mem_range.mp hj)]
  have hs : ∑ j in Finset.range entities.rows, a j = ∑ j in Finset.range entities.rows, b j :=
    Finset.sum_congr rfl fun j hj => h j (Finset.mem_range.mp hj)
  unfold assignmentPotential
  rw [hc, hs]

/-- A pass of the iteration, from the assignment `a` to the assignment `b` of the
entities to the first nearest means of `a`, lowers the potential unless `b` is `a`. -/
theorem assignmentPotential_lt (entities : Mat Flt) (K : Nat) (a b : Nat → Nat)
    (ha : ∀ j, j < entities.rows → a j < K)
    (hb : NearestFirst entities K (assignmentMean entities a) b)
    (hne : ∃ j, j < entities.rows ∧ b j ≠ a j) :
    assignmentPotential entities b < assignmentPotential entities a := by
  have h1 : assignmentCost entities (assignmentMean entities b) b ≤
      assignmentCost entities (assignmentMean entities a) b :=
    assignmentCost_mean_le entities b _
  have hle : ∀ j, j < entities.rows →
      squaredDistance entities (assignmentMean entities a) (b j) j ≤
        squaredDistance entities (assignmentMean entities a) (a j) j :=
    fun j hj => (hb j hj).2.1 (a j) (ha j hj)
  have h2 : assignmentCost entities (assignmentMean entities a) b ≤
      assignmentCost entities (assignmentMean entities a) a :=
    assignmentCost_le_of_nearer entities _ a b hle
  unfold assignmentPotential
  rw [Prod.Lex.lt_iff]
  rcases lt_or_eq_of_le (le_trans h1 h2) with hlt | heq
  · exact Or.inl hlt
  · right
    refine ⟨heq, ?_⟩
    have heq2 : assignmentCost entities (assignmentMean entities a) b =
        assignmentCost entities (assignmentMean entities a) a :=
      le_antisymm h2 (by rw [← heq]; exact h1)
    have hd := squaredDistance_eq_of_cost_eq entities _ a b hle heq2
    have hba : ∀ j, j < entities.rows → b j ≤ a j := by
      intro j hj
      by_contra hcon
      have hlt := (hb j hj).2.2 (a j) (by omega)
      rw [hd j hj] at hlt
      exact lt_irrefl _ hlt
    obtain ⟨j, hj, hjne⟩ := hne
    show ∑ j in Finset.range entities.rows, b j < ∑ j in Finset.range entities.rows, a j
    apply Finset.sum_lt_sum
    · intro i hi
      exact hba i (Finset.mem_range.mp hi)
    · exact ⟨j, Finset.mem_range.mpr hj, lt_of_le_of_ne (hba j hj) hjne⟩

/-- Assignments that follow one another, each of the entities to the first nearest means
of the one before, come to an assignment that is the one before: there are finitely many
assignments and the potential goes down. -/
theorem assignments_settle (entities : Mat Flt) (K : Nat) (a : Nat → Nat → Nat)
    (ha : ∀ n j, j < entities.rows → a n j < K)
    (hstep : ∀ n, NearestFirst entities K (assignmentMean entities (a n)) (a (n + 1))) :
    ∃ n, ∀ j, j < entities.rows → a (n + 1) j = a n j := by
  by_contra hcon
  have hne : ∀ n, ∃ j, j < entities.rows ∧ a (n + 1) j ≠ a n j := by
    intro n
    by_contra h
    apply hcon
    refine ⟨n, fun j hj => ?_⟩
    by_contra h2
    exact h ⟨j, hj, h2⟩
  have hanti : StrictAnti fun n => assignmentPotential entities (a n) :=
    strictAnti_nat_of_succ_lt fun n =>
      assignmentPotential_lt entities K (a n) (a (n + 1)) (ha n) (hstep n) (hne n)
  obtain ⟨x, y, hxy, hg⟩ := Finite.exists_ne_map_eq_of_infinite
    (fun n => (fun j : Fin entities.rows => (⟨a n j, ha n j j.2⟩ : Fin K)))
  apply hxy
  apply hanti.injective
  apply assignmentPotential_congr
  intro j hj
  have := congrFun hg ⟨j, hj⟩
  exact Fin.mk.inj this

/-! ## Lemmas on the passes of the loop of hard k-means -/

theorem foldl_add_fin (g : Nat → Flt) (f : Nat → ℚ) (d : Nat)
    (h : ∀ k, k < d → g k = Flt.fin (f k)) :
    ((List.range d).map g).foldl Flt.add (Flt.fin 0) = Flt.fin (∑ k in Finset.range d, f k) := by
  induction d with
  | zero => rfl
  | succ d ih =>
    rw [List.range_succ, List.map_append, List.foldl_append, ih (fun k hk => h k (by omega)),
      Finset.sum_range_succ]
    show Flt.add _ (g d) = _
    rw [h d (Nat.lt_succ_self d)]
    rfl

/-- The default distance of two rows of finite entries. -/
theorem euclideanNorm_fin (a b : Mat Flt) (i j : Nat) (hcols : a.cols = b.cols)
    (ha : ∀ k, k < b.cols → ∃ q : ℚ, a.coeff i k = Flt.fin q)
    (hb : ∀ k, k < b.cols → ∃ q : ℚ, b.coeff j k = Flt.fin q) :
    euclideanNorm (a.row i) (b.row j) =
      Flt.fin (∑ k in Finset.range b.cols, (a.value i k - b.value j k) ^ 2) := by
  unfold euclideanNorm Mat.row
  rw [hcols, List.zipWith_map, List.zipWith_same]
  apply foldl_add_fin
  intro k hk
  obtain ⟨q, hq⟩ := ha k hk
  obtain ⟨p, hp⟩ := hb k hk
  unfold Mat.value
  rw [hq, hp]
  show Flt.fin ((q + -p) * (q + -p)) = Flt.fin ((q - p) ^ 2)
  congr 1
  ring

/-- The distance of a centroid to an entity, both of finite entries. -/
theorem centroidDistance_fin (entities c : Mat Flt) (hfin : FiniteEntries entities)
    (hcfin : FiniteEntries c) (hcols : c.cols = entities.cols) (i j : Nat)
    (hi : i < c.rows) (hj : j < entities.rows) :
    euclideanNorm (c.row i) (entities.row j) =
      Flt.fin (squaredDistance entities c.value i j) :=
  euclideanNorm_fin c entities i j hcols
    (fun k hk => hcfin i k hi (by rw [hcols]; exact hk)) (fun k hk => hfin j k hj hk)

/-- The cluster of every entity is the first of the nearest centroids. -/
theorem assignment_nearestFirst (entities c : Mat Flt) (hfin : FiniteEntries entities)
    (hcfin : FiniteEntries c) (hK : 1 ≤ c.rows) (hcols : c.cols = entities.cols) :
    NearestFirst entities c.rows c.value (assignment entities c euclideanNorm) := by
  intro j hj
  have hd := fun i hi => centroidDistance_fin entities c hfin hcfin hcols i j hi hj
  obtain ⟨h1, h2, h3, h4⟩ := nearest_spec c euclideanNorm (entities.row j) hK
    (fun k hk => by rw [hd k hk]; exact fun h => Flt.noConfusion h)
  rw [hd _ h2] at h1
  refine ⟨h2, ?_, ?_⟩
  · intro i hi
    have h := h3 i hi
    rw [h1, hd i hi] at h
    exact not_lt.mp (of_decide_eq_false h)
  · intro i hi
    have h := h4 i hi
    rw [h1, hd i (by unfold assignment at hi; omega)] at h
    exact of_decide_eq_true h

/-- The entities of a cluster of the weights are those that the assignment sends to it. -/
theorem assignedMean_eq (entities c : Mat Flt) (weights : Mat Bool) (norm : squaredNorm_t)
    (i k : Nat) (hi : i < c.rows) (hwr : weights.rows = c.rows)
    (hwc : weights.cols = entities.rows) :
    assignedMean entities (calculateBooleanWeights entities c weights norm) i k =
      assignmentMean entities (assignment entities c norm) i k := by
  have hf : assignedEntities entities (calculateBooleanWeights entities c weights norm) i =
      (Finset.range entities.rows).filter (fun j => assignment entities c norm j = i) := by
    unfold assignedEntities
    apply Finset.filter_congr
    intro j hj
    rw [calculateBooleanWeights_coeff, decide_eq_true_iff]
    unfold assignment
    constructor
    · rintro ⟨_, h, _⟩
      exact h.symm
    · intro h
      exact ⟨Finset.mem_range.mp hj, h.symm, by rw [h, hwr]; exact hi,
        by rw [hwc]; exact Finset.mem_range.mp hj⟩
  unfold assignedMean assignmentMean Mat.value
  rw [hf]

/-- The means of the non-empty clusters of an assignment of finite entities. -/
theorem clusterMeans_assignment (entities c : Mat Flt) (weights : Mat Bool)
    (norm : squaredNorm_t) (i k : Nat) (hfin : FiniteEntries entities) (hi : i < c.rows)
    (hk : k < entities.cols) (hwr : weights.rows = c.rows) (hwc : weights.cols = entities.rows)
    (hne : 0 < (calculateBooleanWeights entities c weights norm).rowCount i) :
    (clusterMeans entities c (calculateBooleanWeights entities c weights norm)).coeff i k =
      Flt.fin (assignmentMean entities (assignment entities c norm) i k) := by
  rw [clusterMeans_fin entities c _ i k hi hk hfin
    (by rw [(calculateBooleanWeights_dims _ _ _ _).2, hwc]) hne,
    assignedMean_eq entities c weights norm i k hi hwr hwc]

/-- The total within-cluster distance of the assignment of finite centroids. -/
theorem withinClusterDistance_fin (entities c : Mat Flt) (weights : Mat Bool)
    (hfin : FiniteEntries entities) (hcfin : FiniteEntries c) (hK : 1 ≤ c.rows)
    (hcols : c.cols = entities.cols) (hwr : weights.rows = c.rows)
    (hwc : weights.cols = entities.rows) :
    withinClusterDistance entities c (calculateBooleanWeights entities c weights euclideanNorm)
        euclideanNorm =
      Flt.fin (assignmentCost entities c.value (assignment entities c euclideanNorm)) := by
  unfold withinClusterDistance assignmentCost
  apply sumTo_fin
  intro j hj
  have ha : assignment entities c euclideanNorm j < c.rows :=
    nearest_lt_rows c euclideanNorm (entities.row j) hK
  rw [sumTo_fin c.rows _ (fun i => if assignment entities c euclideanNorm j = i then
    squaredDistance entities c.value i j else 0)]
  · rw [Finset.sum_ite_eq, if_pos (Finset.mem_range.mpr ha)]
  · intro i hi
    rw [calculateBooleanWeights_coeff]
    by_cases h : assignment entities c euclideanNorm j = i
    · rw [if_pos h, if_pos]
      · exact centroidDistance_fin entities c hfin hcfin hcols i j hi hj
      · rw [decide_eq_true_iff]
        exact ⟨hj, h.symm, by rw [hwr]; exact ha, by rw [hwc]; exact hj⟩
    · rw [if_neg h, if_neg]
      rw [decide_eq_true_iff]
      rintro ⟨_, h2, _⟩
      exact h h2.symm

/-- Two assignments that agree on the entities give weights that compare equal. -/
theorem calculateBooleanWeights_eqb (entities c1 c2 : Mat Flt) (w1 w2 : Mat Bool)
    (norm : squaredNorm_t) (hrows : w1.rows = w2.rows) (hcols : w1.cols = w2.cols)
    (h : ∀ j, j < entities.rows → assignment entities c1 norm j = assignment entities c2 norm j) :
    Mat.eqb (calculateBooleanWeights entities c1 w1 norm)
      (calculateBooleanWeights entities c2 w2 norm) = true := by
  rw [Mat.eqb_eq_true]
  intro r c _ _
  rw [calculateBooleanWeights_coeff, calculateBooleanWeights_coeff, hrows, hcols]
  by_cases hc : c < entities.rows
  · have h2 := h c hc
    unfold assignment at h2
    rw [h2]
  · have e1 : ∀ p : Prop, (c < entities.rows ∧ p) = False := fun p =>
      eq_false fun hp => hc hp.1
    simp only [e1]

theorem kmeansStates_succ (entities : Mat Flt) (norm : squaredNorm_t) (n : Nat)
    (s : Mat Flt × Mat Bool) :
    kmeansStates entities norm (n + 1) s =
      kmeansStep entities norm (kmeansStates entities norm n s) := by
  induction n generalizing s with
  | zero => rfl
  | succ n ih =>
    show kmeansStates entities norm (n + 1) (kmeansStep entities norm s) = _
    rw [ih]
    rfl

/-- After every pass the centroids have the dimensions of the seeds and the weights are
the assignment of the centroids. -/
theorem kmeansStates_valid (entities seeds : Mat Flt) (weights : Mat Bool)
    (norm : squaredNorm_t) (n : Nat) :
    (kmeansStates entities norm n (kmeansStart entities seeds weights norm)).1.rows =
      seeds.rows ∧
    (kmeansStates entities norm n (kmeansStart entities seeds weights norm)).1.cols =
      seeds.cols ∧
    (kmeansStates entities norm n (kmeansStart entities seeds weights norm)).2 =
      calculateBooleanWeights entities
        (kmeansStates entities norm n (kmeansStart entities seeds weights norm)).1 weights
        norm := by
  induction n with
  | zero => exact ⟨rfl, rfl, rfl⟩
  | succ n ih =>
    obtain ⟨h1, h2, h3⟩ := ih
    rw [kmeansStates_succ]
    have hd := calculateBooleanWeights_dims entities
      (kmeansStates entities norm n (kmeansStart entities seeds weights norm)).1 weights norm
    rw [← h3] at hd
    refine ⟨?_, ?_, ?_⟩
    · show (clusterMeans entities _ _).rows = _
      rw [(clusterMeans_dims _ _ _).1, h1]
    · show (clusterMeans entities _ _).cols = _
      rw [(clusterMeans_dims _ _ _).2, h2]
    · exact calculateBooleanWeights_congr _ _ _ _ _ hd.1 hd.2

/-- The loop of `kmeansGenerator` returns at once when its test fails, whatever the fuel. -/
theorem kmeansLoop_done (entities : Mat Flt) (norm : squaredNorm_t) (fuel : Nat)
    (c : Mat Flt) (w o : Mat Bool) (h : Mat.eqb o w = true) :
    kmeansLoop entities norm fuel c w o = Outcome.ok (c, w) := by
  cases fuel with
  | zero =>
    unfold kmeansLoop
    rw [if_pos h]
  | succ fuel => rw [kmeansLoop_succ, if_pos h]

/-- The loop of `kmeansGenerator` returns within `n + 1` passes once the weights after
`n + 1` passes compare equal to the weights after `n`, and returns the same with any
more fuel. -/
theorem kmeansLoop_exits (entities : Mat Flt) (norm : squaredNorm_t) (n : Nat)
    (c : Mat Flt) (w o : Mat Bool)
    (h : Mat.eqb (kmeansStates entities norm n (c, w)).2
      (kmeansStates entities norm (n + 1) (c, w)).2 = true) :
    ∃ r, ∀ fuel, n + 1 ≤ fuel → kmeansLoop entities norm fuel c w o = Outcome.ok r := by
  induction n generalizing c w o with
  | zero =>
    by_cases he : Mat.eqb o w = true
    · exact ⟨(c, w), fun fuel _ => kmeansLoop_done entities norm fuel c w o he⟩
    · refine ⟨kmeansStep entities norm (c, w), ?_⟩
      intro fuel hf
      obtain ⟨f, rfl⟩ : ∃ f, fuel = f + 1 := ⟨fuel - 1, by omega⟩
      rw [kmeansLoop_succ, if_neg he]
      exact kmeansLoop_done entities norm f _ _ w h
  | succ n ih =>
    by_cases he : Mat.eqb o w = true
    · exact ⟨(c, w), fun fuel _ => kmeansLoop_done entities norm fuel c w o he⟩
    · obtain ⟨r, hr⟩ := ih (kmeansStep entities norm (c, w)).1
        (kmeansStep entities norm (c, w)).2 w h
      refine ⟨r, ?_⟩
      intro fuel hf
      obtain ⟨f, rfl⟩ : ∃ f, fuel = f + 1 := ⟨fuel - 1, by omega⟩
      rw [kmeansLoop_succ, if_neg he]
      exact hr f (by omega)

theorem squaredDistance_congr (entities : Mat Flt) (c1 c2 : Nat → Nat → ℚ) (i j : Nat)
    (h : ∀ k, k < entities.cols → c1 i k = c2 i k) :
    squaredDistance entities c1 i j = squaredDistance entities c2 i j := by
  unfold squaredDistance
  apply Finset.sum_congr rfl
  intro k hk
  rw [h k (Finset.mem_range.mp hk)]

theorem NearestFirst_congr (entities : Mat Flt) (K : Nat) (c1 c2 : Nat → Nat → ℚ)
    (b : Nat → Nat) (h : ∀ i k, i < K → k < entities.cols → c1 i k = c2 i k)
    (hb : NearestFirst entities K c1 b) : NearestFirst entities K c2 b := by
  intro j hj
  obtain ⟨h1, h2, h3⟩ := hb j hj
  have hd : ∀ i, i < K → squaredDistance entities c1 i j = squaredDistance entities c2 i j :=
    fun i hi => squaredDistance_congr entities c1 c2 i j (h i · hi)
  refine ⟨h1, ?_, ?_⟩
  · intro i hi
    rw [← hd i hi, ← hd _ h1]
    exact h2 i hi
  · intro i hi
    rw [← hd i (by omega), ← hd _ h1]
    exact h3 i hi

/-- A pass of the loop from an assignment with no empty cluster: the new centroids are
finite, the means of the clusters of the assignment. -/
theorem kmeansStep_means (entities c : Mat Flt) (weights : Mat Bool) (norm : squaredNorm_t)
    (hfin : FiniteEntries entities) (hcols : c.cols = entities.cols)
    (hwr : weights.rows = c.rows) (hwc : weights.cols = entities.rows)
    (hne : ∀ i, i < c.rows →
      0 < (calculateBooleanWeights entities c weights norm).rowCount i) :
    FiniteEntries (clusterMeans entities c (calculateBooleanWeights entities c weights norm)) ∧
    ∀ i k, i < c.rows → k < entities.cols →
      (clusterMeans entities c (calculateBooleanWeights entities c weights norm)).value i k =
        assignmentMean entities (assignment entities c norm) i k := by
  constructor
  · intro i k hi hk
    rw [(clusterMeans_dims _ _ _).1] at hi
    rw [(clusterMeans_dims _ _ _).2, hcols] at hk
    exact ⟨_, clusterMeans_assignment entities c weights norm i k hfin hi hk hwr hwc
      (hne i hi)⟩
  · intro i k hi hk
    unfold Mat.value
    rw [clusterMeans_assignment entities c weights norm i k hfin hi hk hwr hwc (hne i hi)]
    rfl

/-- A pass of the loop from finite centroids and their assignment, with no empty cluster,
does not raise the cost: the new centroids with their assignment cost no more than the
old ones with theirs. -/
theorem kmeansStep_cost_le (entities c : Mat Flt) (weights : Mat Bool)
    (hfin : FiniteEntries entities) (hcfin : FiniteEntries c) (hK : 1 ≤ c.rows)
    (hcols : c.cols = entities.cols) (hwr : weights.rows = c.rows)
    (hwc : weights.cols = entities.rows)
    (hne : ∀ i, i < c.rows →
      0 < (calculateBooleanWeights entities c weights euclideanNorm).rowCount i) :
    Flt.le
      (withinClusterDistance entities
        (kmeansStep entities euclideanNorm
          (c, calculateBooleanWeights entities c weights euclideanNorm)).1
        (kmeansStep entities euclideanNorm
          (c, calculateBooleanWeights entities c weights euclideanNorm)).2 euclideanNorm)
      (withinClusterDistance entities c
        (calculateBooleanWeights entities c weights euclideanNorm) euclideanNorm) = true := by
  obtain ⟨hmfin, hmean⟩ := kmeansStep_means entities c weights euclideanNorm hfin hcols hwr hwc hne
  have hd := calculateBooleanWeights_dims entities c weights euclideanNorm
  have hmd := clusterMeans_dims entities c
    (calculateBooleanWeights entities c weights euclideanNorm)
  show Flt.le (withinClusterDistance entities
    (clusterMeans entities c (calculateBooleanWeights entities c weights euclideanNorm))
    (calculateBooleanWeights entities
      (clusterMeans entities c (calculateBooleanWeights entities c weights euclideanNorm))
      (calculateBooleanWeights entities c weights euclideanNorm) euclideanNorm)
    euclideanNorm) _ = true
  rw [withinClusterDistance_fin entities c weights hfin hcfin hK hcols hwr hwc,
    withinClusterDistance_fin entities _ _ hfin hmfin (by rw [hmd.1]; exact hK)
      (by rw [hmd.2]; exact hcols) (by rw [hd.1, hmd.1]; exact hwr) (by rw [hd.2]; exact hwc)]
  have ha : ∀ j, j < entities.rows → assignment entities c euclideanNorm j < c.rows :=
    fun j _ => nearest_lt_rows c euclideanNorm (entities.row j) hK
  have hnf := assignment_nearestFirst entities _ hfin hmfin (by rw [hmd.1]; exact hK)
    (by rw [hmd.2]; exact hcols)
  rw [hmd.1] at hnf
  have hnf2 := NearestFirst_congr entities c.rows _ _ _ hmean hnf
  have h1 := assignmentCost_congr entities _ _ _ c.rows (fun j hj => (hnf j hj).1) hmean
  have h2 := assignmentCost_le_of_nearer entities _
    (assignment entities c euclideanNorm) _ (fun j hj => (hnf2 j hj).2.1 _ (ha j hj))
  have h3 := assignmentCost_mean_le entities (assignment entities c euclideanNorm) c.value
  have hle := le_trans (le_trans (le_of_eq h1) h2) h3
  unfold Flt.le
  rcases lt_or_eq_of_le hle with hlt | heq
  · have : Flt.lt (Flt.fin (assignmentCost entities
        (clusterMeans entities c
          (calculateBooleanWeights entities c weights euclideanNorm)).value
        (assignment entities (clusterMeans entities c
          (calculateBooleanWeights entities c weights euclideanNorm)) euclideanNorm)))
        (Flt.fin (assignmentCost entities c.value (assignment entities c euclideanNorm))) =
        true := decide_eq_true hlt
    rw [this]
    rfl
  · rw [heq]
    simp

/-- With no empty cluster in any pass, the weights after some pass compare equal to the
weights before it. -/
theorem kmeansStates_settle (entities seeds : Mat Flt) (weights : Mat Bool)
    (hfin : FiniteEntries entities) (hK : 1 ≤ seeds.rows)
    (hcols : seeds.cols = entities.cols) (hwr : weights.rows = seeds.rows)
    (hwc : weights.cols = entities.rows)
    (hne : ∀ n i, i < seeds.rows →
      0 < (kmeansStates entities euclideanNorm n
        (kmeansStart entities seeds weights euclideanNorm)).2.rowCount i) :
    ∃ n, Mat.eqb
      (kmeansStates entities euclideanNorm n
        (kmeansStart entities seeds weights euclideanNorm)).2
      (kmeansStates entities euclideanNorm (n + 1)
        (kmeansStart entities seeds weights euclideanNorm)).2 = true := by
  have hv := kmeansStates_valid entities seeds weights euclideanNorm
  have hstep : ∀ n, (kmeansStates entities euclideanNorm (n + 1)
      (kmeansStart entities seeds weights euclideanNorm)).1 =
      clusterMeans entities (kmeansStates entities euclideanNorm n
        (kmeansStart entities seeds weights euclideanNorm)).1
        (calculateBooleanWeights entities (kmeansStates entities euclideanNorm n
          (kmeansStart entities seeds weights euclideanNorm)).1 weights euclideanNorm) := by
    intro n
    rw [kmeansStates_succ]
    show clusterMeans entities _ _ = _
    rw [← (hv n).2.2]
  have hne2 : ∀ n i, i < (kmeansStates entities euclideanNorm n
      (kmeansStart entities seeds weights euclideanNorm)).1.rows →
      0 < (calculateBooleanWeights entities (kmeansStates entities euclideanNorm n
        (kmeansStart entities seeds weights euclideanNorm)).1 weights
        euclideanNorm).rowCount i := by
    intro n i hi
    rw [← (hv n).2.2]
    exact hne n i (by rw [← (hv n).1]; exact hi)
  have hmeans := fun n => kmeansStep_means entities
    (kmeansStates entities euclideanNorm n
      (kmeansStart entities seeds weights euclideanNorm)).1 weights euclideanNorm hfin
    (by rw [(hv n).2.1]; exact hcols) (by rw [(hv n).1]; exact hwr) hwc (hne2 n)
  have hcfin : ∀ n, FiniteEntries (kmeansStates entities euclideanNorm (n + 1)
      (kmeansStart entities seeds weights euclideanNorm)).1 := by
    intro n
    rw [hstep n]
    exact (hmeans n).1
  obtain ⟨n, hn⟩ := assignments_settle entities seeds.rows
    (fun n => assignment entities (kmeansStates entities euclideanNorm n
      (kmeansStart entities seeds weights euclideanNorm)).1 euclideanNorm)
    (fun n j _ => by
      have := nearest_lt_rows (kmeansStates entities euclideanNorm n
        (kmeansStart entities seeds weights euclideanNorm)).1 euclideanNorm (entities.row j)
        (by rw [(hv n).1]; exact hK)
      rw [(hv n).1] at this
      exact this)
    (fun n => by
      have hnf := assignment_nearestFirst entities _ hfin (hcfin n)
        (by rw [(hv (n + 1)).1]; exact hK) (by rw [(hv (n + 1)).2.1]; exact hcols)
      rw [(hv (n + 1)).1] at hnf
      refine NearestFirst_congr entities seeds.rows _ _ _ ?_ hnf
      intro i k hi hk
      rw [hstep n]
      exact (hmeans n).2 i k (by rw [(hv n).1]; exact hi) hk)
  refine ⟨n, ?_⟩
  rw [(hv n).2.2, (hv (n + 1)).2.2]
  exact calculateBooleanWeights_eqb entities _ _ weights weights euclideanNorm rfl rfl
    (fun j hj => (hn j hj).symm)

/-- The seeding returns for one centroid at least. -/
theorem kmeansInitializer_rows_pos (entities centroids : Mat Flt) (norm : squaredNorm_t)
    (gen : Nat → Nat) (seeds : Mat Flt)
    (h : kmeansInitializer entities centroids norm gen = Outcome.ok seeds) :
    1 ≤ centroids.rows := by
  rw [kmeansInitializer_eq] at h
  by_contra hcon
  have h0 : centroids.rows = 0 := by omega
  rw [h0] at h
  cases h

/-- The means take of the centroid matrix they overwrite the dimensions only. -/
theorem clusterMeans_congr (entities c1 c2 : Mat Flt) (weights : Mat Bool)
    (hrows : c1.rows = c2.rows) (hcols : c1.cols = c2.cols) :
    clusterMeans entities c1 weights = clusterMeans entities c2 weights := by
  unfold clusterMeans
  simp only [hrows, hcols]

/-- Weights that `calculateBooleanWeights` made for the same weight matrix are equal when
they compare equal. -/
theorem calculateBooleanWeights_eq_of_eqb (entities c1 c2 : Mat Flt) (weights : Mat Bool)
    (norm : squaredNorm_t)
    (h : Mat.eqb (calculateBooleanWeights entities c1 weights norm)
      (calculateBooleanWeights entities c2 weights norm) = true) :
    calculateBooleanWeights entities c1 weights norm =
      calculateBooleanWeights entities c2 weights norm := by
  rw [Mat.eqb_eq_true] at h
  have hd1 := calculateBooleanWeights_dims entities c1 weights norm
  have hd2 := calculateBooleanWeights_dims entities c2 weights norm
  apply Mat.ext
  · rw [hd1.1, hd2.1]
  · rw [hd1.2, hd2.2]
  · funext r k
    by_cases hr : r < weights.rows ∧ k < weights.cols
    · exact h r k (by rw [hd1.1]; exact hr.1) (by rw [hd1.2]; exact hr.2)
    · have e1 : (calculateBooleanWeights entities c1 weights norm).coeff r k = false := by
        rw [calculateBooleanWeights_coeff]
        apply decide_eq_false
        rintro ⟨_, g2, g3, g4⟩
        exact hr ⟨by omega, g4⟩
      have e2 : (calculateBooleanWeights entities c2 weights norm).coeff r k = false := by
        rw [calculateBooleanWeights_coeff]
        apply decide_eq_false
        rintro ⟨_, g2, g3, g4⟩
        exact hr ⟨by omega, g4⟩
      rw [e1, e2]

/-- Once the weights after a pass compare equal to the weights before it, the passes
change nothing any more. -/
theorem kmeansStates_stable (entities seeds : Mat Flt) (weights : Mat Bool)
    (norm : squaredNorm_t) (n : Nat)
    (h : Mat.eqb (kmeansStates entities norm n (kmeansStart entities seeds weights norm)).2
      (kmeansStates entities norm (n + 1) (kmeansStart entities seeds weights norm)).2 = true)
    (k : Nat) :
    kmeansStates entities norm (n + 1 + k) (kmeansStart entities seeds weights norm) =
      kmeansStates entities norm (n + 1) (kmeansStart entities seeds weights norm) := by
  have hv := kmeansStates_valid entities seeds weights norm
  have hw : (kmeansStates entities norm n (kmeansStart entities seeds weights norm)).2 =
      (kmeansStates entities norm (n + 1) (kmeansStart entities seeds weights norm)).2 := by
    rw [(hv n).2.2, (hv (n + 1)).2.2]
    apply calculateBooleanWeights_eq_of_eqb
    rw [← (hv n).2.2, ← (hv (n + 1)).2.2]
    exact h
  have hc : (kmeansStates entities norm (n + 2) (kmeansStart entities seeds weights norm)).1 =
      (kmeansStates entities norm (n + 1) (kmeansStart entities seeds weights norm)).1 := by
    rw [kmeansStates_succ entities norm (n + 1), kmeansStates_succ entities norm n]
    show clusterMeans entities _ _ = clusterMeans entities _ _
    rw [← kmeansStates_succ entities norm n, ← hw]
    apply clusterMeans_congr
    · rw [(hv (n + 1)).1, (hv n).1]
    · rw [(hv (n + 1)).2.1, (hv n).2.1]
  have h2 : kmeansStates entities norm (n + 2) (kmeansStart entities seeds weights norm) =
      kmeansStates entities norm (n + 1) (kmeansStart entities seeds weights norm) := by
    apply Prod.ext
    · exact hc
    · rw [(hv (n + 2)).2.2, (hv (n + 1)).2.2, hc]
  induction k with
  | zero => rfl
  | succ k ih =>
    have e : n + 1 + (k + 1) = (n + 1 + k) + 1 := by omega
    rw [e, kmeansStates_succ, ih, ← kmeansStates_succ]
    exact h2

theorem exampleSeeds_eq :
    kmeansInitializer exampleEntities searchCentroids euclideanNorm (searchDraws 0) =
      Outcome.ok exampleSeeds := rfl

/-- No pass of the loop on the two points 0 and 3 leaves a cluster empty. -/
theorem exampleStates_nonempty (n i : Nat) (hi : i < searchCentroids.rows) :
    0 < (kmeansStates exampleEntities euclideanNorm n
      (kmeansStart exampleEntities exampleSeeds searchBoolWeights euclideanNorm)).2.rowCount
        i := by
  have hi2 : i < 2 := hi
  have h0 : ∀ i, i < 2 → 0 < (kmeansStates exampleEntities euclideanNorm 0
      (kmeansStart exampleEntities exampleSeeds searchBoolWeights euclideanNorm)).2.rowCount
        i := by
    intro i hi
    interval_cases i <;> decide!
  have h1 : ∀ i, i < 2 → 0 < (kmeansStates exampleEntities euclideanNorm 1
      (kmeansStart exampleEntities exampleSeeds searchBoolWeights euclideanNorm)).2.rowCount
        i := by
    intro i hi
    interval_cases i <;> decide!
  cases n with
  | zero => exact h0 i hi2
  | succ n =>
    have hs := kmeansStates_stable exampleEntities exampleSeeds searchBoolWeights
      euclideanNorm 0 (by decide!) n
    have e : 0 + 1 + n = n + 1 := by omega
    rw [e] at hs
    rw [hs]
    exact h1 i hi2

/-! ## Lemmas on the clusters that a pass empties -/

theorem Flt.ne_nan_of_lt {a b : Flt} (h : Flt.lt a b = true) : a ≠ Flt.nan ∧ b ≠ Flt.nan := by
  cases a <;> cases b <;> simp_all [Flt.lt]

theorem foldl_add_nan (l : List Flt) : l.foldl Flt.add Flt.nan = Flt.nan := by
  induction l with
  | nil => rfl
  | cons x l ih =>
    show List.foldl Flt.add (Flt.add Flt.nan x) l = Flt.nan
    have : Flt.add Flt.nan x = Flt.nan := by cases x <;> rfl
    rw [this, ih]

/-- The default distance from a row that starts with NaN is NaN. -/
theorem euclideanNorm_nan (a b : Mat Flt) (i j : Nat) (hcols : a.cols = b.cols)
    (hd : 1 ≤ a.cols) (h : a.coeff i 0 = Flt.nan) :
    euclideanNorm (a.row i) (b.row j) = Flt.nan := by
  unfold euclideanNorm Mat.row
  rw [← hcols]
  obtain ⟨d, hd2⟩ : ∃ d, a.cols = d + 1 := ⟨a.cols - 1, by omega⟩
  rw [hd2, List.range_succ_eq_map]
  show List.foldl Flt.add (Flt.add (Flt.fin 0)
    (Flt.mul (Flt.sub (a.coeff i 0) (b.coeff j 0)) (Flt.sub (a.coeff i 0) (b.coeff j 0)))) _ = _
  rw [h]
  have : Flt.add (Flt.fin 0)
      (Flt.mul (Flt.sub Flt.nan (b.coeff j 0)) (Flt.sub Flt.nan (b.coeff j 0))) = Flt.nan := by
    cases b.coeff j 0 <;> rfl
  rw [this, foldl_add_nan]

/-- The default distance of two rows without columns is zero. -/
theorem euclideanNorm_no_columns (a b : Mat Flt) (i j : Nat) (hd : a.cols = 0) :
    euclideanNorm (a.row i) (b.row j) = Flt.fin 0 := by
  unfold euclideanNorm Mat.row
  rw [hd]
  rfl

/-- The inner loop of `calculateBooleanWeights` leaves the first centroid only for a
distance that is a number, below a running minimum that is a number from the start. -/
theorem nearestLoop_moved (centroids : Mat Flt) (norm : squaredNorm_t) (e : List Flt)
    (n : Nat) :
    (forLoop (nearestStep centroids norm e) n 1 (norm (centroids.row 0) e, 0)).1 =
      norm (centroids.row
        (forLoop (nearestStep centroids norm e) n 1 (norm (centroids.row 0) e, 0)).2) e ∧
    ((forLoop (nearestStep centroids norm e) n 1 (norm (centroids.row 0) e, 0)).2 ≠ 0 →
      (forLoop (nearestStep centroids norm e) n 1 (norm (centroids.row 0) e, 0)).1 ≠ Flt.nan ∧
      norm (centroids.row 0) e ≠ Flt.nan) := by
  induction n with
  | zero => exact ⟨rfl, fun h => absurd rfl h⟩
  | succ n ih =>
    rw [forLoop_succ_last]
    obtain ⟨ih1, ih2⟩ := ih
    by_cases hlt : Flt.lt (norm (centroids.row (1 + n)) e)
        (forLoop (nearestStep centroids norm e) n 1 (norm (centroids.row 0) e, 0)).1 = true
    · simp only [nearestStep, hlt, if_true]
      refine ⟨trivial, fun _ => ⟨(Flt.ne_nan_of_lt hlt).1, ?_⟩⟩
      by_cases h0 : (forLoop (nearestStep centroids norm e) n 1
          (norm (centroids.row 0) e, 0)).2 = 0
      · rw [ih1, h0] at hlt
        exact (Flt.ne_nan_of_lt hlt).2
      · exact (ih2 h0).2
    · simp only [nearestStep, hlt, Bool.false_eq_true, if_false]
      exact ⟨ih1, ih2⟩

/-- An entity that `calculateBooleanWeights` does not give the first cluster is at a
distance that is a number both from its centroid and from the first one. -/
theorem assignment_moved (entities centroids : Mat Flt) (norm : squaredNorm_t) (j : Nat)
    (h : assignment entities centroids norm j ≠ 0) :
    norm (centroids.row (assignment entities centroids norm j)) (entities.row j) ≠ Flt.nan ∧
    norm (centroids.row 0) (entities.row j) ≠ Flt.nan := by
  obtain ⟨h1, h2⟩ := nearestLoop_moved centroids norm (entities.row j) (centroids.rows - 1)
  have h3 := h2 h
  rw [h1] at h3
  exact h3

/-- A cluster of the weights of `calculateBooleanWeights` is non-empty when some entity
is assigned to it. -/
theorem rowCount_pos_assignment (entities c : Mat Flt) (weights : Mat Bool)
    (norm : squaredNorm_t) (i : Nat) (hi : i < c.rows) (hwr : weights.rows = c.rows)
    (hwc : weights.cols = entities.rows) :
    0 < (calculateBooleanWeights entities c weights norm).rowCount i ↔
      ∃ j, j < entities.rows ∧ assignment entities c norm j = i := by
  rw [Mat.rowCount_pos]
  constructor
  · rintro ⟨j, _, hj⟩
    rw [calculateBooleanWeights_coeff, decide_eq_true_iff] at hj
    exact ⟨j, hj.1, hj.2.1.symm⟩
  · rintro ⟨j, hj, hji⟩
    refine ⟨j, by rw [(calculateBooleanWeights_dims _ _ _ _).2, hwc]; exact hj, ?_⟩
    rw [calculateBooleanWeights_coeff, decide_eq_true_iff]
    unfold assignment at hji
    exact ⟨hj, hji.symm, by rw [hji, hwr]; exact hi, by rw [hwc]; exact hj⟩

/-- The centroid of an empty cluster after a pass is NaN in every coordinate. -/
theorem clusterMeans_empty (entities c : Mat Flt) (w : Mat Bool) (i k : Nat)
    (hi : i < c.rows) (hk : k < entities.cols) (hfin : FiniteEntries entities)
    (hcols : w.cols = entities.rows) (h0 : ¬ 0 < w.rowCount i) :
    (clusterMeans entities c w).coeff i k = Flt.nan := by
  have hw : ∀ j, j < w.cols → w.coeff i j = false := by
    intro j hj
    by_contra hcon
    exact h0 ((Mat.rowCount_pos w i).mpr ⟨j, hj, by simpa using hcon⟩)
  have hz : w.rowCount i = 0 := by omega
  rw [clusterMeans_coeff entities c w i k hi, sumTo_fin w.cols _ (fun _ => 0), hz]
  · rw [Finset.sum_const_zero]
    rfl
  · intro j hj
    obtain ⟨q, hq⟩ := hfin j k (by rw [← hcols]; exact hj) hk
    rw [hw j hj, hq]
    show Flt.fin (0 * q) = Flt.fin 0
    rw [zero_mul]

/-- Non-empty clusters are no more than the entities. -/
theorem clusters_le_entities (entities c : Mat Flt) (weights : Mat Bool)
    (norm : squaredNorm_t) (hwr : weights.rows = c.rows) (hwc : weights.cols = entities.rows)
    (hne : ∀ i, i < c.rows → 0 < (calculateBooleanWeights entities c weights norm).rowCount i) :
    c.rows ≤ entities.rows := by
  have hsub : Finset.range c.rows ⊆
      (Finset.range entities.rows).image (assignment entities c norm) := by
    intro i hi
    obtain ⟨j, hj, hji⟩ := (rowCount_pos_assignment entities c weights norm i
      (Finset.mem_range.mp hi) hwr hwc).mp (hne i (Finset.mem_range.mp hi))
    exact Finset.mem_image.mpr ⟨j, Finset.mem_range.mpr hj, hji⟩
  have h1 := Finset.card_le_card hsub
  have h2 := Finset.card_image_le (s := Finset.range entities.rows)
    (f := assignment entities c norm)
  rw [Finset.card_range] at h1 h2
  omega

/-- A pass that leaves no cluster empty started with no cluster empty: the centroid of an
empty cluster becomes NaN, and a NaN centroid draws either no entity or all of them. -/
theorem kmeansStep_nonempty_back (entities c : Mat Flt) (weights : Mat Bool)
    (hfin : FiniteEntries entities) (hK : 1 ≤ c.rows) (hcols : c.cols = entities.cols)
    (hwr : weights.rows = c.rows) (hwc : weights.cols = entities.rows)
    (hne : ∀ i, i < c.rows → 0 < (calculateBooleanWeights entities
      (clusterMeans entities c (calculateBooleanWeights entities c weights euclideanNorm))
      weights euclideanNorm).rowCount i)
    (i0 : Nat) (hi0 : i0 < c.rows) :
    0 < (calculateBooleanWeights entities c weights euclideanNorm).rowCount i0 := by
  by_contra hcon
  have hmd := clusterMeans_dims entities c
    (calculateBooleanWeights entities c weights euclideanNorm)
  have hmem := fun i hi => (rowCount_pos_assignment entities
    (clusterMeans entities c (calculateBooleanWeights entities c weights euclideanNorm))
    weights euclideanNorm i (by rw [hmd.1]; exact hi) (by rw [hmd.1]; exact hwr) hwc).mp
    (hne i hi)
  -- every entity goes to the first cluster
  have hall : ∀ j, j < entities.rows → assignment entities
      (clusterMeans entities c (calculateBooleanWeights entities c weights euclideanNorm))
      euclideanNorm j = 0 := by
    intro j hj
    by_contra hj0
    have hmoved := assignment_moved entities _ euclideanNorm j hj0
    by_cases hd : entities.cols = 0
    · obtain ⟨h1, h2, _, h4⟩ := nearest_spec
        (clusterMeans entities c (calculateBooleanWeights entities c weights euclideanNorm))
        euclideanNorm (entities.row j) (by rw [hmd.1]; exact hK)
        (fun k _ => by
          rw [euclideanNorm_no_columns _ _ _ _ (by rw [hmd.2, hcols, hd])]
          exact fun h => Flt.noConfusion h)
      have h5 := h4 0 (Nat.pos_of_ne_zero hj0)
      rw [h1, euclideanNorm_no_columns _ _ _ _ (by rw [hmd.2, hcols, hd]),
        euclideanNorm_no_columns _ _ _ _ (by rw [hmd.2, hcols, hd])] at h5
      exact absurd h5 (by decide)
    · have hnan : ∀ j, euclideanNorm
          ((clusterMeans entities c
            (calculateBooleanWeights entities c weights euclideanNorm)).row i0)
          (entities.row j) = Flt.nan := fun j =>
        euclideanNorm_nan _ entities i0 j (by rw [hmd.2, hcols]) (by rw [hmd.2, hcols]; omega)
          (clusterMeans_empty entities c _ i0 0 hi0 (by omega) hfin
            (by rw [(calculateBooleanWeights_dims _ _ _ _).2, hwc]) hcon)
      by_cases hi00 : i0 = 0
      · rw [hi00] at hnan
        exact hmoved.2 (hnan j)
      · obtain ⟨j2, hj2, hj2i⟩ := hmem i0 hi0
        have hm2 := assignment_moved entities _ euclideanNorm j2 (by rw [hj2i]; exact hi00)
        rw [hj2i] at hm2
        exact hm2.1 (hnan j2)
  by_cases hK2 : 2 ≤ c.rows
  · obtain ⟨j, hj, hj1⟩ := hmem 1 (by omega)
    rw [hall j hj] at hj1
    exact absurd hj1 (by decide)
  · have hi00 : i0 = 0 := by omega
    obtain ⟨j, hj, _⟩ := hmem 0 (by omega)
    apply hcon
    rw [hi00]
    refine (rowCount_pos_assignment entities c weights euclideanNorm 0 (by omega) hwr hwc).mpr
      ⟨j, hj, ?_⟩
    have := nearest_lt_rows c euclideanNorm (entities.row j) hK
    unfold assignment
    omega

/-- A pass of the loop of `kmeansGenerator` with no empty cluster follows passes with no
empty cluster only. -/
theorem kmeansStates_nonempty_back (entities seeds : Mat Flt) (weights : Mat Bool)
    (hfin : FiniteEntries entities) (hK : 1 ≤ seeds.rows)
    (hcols : seeds.cols = entities.cols) (hwr : weights.rows = seeds.rows)
    (hwc : weights.cols = entities.rows) (n : Nat)
    (hne : ∀ i, i < seeds.rows →
      0 < (kmeansStates entities euclideanNorm n
        (kmeansStart entities seeds weights euclideanNorm)).2.rowCount i)
    (m : Nat) (hm : m ≤ n) (i : Nat) (hi : i < seeds.rows) :
    0 < (kmeansStates entities euclideanNorm m
      (kmeansStart entities seeds weights euclideanNorm)).2.rowCount i := by
  have hv := kmeansStates_valid entities seeds weights euclideanNorm
  induction n generalizing i with
  | zero =>
    have : m = 0 := by omega
    rw [this]
    exact hne i hi
  | succ n ih =>
    by_cases hmn : m = n + 1
    · rw [hmn]
      exact hne i hi
    · refine ih ?_ (by omega) i hi
      intro i0 hi0
      rw [(hv n).2.2]
      apply kmeansStep_nonempty_back entities _ weights hfin (by rw [(hv n).1]; exact hK)
        (by rw [(hv n).2.1]; exact hcols) (by rw [(hv n).1]; exact hwr) hwc
      · intro i1 hi1
        have h1 := hne i1 (by rw [← (hv n).1]; exact hi1)
        rw [(hv (n + 1)).2.2, kmeansStates_succ] at h1
        have h2 : (kmeansStep entities euclideanNorm (kmeansStates entities euclideanNorm n
            (kmeansStart entities seeds weights euclideanNorm))).1 =
            clusterMeans entities (kmeansStates entities euclideanNorm n
              (kmeansStart entities seeds weights euclideanNorm)).1
              (kmeansStates entities euclideanNorm n
                (kmeansStart entities seeds weights euclideanNorm)).2 := rfl
        rw [h2, (hv n).2.2] at h1
        exact h1
      · rw [(hv n).1]
        exact hi0

/-- The centroids at the test of the loop of `kmeansGenerator` before a pass with no
empty cluster are finite. -/
theorem kmeansStates_finite (entities seeds : Mat Flt) (weights : Mat Bool)
    (hfin : FiniteEntries entities) (hsfin : FiniteEntries seeds) (hK : 1 ≤ seeds.rows)
    (hcols : seeds.cols = entities.cols) (hwr : weights.rows = seeds.rows)
    (hwc : weights.cols = entities.rows) (n : Nat)
    (hne : ∀ i, i < seeds.rows →
      0 < (kmeansStates entities euclideanNorm n
        (kmeansStart entities seeds weights euclideanNorm)).2.rowCount i) :
    FiniteEntries (kmeansStates entities euclideanNorm n
      (kmeansStart entities seeds weights euclideanNorm)).1 := by
  have hv := kmeansStates_valid entities seeds weights euclideanNorm
  cases n with
  | zero => exact hsfin
  | succ n =>
    have hprev := kmeansStates_nonempty_back entities seeds weights hfin hK hcols hwr hwc
      (n + 1) hne n (by omega)
    have hmeans := kmeansStep_means entities
      (kmeansStates entities euclideanNorm n
        (kmeansStart entities seeds weights euclideanNorm)).1 weights euclideanNorm hfin
      (by rw [(hv n).2.1]; exact hcols) (by rw [(hv n).1]; exact hwr) hwc
      (fun i hi => by
        rw [← (hv n).2.2]
        exact hprev i (by rw [← (hv n).1]; exact hi))
    rw [kmeansStates_succ]
    show FiniteEntries (clusterMeans entities _ _)
    rw [(hv n).2.2]
    exact hmeans.1

/-- The seeds of `kmeansInitializer` for no more clusters than entities are finite when
the entities are. -/
theorem kmeansInitializer_finite (entities centroids : Mat Flt) (norm : squaredNorm_t)
    (gen : Nat → Nat) (seeds : Mat Flt) (hfin : FiniteEntries entities)
    (hKN : centroids.rows ≤ entities.rows) (hcols : centroids.cols = entities.cols)
    (h : kmeansInitializer entities centroids norm gen = Outcome.ok seeds) :
    FiniteEntries seeds := by
  have hK := kmeansInitializer_rows_pos entities centroids norm gen seeds h
  obtain ⟨out, chosen, hout, h1, h2, h3, _⟩ :=
    kmeansInitializer_returns entities centroids norm gen hK hKN hcols
  rw [h] at hout
  have hso : seeds = out := Outcome.ok.inj hout
  rw [hso]
  intro r c hr hc
  rw [h1] at hr
  rw [h2] at hc
  obtain ⟨g1, g2⟩ := h3 r hr
  rw [g2 c hc]
  exact hfin _ _ g1 hc

theorem seedEntities_finite : FiniteEntries seedEntities := by
  intro r c _ _
  show ∃ q, (if r = 0 then Flt.fin 1 else if r = 1 then Flt.fin 2
    else if r = 2 then Flt.fin 3 else Flt.fin 0) = Flt.fin q
  split_ifs <;> exact ⟨_, rfl⟩

theorem seedExampleSeeds_eq :
    kmeansInitializer seedEntities seedCentroids euclideanNorm seedDraws =
      Outcome.ok seedExampleSeeds := rfl

/-- The seeds of the worked example on the seeding leave no cluster empty. -/
theorem seedExample_nonempty (i : Nat) (hi : i < seedCentroids.rows) :
    0 < (kmeansStates seedEntities euclideanNorm 0
      (kmeansStart seedEntities seedExampleSeeds seedBoolWeights euclideanNorm)).2.rowCount
        i := by
  have hi2 : i < 2 := hi
  interval_cases i <;> decide!


/-! ## Lemmas on the runs of an attempt -/

theorem Flt.lt_nan_left (b : Flt) : Flt.lt Flt.nan b = false := rfl

theorem Flt.eq_nan_of_isNaN {a : Flt} (h : a.isNaN = true) : a = Flt.nan := by
  cases a <;> simp_all [Flt.isNaN]

/-- A run of `kmeansGenerator` in the search is one more call. -/
theorem searchRun_calls (sqrtQ : ℚ → ℚ) (fuel : Nat) (entities : Mat Flt)
    (norm : squaredNorm_t) (rd : Nat → Nat → Nat) (current : Nat) (s t : SearchState)
    (h : searchRun sqrtQ fuel entities norm rd current s = Outcome.ok t) :
    t.calls = s.calls + 1 := by
  unfold searchRun at h
  obtain ⟨cw, _, hcw⟩ := Outcome.bind_eq_ok h
  rw [← Outcome.ok.inj hcw]

/-- The runs of an attempt that is entered with the counter `iterations`: at least one,
no more than the cap allows, and as many as the cap allows when the last score is NaN. -/
theorem searchAttemptRuns_calls (sqrtQ : ℚ → ℚ) (fuel : Nat) (entities : Mat Flt)
    (norm : squaredNorm_t) (rd : Nat → Nat → Nat) (current budget iterations : Nat)
    (s t : SearchState)
    (h : searchAttemptRuns sqrtQ fuel entities norm rd current budget iterations s =
      Outcome.ok t) :
    s.calls + 1 ≤ t.calls ∧
    (iterations < maxIterationPerClustersNumber →
      iterations + (t.calls - s.calls) ≤ maxIterationPerClustersNumber) ∧
    (t.newFitness.isNaN = true →
      maxIterationPerClustersNumber ≤ iterations + (t.calls - s.calls)) := by
  induction budget generalizing iterations s with
  | zero => cases h
  | succ budget ih =>
    unfold searchAttemptRuns at h
    obtain ⟨s1, hs1, hrest⟩ := Outcome.bind_eq_ok h
    have hc := searchRun_calls sqrtQ fuel entities norm rd current s s1 hs1
    simp only [] at hrest
    by_cases hcond : (s1.newFitness.isNaN &&
        decide (iterations + 1 < maxIterationPerClustersNumber)) = true
    · rw [if_pos hcond] at hrest
      obtain ⟨g1, g2, g3⟩ := ih (iterations + 1) s1 hrest
      have hlt : iterations + 1 < maxIterationPerClustersNumber :=
        of_decide_eq_true (Bool.and_eq_true _ _ |>.mp hcond).2
      have g2b := g2 hlt
      refine ⟨by omega, fun _ => by omega, fun hn => ?_⟩
      have := g3 hn
      omega
    · rw [if_neg hcond] at hrest
      rw [← Outcome.ok.inj hrest]
      refine ⟨by omega, fun _ => by omega, fun hn => ?_⟩
      rw [hn, Bool.true_and] at hcond
      have : ¬ iterations + 1 < maxIterationPerClustersNumber := by simpa using hcond
      omega

/-! ## Lemmas on the traced search -/

theorem searchAttempt_eq_select (sqrtQ : ℚ → ℚ) (fuel : Nat) (entities : Mat Flt)
    (norm : squaredNorm_t) (rd : Nat → Nat → Nat) (current : Nat) (s : SearchState) :
    searchAttempt sqrtQ fuel entities norm rd current s =
      (searchAttemptRuns sqrtQ fuel entities norm rd current maxIterationPerClustersNumber 0
        s).bind fun s1 => Outcome.ok (searchSelect entities current s1) := by
  unfold searchAttempt
  congr 1
  funext s1
  unfold searchSelect
  split <;> rfl

/-- The traced runs of an attempt do to the state what the runs do. -/
theorem searchAttemptRunsTraced_project (sqrtQ : ℚ → ℚ) (fuel : Nat) (entities : Mat Flt)
    (norm : squaredNorm_t) (rd : Nat → Nat → Nat) (current budget iterations : Nat)
    (st : SearchState × List Flt) :
    (searchAttemptRunsTraced sqrtQ fuel entities norm rd current budget iterations st).bind
        (fun y => Outcome.ok y.1) =
      searchAttemptRuns sqrtQ fuel entities norm rd current budget iterations st.1 := by
  induction budget generalizing iterations st with
  | zero => rfl
  | succ budget ih =>
    unfold searchAttemptRunsTraced searchAttemptRuns
    rw [Outcome.bind_assoc]
    congr 1
    funext s1
    simp only []
    split
    · exact ih (iterations + 1) (s1, st.2 ++ [s1.newFitness])
    · rfl

theorem searchAttemptTraced_project (sqrtQ : ℚ → ℚ) (fuel : Nat) (entities : Mat Flt)
    (norm : squaredNorm_t) (rd : Nat → Nat → Nat) (current : Nat)
    (sl : SearchState × List (Nat × List Flt)) :
    (searchAttemptTraced sqrtQ fuel entities norm rd current sl).bind
        (fun y => Outcome.ok y.1) =
      searchAttempt sqrtQ fuel entities norm rd current sl.1 := by
  rw [searchAttempt_eq_select,
    ← searchAttemptRunsTraced_project sqrtQ fuel entities norm rd current
      maxIterationPerClustersNumber 0 (sl.1, [])]
  unfold searchAttemptTraced
  rw [Outcome.bind_assoc, Outcome.bind_assoc]
  rfl

/-- The traced search does to the state what the search does. -/
theorem searchLoopTraced_project (sqrtQ : ℚ → ℚ) (fuel : Nat) (entities : Mat Flt)
    (norm : squaredNorm_t) (rd : Nat → Nat → Nat) (maxClustersNumber : Nat)
    (sl : SearchState × List (Nat × List Flt)) :
    (searchLoopTraced sqrtQ fuel entities norm rd maxClustersNumber sl).bind
        (fun y => Outcome.ok y.1) =
      searchLoop sqrtQ fuel entities norm rd maxClustersNumber sl.1 := by
  unfold searchLoopTraced searchLoop
  apply forLoopM_project (fun y : SearchState × List (Nat × List Flt) => y.1)
  intro current x
  apply forLoopM_project (fun y : SearchState × List (Nat × List Flt) => y.1)
  intro _ y
  exact searchAttemptTraced_project sqrtQ fuel entities norm rd current y

/-- A returning search is a returning traced search, in the same state. -/
theorem searchLoop_traced (sqrtQ : ℚ → ℚ) (fuel : Nat) (entities : Mat Flt)
    (norm : squaredNorm_t) (rd : Nat → Nat → Nat) (maxClustersNumber : Nat)
    (s t : SearchState)
    (h : searchLoop sqrtQ fuel entities norm rd maxClustersNumber s = Outcome.ok t) :
    ∃ log, searchLoopTraced sqrtQ fuel entities norm rd maxClustersNumber (s, []) =
      Outcome.ok (t, log) := by
  have hp := searchLoopTraced_project sqrtQ fuel entities norm rd maxClustersNumber (s, [])
  rw [h] at hp
  obtain ⟨y, hy, hy2⟩ := Outcome.bind_eq_ok hp
  have hy3 : y.1 = t := Outcome.ok.inj hy2
  refine ⟨y.2, ?_⟩
  rw [hy, ← hy3]

/-- The scores that the traced runs of an attempt add to the trace, when the attempt is
entered with the counter `iterations`. -/
theorem searchAttemptRunsTraced_scores (sqrtQ : ℚ → ℚ) (fuel : Nat) (entities : Mat Flt)
    (norm : squaredNorm_t) (rd : Nat → Nat → Nat) (current budget iterations : Nat)
    (st tt : SearchState × List Flt)
    (h : searchAttemptRunsTraced sqrtQ fuel entities norm rd current budget iterations st =
      Outcome.ok tt) :
    ∃ scores, tt.2 = st.2 ++ scores ∧ 1 ≤ scores.length ∧
      (iterations < maxIterationPerClustersNumber →
        iterations + scores.length ≤ maxIterationPerClustersNumber) ∧
      (∀ x, x ∈ scores.dropLast → x.isNaN = true) ∧
      (iterations + scores.length < maxIterationPerClustersNumber →
        ∀ x, x ∈ scores.getLast? → x.isNaN = false) ∧
      tt.1.calls = st.1.calls + scores.length := by
  induction budget generalizing iterations st with
  | zero => cases h
  | succ budget ih =>
    unfold searchAttemptRunsTraced at h
    obtain ⟨s1, hs1, hrest⟩ := Outcome.bind_eq_ok h
    have hc := searchRun_calls sqrtQ fuel entities norm rd current st.1 s1 hs1
    simp only [] at hrest
    by_cases hcond : (s1.newFitness.isNaN &&
        decide (iterations + 1 < maxIterationPerClustersNumber)) = true
    · rw [if_pos hcond] at hrest
      obtain ⟨scores, g1, g2, g3, g4, g5, g6⟩ := ih (iterations + 1) _ hrest
      have hnan : s1.newFitness.isNaN = true := (Bool.and_eq_true _ _ |>.mp hcond).1
      have hlt : iterations + 1 < maxIterationPerClustersNumber :=
        of_decide_eq_true (Bool.and_eq_true _ _ |>.mp hcond).2
      have hne : scores ≠ [] := by
        intro h0
        rw [h0] at g2
        exact absurd g2 (by decide)
      refine ⟨s1.newFitness :: scores, ?_, ?_, ?_, ?_, ?_, ?_⟩
      · rw [g1]
        show (st.2 ++ [s1.newFitness]) ++ scores = st.2 ++ (s1.newFitness :: scores)
        rw [List.append_assoc]
        rfl
      · rw [List.length_cons]
        omega
      · intro _
        have := g3 hlt
        rw [List.length_cons]
        omega
      · intro x hx
        rw [List.dropLast_cons_of_ne_nil hne, List.mem_cons] at hx
        rcases hx with hx | hx
        · rw [hx]
          exact hnan
        · exact g4 x hx
      · intro hlen x hx
        rw [List.length_cons] at hlen
        obtain ⟨b, l, hbl⟩ := List.exists_cons_of_ne_nil hne
        rw [hbl, List.getLast?_cons_cons, ← hbl] at hx
        exact g5 (by omega) x hx
      · rw [g6, List.length_cons]
        show s1.calls + scores.length = _
        omega
    · rw [if_neg hcond] at hrest
      rw [← Outcome.ok.inj hrest]
      refine ⟨[s1.newFitness], rfl, le_refl _, ?_, ?_, ?_, hc⟩
      · intro _
        show iterations + 1 ≤ maxIterationPerClustersNumber
        omega
      · intro x hx
        cases hx
      · intro hlen x hx
        have hx2 : x = s1.newFitness := by
          simpa using hx.symm
        have hlen2 : iterations + 1 < maxIterationPerClustersNumber := hlen
        rw [hx2]
        cases hn : s1.newFitness.isNaN with
        | false => rfl
        | true =>
          rw [hn, Bool.true_and] at hcond
          exact absurd (decide_eq_true hlen2) hcond

/-- A loop that adds to a list, pass after pass, what the passes give. -/
theorem forLoopM_appends {σ α : Type} (tr : σ → List α) (g : Nat → List α)
    (body : Nat → σ → Outcome σ)
    (hbody : ∀ k x y, body k x = Outcome.ok y → tr y = tr x ++ g k)
    (n i : Nat) (x y : σ) (h : forLoopM body n i x = Outcome.ok y) :
    tr y = tr x ++ (List.range n).flatMap fun j => g (i + j) := by
  induction n generalizing y with
  | zero =>
    have : x = y := Outcome.ok.inj h
    rw [← this]
    simp
  | succ n ih =>
    rw [forLoopM_succ_last] at h
    obtain ⟨z, hz, hzy⟩ := Outcome.bind_eq_ok h
    rw [hbody _ _ _ hzy, ih z hz, List.range_succ, List.flatMap_append, List.flatMap_singleton,
      List.append_assoc]

/-- An attempt adds its candidate count to the trace, with allowed scores, and as many
calls as it has scores. -/
theorem searchAttemptTraced_entry (sqrtQ : ℚ → ℚ) (fuel : Nat) (entities : Mat Flt)
    (norm : squaredNorm_t) (rd : Nat → Nat → Nat) (current : Nat)
    (sl tl : SearchState × List (Nat × List Flt))
    (h : searchAttemptTraced sqrtQ fuel entities norm rd current sl = Outcome.ok tl) :
    ∃ scores, tl.2 = sl.2 ++ [(current, scores)] ∧ RunsAllowed scores ∧
      tl.1.calls = sl.1.calls + scores.length := by
  unfold searchAttemptTraced at h
  obtain ⟨st, hst, hrest⟩ := Outcome.bind_eq_ok h
  obtain ⟨scores, g1, g2, g3, g4, g5, g6⟩ := searchAttemptRunsTraced_scores sqrtQ fuel
    entities norm rd current _ 0 (sl.1, []) st hst
  have g1b : st.2 = scores := by simpa using g1
  have g3b := g3 (by decide)
  rw [Nat.zero_add] at g3b g5
  rw [← Outcome.ok.inj hrest]
  refine ⟨scores, by rw [g1b], ⟨g2, g3b, g4, g5⟩, ?_⟩
  show (searchSelect entities current st.1).calls = _
  have : (searchSelect entities current st.1).calls = st.1.calls := by
    unfold searchSelect
    split <;> rfl
  rw [this, g6]

/-- A returning traced search is a returning search, in the same state. -/
theorem searchLoop_of_traced (sqrtQ : ℚ → ℚ) (fuel : Nat) (entities : Mat Flt)
    (norm : squaredNorm_t) (rd : Nat → Nat → Nat) (maxClustersNumber : Nat)
    (sl tl : SearchState × List (Nat × List Flt))
    (h : searchLoopTraced sqrtQ fuel entities norm rd maxClustersNumber sl = Outcome.ok tl) :
    searchLoop sqrtQ fuel entities norm rd maxClustersNumber sl.1 = Outcome.ok tl.1 := by
  rw [← searchLoopTraced_project sqrtQ fuel entities norm rd maxClustersNumber sl, h]
  rfl

/-- The candidate counts of the trace of a search: every count from 2 on, as many times
as there are attempts for a count. -/
theorem searchLoopTraced_counts (sqrtQ : ℚ → ℚ) (fuel : Nat) (entities : Mat Flt)
    (norm : squaredNorm_t) (rd : Nat → Nat → Nat) (maxClustersNumber : Nat)
    (sl tl : SearchState × List (Nat × List Flt))
    (h : searchLoopTraced sqrtQ fuel entities norm rd maxClustersNumber sl = Outcome.ok tl) :
    tl.2.map Prod.fst = sl.2.map Prod.fst ++
      (List.range (maxClustersNumber - 1)).flatMap fun i =>
        List.replicate attemptsPerClustersNumber (2 + i) := by
  unfold searchLoopTraced at h
  refine forLoopM_appends (fun x : SearchState × List (Nat × List Flt) => x.2.map Prod.fst)
    (fun k => List.replicate attemptsPerClustersNumber k) _ ?_ _ 2 sl tl h
  intro current x y hxy
  have hin := forLoopM_appends
    (fun x : SearchState × List (Nat × List Flt) => x.2.map Prod.fst)
    (fun _ => [current]) _ ?_ _ 0 x y hxy
  · rw [hin]
    rfl
  · intro _ a b hab
    obtain ⟨scores, hs, _⟩ := searchAttemptTraced_entry sqrtQ fuel entities norm rd current
      a b hab
    show b.2.map Prod.fst = a.2.map Prod.fst ++ [current]
    rw [hs, List.map_append]
    rfl

/-- Every attempt in the trace of a search has allowed scores, and the calls of
`kmeansGenerator` are as many as the scores. -/
theorem searchLoopTraced_runs (sqrtQ : ℚ → ℚ) (fuel : Nat) (entities : Mat Flt)
    (norm : squaredNorm_t) (rd : Nat → Nat → Nat) (maxClustersNumber : Nat)
    (sl tl : SearchState × List (Nat × List Flt))
    (hsl : (∀ a, a ∈ sl.2 → RunsAllowed a.2) ∧
      sl.1.calls = (sl.2.map fun a => a.2.length).sum)
    (h : searchLoopTraced sqrtQ fuel entities norm rd maxClustersNumber sl = Outcome.ok tl) :
    (∀ a, a ∈ tl.2 → RunsAllowed a.2) ∧
      tl.1.calls = (tl.2.map fun a => a.2.length).sum := by
  unfold searchLoopTraced at h
  refine forLoopM_invariant
    (fun x : SearchState × List (Nat × List Flt) =>
      (∀ a, a ∈ x.2 → RunsAllowed a.2) ∧ x.1.calls = (x.2.map fun a => a.2.length).sum)
    _ _ _ sl tl ?_ hsl h
  intro current a b _ _ ha hb
  refine forLoopM_invariant
    (fun x : SearchState × List (Nat × List Flt) =>
      (∀ a, a ∈ x.2 → RunsAllowed a.2) ∧ x.1.calls = (x.2.map fun a => a.2.length).sum)
    _ _ _ a b ?_ ha hb
  intro _ x y _ _ hx hy
  obtain ⟨scores, hs, hallowed, hcalls⟩ := searchAttemptTraced_entry sqrtQ fuel entities
    norm rd current x y hy
  constructor
  · intro e he
    rw [hs] at he
    rcases List.mem_append.mp he with he1 | he1
    · exact hx.1 e he1
    · rw [List.mem_singleton.mp he1]
      exact hallowed
  · rw [hcalls, hs, List.map_append, List.sum_append, hx.2]
    simp


/-! ## Lemmas on the pass in which fuzzy c-means fails -/

/-- The weights that the loop of `FCMGenerator` returns keep a column for every entity. -/
theorem FCMLoop_cols (sqrtQ : ℚ → ℚ) (entities : Mat Flt) (norm : squaredNorm_t)
    (n : Nat) (centroids weights weightsOld c w : Mat Flt)
    (hcols : weights.cols = entities.rows)
    (h : FCMLoop sqrtQ entities norm n centroids weights weightsOld = Outcome.ok (c, w)) :
    w.cols = entities.rows := by
  rcases FCMLoop_result sqrtQ entities norm n centroids weights weightsOld c w hcols h with
    ⟨_, hw⟩ | ⟨c0, w0, hw0, hit⟩
  · rw [hw]
    exact hcols
  · exact FCMIteration_dims sqrtQ entities norm c0 w0 c w hw0 hit

/-- A violation in the loop of `FCMGenerator` with the cap `n` comes in one of its passes:
for some `k` below `n` the loop with the cap `k` returns, the loop with the cap `k + 1`
fails, and it is the call of `calculateFuzzyWeights` of the pass `k + 1`, on the centroids
made of the weights after `k` passes, that fails. -/
theorem FCMLoop_violation_pass (sqrtQ : ℚ → ℚ) (entities : Mat Flt) (norm : squaredNorm_t)
    (n : Nat) (centroids weights weightsOld : Mat Flt)
    (h : FCMLoop sqrtQ entities norm n centroids weights weightsOld = Outcome.violation) :
    ∃ k, k < n ∧ ∃ ck : Mat Flt × Mat Flt,
      FCMLoop sqrtQ entities norm k centroids weights weightsOld = Outcome.ok ck ∧
      FCMLoop sqrtQ entities norm (k + 1) centroids weights weightsOld = Outcome.violation ∧
      calculateFuzzyWeights entities (FCMCentroids entities ck.2 ck.1.rows) ck.2 norm =
        Outcome.violation := by
  induction n generalizing centroids weights weightsOld with
  | zero => cases h
  | succ n ih =>
    unfold FCMLoop at h
    by_cases hlt : Flt.lt FCM_THRESHOLD (Mat.squaredNormDiff weights weightsOld) = true
    · rw [if_pos hlt] at h
      rcases Outcome.bind_eq_violation h with h1 | ⟨cw, hcw, h2⟩
      · refine ⟨0, Nat.succ_pos n, (centroids, weights), rfl, ?_, ?_⟩
        · unfold FCMLoop
          rw [if_pos hlt, h1]
          rfl
        · unfold FCMIteration at h1
          rcases Outcome.bind_eq_violation h1 with h3 | ⟨u, _, h4⟩
          · exact h3
          · cases h4
      · obtain ⟨k, hk, ck, hck, hfail, hv⟩ := ih cw.1 cw.2 weights h2
        refine ⟨k + 1, Nat.succ_lt_succ hk, ck, ?_, ?_, hv⟩
        · unfold FCMLoop
          rw [if_pos hlt, hcw]
          exact hck
        · rw [FCMLoop, if_pos hlt, hcw]
          exact hfail
    · rw [if_neg hlt] at h
      cases h

/-! ## Lemmas on the worked example on the roundings -/

theorem eightSeeds_eq :
    kmeansInitializer eightEntities eightCentroids euclideanNormFloat (searchDraws 0) =
      Outcome.ok eightSeeds := rfl

/-! ## Claims -/

/-- C1: after `calculateBooleanWeights`, whatever the K x N weight matrix held before,
every column `j` of an entity has exactly one true entry among its `K >= 1` rows. -/
theorem calculateBooleanWeights_exactly_one_true (entities centroids : Mat Flt)
    (weights : Mat Bool) (norm : squaredNorm_t)
    (hK : 1 ≤ centroids.rows)
    (hrows : weights.rows = centroids.rows) (hcols : weights.cols = entities.rows)
    (j : Nat) (hj : j < entities.rows) :
    ∃! i, i < centroids.rows ∧
      (calculateBooleanWeights entities centroids weights norm).coeff i j = true := by
  have hn := nearest_lt_rows centroids norm (entities.row j) hK
  have hcoeff := calculateBooleanWeights_coeff entities centroids weights norm
  refine ⟨(nearest centroids norm (entities.row j)).2, ⟨hn, ?_⟩, ?_⟩
  · rw [hcoeff]
    simp [hj, hrows, hcols, hn]
  · rintro i ⟨_, hi⟩
    rw [hcoeff] at hi
    simp at hi
    exact hi.2.1

/-- Witness of C1 on the worked example. -/
theorem calculateBooleanWeights_exactly_one_true_witness :
    ∃! i, i < exampleCentroids.rows ∧
      (calculateBooleanWeights exampleEntities exampleCentroids exampleWeights
        euclideanNorm).coeff i 0 = true :=
  calculateBooleanWeights_exactly_one_true exampleEntities exampleCentroids exampleWeights
    euclideanNorm (by decide) rfl rfl 0 (by decide)

/-- C2: the row of column `j` that `calculateBooleanWeights` sets to true is the smallest
centroid index whose distance to entity `j` is the minimum of the distances of all
centroids to it (distances being numbers, none of them NaN). -/
theorem calculateBooleanWeights_nearest_first (entities centroids : Mat Flt)
    (weights : Mat Bool) (norm : squaredNorm_t)
    (j : Nat)
    (hnan : ∀ k, k < centroids.rows → norm (centroids.row k) (entities.row j) ≠ Flt.nan)
    (i : Nat) (hi : i < centroids.rows)
    (htrue : (calculateBooleanWeights entities centroids weights norm).coeff i j = true) :
    (∀ k, k < centroids.rows →
      Flt.le (norm (centroids.row i) (entities.row j))
        (norm (centroids.row k) (entities.row j)) = true) ∧
    (∀ k, k < centroids.rows →
      (∀ m, m < centroids.rows →
        Flt.le (norm (centroids.row k) (entities.row j))
          (norm (centroids.row m) (entities.row j)) = true) → i ≤ k) := by
  rw [calculateBooleanWeights_coeff] at htrue
  simp only [decide_eq_true_eq] at htrue
  obtain ⟨_, hidx, _, _⟩ := htrue
  obtain ⟨h1, _, h3, h4⟩ := nearest_spec centroids norm (entities.row j) (by omega) hnan
  rw [← hidx] at h1 h4
  rw [h1] at h3 h4
  refine ⟨fun k hk => Flt.le_of_not_lt (hnan i hi) (hnan k hk) (h3 k hk), ?_⟩
  intro k hk hmin
  by_contra hlt
  have h5 := h4 k (by omega)
  have h6 := Flt.not_lt_of_le (hmin i hi)
  rw [h5] at h6
  exact absurd h6 (by simp)

/-- Witness of C2 on the worked example: entity 0 is at distance 1 from the centroids 0
and 1, and row 0 is the one set. -/
theorem calculateBooleanWeights_nearest_first_witness :
    (∀ k, k < exampleCentroids.rows →
      Flt.le (euclideanNorm (exampleCentroids.row 0) (exampleEntities.row 0))
        (euclideanNorm (exampleCentroids.row k) (exampleEntities.row 0)) = true) ∧
    (∀ k, k < exampleCentroids.rows →
      (∀ m, m < exampleCentroids.rows →
        Flt.le (euclideanNorm (exampleCentroids.row k) (exampleEntities.row 0))
          (euclideanNorm (exampleCentroids.row m) (exampleEntities.row 0)) = true) → 0 ≤ k) :=
  calculateBooleanWeights_nearest_first exampleEntities exampleCentroids exampleWeights
    euclideanNorm 0 (by decide!) 0 (by decide) (by decide!)

/-- C3 as stated fails: for the single entity at `2 ^ 70` and the centroid 0, both finite,
the default distance with the roundings of `float` is the square `2 ^ 140`, beyond the
`float` range, so it is the infinite value; it is above `FCM_THRESHOLD`, the guard does
not fire, `calculateFuzzyWeights` returns and the entry is `1 / inf = 0`, which is not
strictly greater than 0. -/
theorem calculateFuzzyWeights_zero_weight_counterexample :
    (Flt.fin (2 ^ 70)).toFloat = Flt.fin (2 ^ 70) ∧
    euclideanNormFloat (singleZero.row 0) (farEntity.row 0) = Flt.inf false ∧
    Flt.lt FCM_THRESHOLD (euclideanNormFloat (singleZero.row 0) (farEntity.row 0)) = true ∧
    weightRows (calculateFuzzyWeights farEntity singleZero singleZero euclideanNormFloat) =
      Outcome.ok [[Flt.fin 0]] ∧
    Flt.lt (Flt.fin 0) (Flt.fin 0) = false := by
  decide!

/-- C3, amended: when `calculateFuzzyWeights` returns (the coincidence guard did not
fire), every entry `(i, j)` of a centroid and an entity is
`1 / norm(centroid_i, entity_j)`; it is strictly positive when the distance is not the
infinite value, and it is 0 when it is. -/
theorem calculateFuzzyWeights_inverse_positive (entities centroids : Mat Flt)
    (weights : Mat Flt) (norm : squaredNorm_t)
    (hrows : weights.rows = centroids.rows) (hcols : weights.cols = entities.rows)
    (out : Mat Flt)
    (hok : calculateFuzzyWeights entities centroids weights norm = Outcome.ok out)
    (i j : Nat) (hi : i < centroids.rows) (hj : j < entities.rows) :
    out.coeff i j = Flt.div (Flt.fin 1) (norm (centroids.row i) (entities.row j)) ∧
    (norm (centroids.row i) (entities.row j) ≠ Flt.inf false →
      Flt.lt (Flt.fin 0) (out.coeff i j) = true) ∧
    (norm (centroids.row i) (entities.row j) = Flt.inf false →
      out.coeff i j = Flt.fin 0) := by
  obtain ⟨hgood, hout⟩ := calculateFuzzyWeights_cases entities centroids weights norm
    (by omega) (by omega) out hok
  have hcoeff : out.coeff i j =
      Flt.div (Flt.fin 1) (norm (centroids.row i) (entities.row j)) := by
    rw [hout]
    simp [Mat.map, distanceFill, hi, hj]
  refine ⟨hcoeff, fun hinf => ?_, fun hinf => ?_⟩
  · rw [hcoeff]
    exact Flt.inv_pos_of_threshold_lt (hgood i j hi hj) hinf
  · rw [hcoeff, hinf]
    rfl

/-- Witness of C3 on the worked example with the centroids 1 and -1. -/
theorem calculateFuzzyWeights_inverse_positive_witness :
    ((distanceFill exampleEntities exampleCentroids2 euclideanNorm exampleFuzzyWeights2 0
        exampleCentroids2.rows exampleEntities.rows).map fun x =>
          Flt.div (Flt.fin 1) x).coeff 1 1 =
      Flt.div (Flt.fin 1) (euclideanNorm (exampleCentroids2.row 1) (exampleEntities.row 1)) ∧
    (euclideanNorm (exampleCentroids2.row 1) (exampleEntities.row 1) ≠ Flt.inf false →
      Flt.lt (Flt.fin 0)
        (((distanceFill exampleEntities exampleCentroids2 euclideanNorm exampleFuzzyWeights2 0
          exampleCentroids2.rows exampleEntities.rows).map fun x =>
            Flt.div (Flt.fin 1) x).coeff 1 1) = true) ∧
    (euclideanNorm (exampleCentroids2.row 1) (exampleEntities.row 1) = Flt.inf false →
      ((distanceFill exampleEntities exampleCentroids2 euclideanNorm exampleFuzzyWeights2 0
        exampleCentroids2.rows exampleEntities.rows).map fun x =>
          Flt.div (Flt.fin 1) x).coeff 1 1 = Flt.fin 0) :=
  calculateFuzzyWeights_inverse_positive exampleEntities exampleCentroids2
    exampleFuzzyWeights2 euclideanNorm rfl rfl _
    (calculateFuzzyWeights_ok exampleEntities exampleCentroids2 exampleFuzzyWeights2
      euclideanNorm (by decide) (by decide) (by
        intro i j hi hj
        have hi2 : i < 2 := hi
        have hj2 : j < 2 := hj
        interval_cases i <;> interval_cases j <;> decide!))
    1 1 (by decide) (by decide)

/-- C4: `calculateFuzzyWeights` ends in the coincidence-guard violation exactly when some
computed distance is not above `FCM_THRESHOLD`; in particular it does when an entity row
equals a centroid row and the distance is zero on these identical vectors, while
`calculateBooleanWeights`, which holds no assertion, returns on the same entities and
centroids and assigns that entity to exactly one centroid. -/
theorem coincidence_guard_fuzzy_only (entities centroids : Mat Flt) (weights : Mat Flt)
    (boolWeights : Mat Bool) (norm : squaredNorm_t)
    (hrows : weights.rows = centroids.rows) (hcols : weights.cols = entities.rows)
    (hbrows : boolWeights.rows = centroids.rows) (hbcols : boolWeights.cols = entities.rows) :
    (calculateFuzzyWeights entities centroids weights norm = Outcome.violation ↔
      ∃ i j, i < centroids.rows ∧ j < entities.rows ∧
        Flt.lt FCM_THRESHOLD (norm (centroids.row i) (entities.row j)) = false) ∧
    (∀ i j, i < centroids.rows → j < entities.rows →
      centroids.row i = entities.row j →
      norm (entities.row j) (entities.row j) = Flt.fin 0 →
      calculateFuzzyWeights entities centroids weights norm = Outcome.violation ∧
      ∃! r, r < centroids.rows ∧
        (calculateBooleanWeights entities centroids boolWeights norm).coeff r j = true) := by
  have hiff := calculateFuzzyWeights_violation_iff entities centroids weights norm
    (by omega) (by omega)
  refine ⟨hiff, ?_⟩
  intro i j hi hj hrow hzero
  refine ⟨hiff.mpr ⟨i, j, hi, hj, ?_⟩, ?_⟩
  · rw [hrow, hzero]
    simp [Flt.lt, FCM_THRESHOLD]
  · exact assignedColumn_unique entities centroids boolWeights norm
      (by omega) hbrows hbcols j hj

/-- Witness of C4 on the worked example, where centroid 2 lies on entity 1: the fuzzy
weights end in the violation, the hard weights assign entity 1 to exactly one centroid. -/
theorem coincidence_guard_fuzzy_only_witness :
    calculateFuzzyWeights exampleEntities exampleCentroids exampleFuzzyWeights
      euclideanNorm = Outcome.violation ∧
    ∃! r, r < exampleCentroids.rows ∧
      (calculateBooleanWeights exampleEntities exampleCentroids exampleWeights
        euclideanNorm).coeff r 1 = true :=
  (coincidence_guard_fuzzy_only exampleEntities exampleCentroids exampleFuzzyWeights
    exampleWeights euclideanNorm rfl rfl rfl rfl).2 2 1 (by decide) (by decide)
    (by decide!) (by decide!)

/-- C5 as stated fails: on three entities of the plane, with every random weight 1/2, the
only row of the weights after the first normalization (also what `FCMGenerator` returns
under an iteration cap of 1) is (1/3, 2/3, 2/3), whose sum is 5/3 and not 1. -/
theorem FCMGenerator_row_sum_counterexample :
    weightRowSums (FCMIteration Rat.sqrt fcmEntities euclideanNorm fcmCentroids
      fcmRandomWeights) = Outcome.ok [Flt.fin (5 / 3)] ∧
    weightRowSums (FCMGenerator Rat.sqrt fcmRandom 1 fcmEntities fcmCentroids fcmWeights
      euclideanNorm) = Outcome.ok [Flt.fin (5 / 3)] ∧
    Flt.fin (5 / 3) ≠ Flt.fin 1 := by
  decide!

/-- C5, amended: after the normalization step of every iteration of `FCMGenerator`, and
on return from `FCMGenerator` whenever at least one iteration ran, every row of the
weight matrix has Euclidean norm one, that is the squares of its entries sum to 1 (for at
least one entity, finite distances and an exact square root of the row's sum of squares,
see `UnitRowNorms`). -/
theorem FCMGenerator_rows_unit_norm (sqrtQ : ℚ → ℚ) (entities : Mat Flt)
    (norm : squaredNorm_t) :
    (∀ centroids weights c w, weights.cols = entities.rows →
      FCMIteration sqrtQ entities norm centroids weights = Outcome.ok (c, w) →
      UnitRowNorms sqrtQ entities norm c w) ∧
    (∀ random maxIterations centroids weights c w,
      FCMGenerator sqrtQ random maxIterations entities centroids weights norm =
        Outcome.ok (c, w) →
      0 < maxIterations →
      Flt.lt FCM_THRESHOLD
        (Mat.squaredNormDiff { weights with coeff := fun r c => Flt.fin (random r c) }
          { weights with coeff := fun _ _ => Flt.fin 0 }) = true →
      UnitRowNorms sqrtQ entities norm c w) := by
  refine ⟨fun centroids weights c w hcols h =>
    FCMIteration_unitRowNorms sqrtQ entities norm centroids weights c w hcols h, ?_⟩
  intro random maxIterations centroids weights c w h hmax hfirst
  unfold FCMGenerator at h
  by_cases hdims : weights.cols = entities.rows ∧ centroids.rows = weights.rows ∧
      centroids.cols = entities.cols
  · rw [if_pos hdims] at h
    obtain ⟨m, rfl⟩ : ∃ m, maxIterations = m + 1 := ⟨maxIterations - 1, by omega⟩
    simp only [FCMLoop] at h
    rw [if_pos hfirst] at h
    obtain ⟨cw, hcw, hrest⟩ := Outcome.bind_eq_ok h
    obtain ⟨c1, w1⟩ := cw
    have hd := FCMIteration_dims sqrtQ entities norm centroids
      { weights with coeff := fun r c => Flt.fin (random r c) } c1 w1 hdims.1 hcw
    rcases FCMLoop_result sqrtQ entities norm m c1 w1 _ c w hd hrest with hsame | hlater
    · rw [hsame.1, hsame.2]
      exact FCMIteration_unitRowNorms sqrtQ entities norm centroids
        { weights with coeff := fun r c => Flt.fin (random r c) } c1 w1 hdims.1 hcw
    · obtain ⟨c0, w0, hc0, hit⟩ := hlater
      exact FCMIteration_unitRowNorms sqrtQ entities norm c0 w0 c w hc0 hit
  · rw [if_neg hdims] at h
    cases h

/-- Witness of the amended C5: the row (1/3, 2/3, 2/3) of the worked example has squares
that sum to 1. -/
theorem FCMGenerator_rows_unit_norm_witness :
    fcmWeightsAfter.rowSquaredNorm 0 = Flt.fin 1 :=
  (FCMGenerator_rows_unit_norm Rat.sqrt fcmEntities euclideanNorm).1
    fcmCentroids fcmRandomWeights _ _ rfl
    (FCMIteration_ok Rat.sqrt fcmEntities euclideanNorm fcmCentroids fcmRandomWeights rfl (by
      intro i j hi hj
      have hi2 : i < 1 := hi
      have hj2 : j < 3 := hj
      interval_cases i
      interval_cases j <;> decide!))
    0 (by decide) (by decide)
    (by
      intro j hj
      have hj2 : j < 3 := hj
      interval_cases j <;> decide!)
    (by
      intro q hq
      have hval : inverseSquares fcmEntities (FCMCentroids fcmEntities fcmRandomWeights
          fcmCentroids.rows) euclideanNorm 0 = Flt.fin (9 / 4) := by decide!
      rw [hval] at hq
      have hq2 : (9 / 4 : ℚ) = q := by injection hq
      subst hq2
      decide!)

/-- C6: on a clustering with at least two clusters, none empty, and centroids at non-zero
distance from one another, `daviesBouldinIndex` returns `(1/K) * sum over i of R_i`,
where `R_i` is the maximum over `j != i` of `(S_i + S_j) / M_ij`, with
`S_i = sqrt((1/|cluster_i|) * sum of norm(centroid_i, entity_j))` over the entities of the
cluster and `M_ij = sqrt(norm(centroid_i, centroid_j))`. -/
theorem daviesBouldinIndex_formula (sqrtQ : ℚ → ℚ) (entities centroids : Mat Flt)
    (weights : Mat Bool) (norm : squaredNorm_t) (hs : SqrtLike sqrtQ)
    (hv : ValidClustering entities centroids weights norm) :
    ∃ R : Nat → ℚ,
      (∀ i, i < centroids.rows →
        IsWorstQuotient sqrtQ entities centroids weights norm i (R i)) ∧
      daviesBouldinIndex sqrtQ entities centroids weights norm =
        Flt.fin ((1 / (centroids.rows : ℚ)) * ∑ i in Finset.range centroids.rows, R i) := by
  refine ⟨fun i => (dbIndexCluster sqrtQ entities centroids weights norm i).toRat, ?_,
    daviesBouldinIndex_eq sqrtQ entities centroids weights norm hs hv⟩
  intro i hi
  obtain ⟨R, hR, _, hworst⟩ :=
    dbIndexCluster_eq sqrtQ entities centroids weights norm hs hv i hi
  simp only [hR, Flt.toRat]
  exact hworst

/-- Witness of C6 on the worked example, with the rational square root. -/
theorem daviesBouldinIndex_formula_witness :
    ∃ R : Nat → ℚ,
      (∀ i, i < dbCentroids.rows →
        IsWorstQuotient Rat.sqrt dbEntities dbCentroids dbWeights euclideanNorm i (R i)) ∧
      daviesBouldinIndex Rat.sqrt dbEntities dbCentroids dbWeights euclideanNorm =
        Flt.fin ((1 / (dbCentroids.rows : ℚ)) * ∑ i in Finset.range dbCentroids.rows, R i) :=
  daviesBouldinIndex_formula Rat.sqrt dbEntities dbCentroids dbWeights euclideanNorm
    sqrtLike_ratSqrt dbExample_valid

/-- C8 fails on the code: for two entities, each one the only member of a cluster whose
centroid lies on it (a valid clustering), `daviesBouldinIndex` returns 0, which is not
strictly positive. -/
theorem daviesBouldinIndex_zero_on_exact_fit :
    ValidClustering exampleEntities exactCentroids exactWeights euclideanNorm ∧
    daviesBouldinIndex Rat.sqrt exampleEntities exactCentroids exactWeights euclideanNorm =
      Flt.fin 0 ∧
    Flt.lt (Flt.fin 0)
      (daviesBouldinIndex Rat.sqrt exampleEntities exactCentroids exactWeights
        euclideanNorm) = false :=
  ⟨exactExample_valid, by decide!, by decide!⟩

/-- C9 as stated fails: with a single centroid, to which the two entities are assigned,
`daviesBouldinIndex` returns the number 0, not NaN. -/
theorem daviesBouldinIndex_one_cluster_counterexample :
    oneCentroid.rows < 2 ∧
    daviesBouldinIndex Rat.sqrt exampleEntities oneCentroid oneClusterWeights euclideanNorm =
      Flt.fin 0 ∧
    (daviesBouldinIndex Rat.sqrt exampleEntities oneCentroid oneClusterWeights
      euclideanNorm).isNaN = false := by
  decide!

/-- C9, amended: for an input with fewer than two clusters, `daviesBouldinIndex` returns
NaN when there is no cluster at all, and the number 0 when there is exactly one
cluster. -/
theorem daviesBouldinIndex_below_two_clusters (sqrtQ : ℚ → ℚ) (entities centroids : Mat Flt)
    (weights : Mat Bool) (norm : squaredNorm_t) (h : centroids.rows < 2) :
    daviesBouldinIndex sqrtQ entities centroids weights norm =
      if centroids.rows = 0 then Flt.nan else Flt.fin 0 := by
  unfold daviesBouldinIndex dbIndexCluster
  have hcases : centroids.rows = 0 ∨ centroids.rows = 1 := by omega
  rcases hcases with h0 | h1
  · rw [h0]
    simp [forLoop, Flt.ofNat, Flt.div]
  · rw [h1]
    simp [forLoop, Flt.ofNat, Flt.div, Flt.add]

/-- Witness of the amended C9 on the single centroid of the worked example. -/
theorem daviesBouldinIndex_below_two_clusters_witness :
    daviesBouldinIndex Rat.sqrt exampleEntities oneCentroid oneClusterWeights euclideanNorm =
      if oneCentroid.rows = 0 then Flt.nan else Flt.fin 0 :=
  daviesBouldinIndex_below_two_clusters Rat.sqrt exampleEntities oneCentroid
    oneClusterWeights euclideanNorm (by decide)

/-- C10: whatever the random draws, the count that `clusterGeneratorApproximate` returns
for a centroid matrix of `K_max >= 2` rows lies between 2 and `K_max`. -/
theorem clusterGeneratorApproximate_count_in_range (sqrtQ : ℚ → ℚ) (fuel : Nat)
    (rd : Nat → Nat → Nat) (entities centroids weights : Mat Flt) (boolWeights : Mat Bool)
    (norm : squaredNorm_t) (hK : 2 ≤ centroids.rows) (n : Nat)
    (h : returnedCount (clusterGeneratorApproximate sqrtQ fuel rd entities centroids weights
      boolWeights norm) = Outcome.ok n) :
    2 ≤ n ∧ n ≤ centroids.rows := by
  unfold returnedCount at h
  obtain ⟨r, hr, hn⟩ := Outcome.bind_eq_ok h
  have hn2 : r.clustersNumber = n := Outcome.ok.inj hn
  unfold clusterGeneratorApproximate at hr
  split at hr
  · obtain ⟨s, hs, hrest⟩ := Outcome.bind_eq_ok hr
    obtain ⟨w, _, hw⟩ := Outcome.bind_eq_ok hrest
    have hr2 := Outcome.ok.inj hw
    have hcount : r.clustersNumber = s.clustersNumber := by rw [← hr2]
    have hinv := searchLoop_clustersNumber sqrtQ fuel entities norm rd centroids.rows _ s hK
      ⟨le_refl 2, hK⟩ hs
    rw [← hn2, hcount]
    exact hinv
  · cases hr

/-- Witness of C10: on the two entities 0 and 3, with room for two clusters, the search
returns, and the count it returns is 2. -/
theorem clusterGeneratorApproximate_count_in_range_witness :
    2 ≤ 2 ∧ 2 ≤ searchCentroids.rows :=
  clusterGeneratorApproximate_count_in_range Rat.sqrt 10 searchDraws exampleEntities
    searchCentroids searchWeights searchBoolWeights euclideanNorm (by decide) 2 (by decide!)

/-- C18: on return from `clusterGeneratorApproximate` with the count `k`, every fuzzy
weight of a row `i < k` and an entity `j` is `1 / norm(centroid_i, entity_j)` for the
returned, corrected centroid row `i`, and the rows of the weights from `k` on hold what
the caller passed. -/
theorem clusterGeneratorApproximate_fuzzy_weights (sqrtQ : ℚ → ℚ) (fuel : Nat)
    (rd : Nat → Nat → Nat) (entities centroids weights : Mat Flt) (boolWeights : Mat Bool)
    (norm : squaredNorm_t) (r : ClusterResult)
    (h : clusterGeneratorApproximate sqrtQ fuel rd entities centroids weights boolWeights
      norm = Outcome.ok r) :
    (∀ i j, i < r.clustersNumber → j < entities.rows →
      r.weights.coeff i j =
        Flt.div (Flt.fin 1) (norm (r.centroids.row i) (entities.row j))) ∧
    (∀ i j, r.clustersNumber ≤ i → r.weights.coeff i j = weights.coeff i j) := by
  obtain ⟨hc, s, w, hs, hw, hk, hcen, hwe, _⟩ :=
    clusterGeneratorApproximate_cases sqrtQ fuel rd entities centroids weights boolWeights
      norm r h
  obtain ⟨_, hout⟩ := calculateFuzzyWeights_cases entities _ _ norm
    (le_refl s.clustersNumber) (le_refl entities.rows) w hw
  have hsd := (searchLoop_dims sqrtQ fuel entities norm rd centroids.rows _ s hs).1.2
  have hcd := (singletonCorrection_dims entities s.centroids s.boolWeights s.clustersNumber).2
  have hcols : (singletonCorrection entities s.centroids s.boolWeights s.clustersNumber).cols =
      entities.cols := by
    rw [hcd, hsd]
    exact hc
  have hwrows : w.rows = s.clustersNumber := by rw [hout]; rfl
  have hwcols : w.cols = entities.rows := by rw [hout]; rfl
  constructor
  · intro i j hi hj
    rw [hk] at hi
    rw [hwe, hcen]
    have hrow := Mat.topRightCorner_row
      (singletonCorrection entities s.centroids s.boolWeights s.clustersNumber)
      s.clustersNumber i
    rw [hcols] at hrow
    rw [← hrow]
    show (if i < w.rows ∧ j < w.cols then w.coeff i j else weights.coeff i j) = _
    rw [if_pos ⟨by omega, by omega⟩, hout]
    show Flt.div (Flt.fin 1) (if 0 ≤ i ∧ i < 0 + s.clustersNumber ∧ j < entities.rows then _
      else _) = _
    rw [if_pos ⟨Nat.zero_le _, by omega, hj⟩]
  · intro i j hi
    rw [hk] at hi
    rw [hwe]
    show (if i < w.rows ∧ j < w.cols then w.coeff i j else weights.coeff i j) = _
    rw [if_neg (by omega)]

/-- Witness of C18: the returning run of the worked example of the search. -/
theorem clusterGeneratorApproximate_fuzzy_weights_witness :
    ∃ r, clusterGeneratorApproximate Rat.sqrt 10 searchDraws exampleEntities searchCentroids
        searchWeights searchBoolWeights euclideanNorm = Outcome.ok r ∧
      (∀ i j, i < r.clustersNumber → j < exampleEntities.rows →
        r.weights.coeff i j =
          Flt.div (Flt.fin 1) (euclideanNorm (r.centroids.row i) (exampleEntities.row j))) ∧
      (∀ i j, r.clustersNumber ≤ i → r.weights.coeff i j = searchWeights.coeff i j) := by
  obtain ⟨r, hr, _⟩ := returnedCount_ok
    (by decide! : returnedCount (clusterGeneratorApproximate Rat.sqrt 10 searchDraws
      exampleEntities searchCentroids searchWeights searchBoolWeights euclideanNorm) =
        Outcome.ok 2)
  exact ⟨r, hr, clusterGeneratorApproximate_fuzzy_weights Rat.sqrt 10 searchDraws
    exampleEntities searchCentroids searchWeights searchBoolWeights euclideanNorm r hr⟩

/-- C16 as stated fails: for a single entity, with matrices of compatible sizes and every
random weight 1/2, the first centroid falls on the entity and `FCMGenerator` ends in a
contract violation, the one of the coincidence guard. -/
theorem FCMGenerator_guard_violation_counterexample :
    (singleZero.cols = singleEntity.rows ∧ singleZero.rows = singleZero.rows ∧
      singleZero.cols = singleEntity.cols) ∧
    FCMGenerator Rat.sqrt fcmRandom FCM_MAX_ITERATIONS singleEntity singleZero singleZero
      euclideanNorm = Outcome.violation :=
  ⟨by decide, weightRowSums_violation (by decide!)⟩

/-- C16, amended: `FCMGenerator` ends in a contract violation whenever
`weights.cols() != entities.rows()` or `centroids.rows() != weights.rows()` or
`centroids.cols() != entities.cols()`, whatever the matrices hold and whatever weights
would be drawn, the check being made first; with compatible sizes a violation is one of
the coincidence guard of `calculateFuzzyWeights` in one of its iterations: for some `k`
below the cap the call with the cap `k` on the iterations returns, the call with the cap
`k + 1` fails, and the centroids that the iteration `k + 1` makes of the weights
returned after `k` are at a distance not above `FCM_THRESHOLD` from an entity. -/
theorem FCMGenerator_violation_sources (sqrtQ : ℚ → ℚ) (random : Nat → Nat → ℚ)
    (maxIterations : Nat) (entities centroids weights : Mat Flt) (norm : squaredNorm_t) :
    (¬ (weights.cols = entities.rows ∧ centroids.rows = weights.rows ∧
        centroids.cols = entities.cols) →
      FCMGenerator sqrtQ random maxIterations entities centroids weights norm =
        Outcome.violation) ∧
    ((weights.cols = entities.rows ∧ centroids.rows = weights.rows ∧
        centroids.cols = entities.cols) →
      FCMGenerator sqrtQ random maxIterations entities centroids weights norm =
        Outcome.violation →
      ∃ k, k < maxIterations ∧ ∃ ck : Mat Flt × Mat Flt,
        FCMGenerator sqrtQ random k entities centroids weights norm = Outcome.ok ck ∧
        FCMGenerator sqrtQ random (k + 1) entities centroids weights norm =
          Outcome.violation ∧
        calculateFuzzyWeights entities (FCMCentroids entities ck.2 ck.1.rows) ck.2 norm =
          Outcome.violation ∧
        ∃ i j, i < ck.2.rows ∧ j < entities.rows ∧
          Flt.lt FCM_THRESHOLD
            (norm ((FCMCentroids entities ck.2 ck.1.rows).row i) (entities.row j)) =
              false) := by
  constructor
  · intro hdims
    unfold FCMGenerator
    rw [if_neg hdims]
  · intro hdims h
    unfold FCMGenerator at h
    rw [if_pos hdims] at h
    obtain ⟨k, hk, ck, hck, hfail, hv⟩ := FCMLoop_violation_pass sqrtQ entities norm
      maxIterations _ _ _ h
    have hcols := FCMLoop_cols sqrtQ entities norm k centroids
      { weights with coeff := fun r c => Flt.fin (random r c) }
      { weights with coeff := fun _ _ => Flt.fin 0 } ck.1 ck.2 hdims.1 hck
    have hr := FCMCentroids_rows entities ck.2 ck.1.rows
    obtain ⟨i, j, hi, hj, hij⟩ := (calculateFuzzyWeights_violation_iff entities
      (FCMCentroids entities ck.2 ck.1.rows) ck.2 norm (by omega) (by omega)).mp hv
    refine ⟨k, hk, ck, ?_, ?_, hv, i, j, by omega, hj, hij⟩
    · unfold FCMGenerator
      rw [if_pos hdims]
      exact hck
    · unfold FCMGenerator
      rw [if_pos hdims]
      exact hfail

/-- Witness of the amended C16: three entities and a weight matrix of one column end in
the violation of the size check; the single entity with one by one matrices ends in the
violation of the guard, in one of the iterations. -/
theorem FCMGenerator_violation_sources_witness :
    FCMGenerator Rat.sqrt fcmRandom FCM_MAX_ITERATIONS fcmEntities fcmCentroids singleZero
      euclideanNorm = Outcome.violation ∧
    ∃ k, k < FCM_MAX_ITERATIONS ∧ ∃ ck : Mat Flt × Mat Flt,
      FCMGenerator Rat.sqrt fcmRandom k singleEntity singleZero singleZero euclideanNorm =
        Outcome.ok ck ∧
      FCMGenerator Rat.sqrt fcmRandom (k + 1) singleEntity singleZero singleZero
        euclideanNorm = Outcome.violation ∧
      calculateFuzzyWeights singleEntity (FCMCentroids singleEntity ck.2 ck.1.rows) ck.2
        euclideanNorm = Outcome.violation ∧
      ∃ i j, i < ck.2.rows ∧ j < singleEntity.rows ∧
        Flt.lt FCM_THRESHOLD
          (euclideanNorm ((FCMCentroids singleEntity ck.2 ck.1.rows).row i)
            (singleEntity.row j)) = false :=
  ⟨(FCMGenerator_violation_sources Rat.sqrt fcmRandom FCM_MAX_ITERATIONS fcmEntities
      fcmCentroids singleZero euclideanNorm).1 (by decide),
    (FCMGenerator_violation_sources Rat.sqrt fcmRandom FCM_MAX_ITERATIONS singleEntity
      singleZero singleZero euclideanNorm).2 (by decide)
      (weightRowSums_violation (by decide!))⟩

/-- C17 fails on the code: on two entities, a centroid matrix of two rows and one column
and a two by two weight matrix, which meet the documented preconditions,
`clusterGeneratorExact` ends in a contract violation and returns no count. -/
theorem clusterGeneratorExact_violation_on_valid_input :
    (searchWeights.rows = searchWeights.cols ∧ searchCentroids.cols = exampleEntities.cols ∧
      2 ≤ searchCentroids.rows) ∧
    clusterGeneratorExact Rat.sqrt exactRandom FCM_MAX_ITERATIONS exampleEntities
      searchCentroids searchWeights euclideanNorm = Outcome.violation :=
  ⟨by decide, clusterGeneratorExact_never_returns Rat.sqrt exactRandom FCM_MAX_ITERATIONS
    exampleEntities searchCentroids searchWeights euclideanNorm (by decide)⟩

/-- C14 as stated fails: with the point 0 as first centroid, the pool holds the points 1,
2 and 3, at the distances 1, 4 and 9, whose sum is 14; the draw is made between 1 and 9,
not 14, and for the drawn value 5 the code selects the pool position 2 (the point 3 becomes
the second centroid) although the position 1 is the first one whose cumulative distance,
5, is at least the drawn value. -/
theorem kmeansInitializer_selection_counterexample :
    (List.range 3).map
        (seedRoundDistances euclideanNorm 4
          (kmeansInitializerStart seedEntities seedCentroids seedDraws)) =
      [Flt.fin 1, Flt.fin 4, Flt.fin 9] ∧
    (List.range 3).map
        (prefixSum (seedRoundDistances euclideanNorm 4
          (kmeansInitializerStart seedEntities seedCentroids seedDraws))) =
      [Flt.fin 1, Flt.fin 5, Flt.fin 14] ∧
    seedRoundCumulative euclideanNorm 4
        (kmeansInitializerStart seedEntities seedCentroids seedDraws) 2 = Flt.fin 9 ∧
    seedRoundDraw euclideanNorm seedDraws 4
        (kmeansInitializerStart seedEntities seedCentroids seedDraws) = Flt.fin 5 ∧
    (kmeansInitializerNext euclideanNorm seedDraws 4
        (kmeansInitializerStart seedEntities seedCentroids seedDraws)).randomIndex = 2 ∧
    centroidRows (kmeansInitializer seedEntities seedCentroids euclideanNorm seedDraws) =
      Outcome.ok [[Flt.fin 0], [Flt.fin 3]] := by
  decide!

/-- C14, amended: in a round of `kmeansInitializer` after the first seed, with `m` entities
left in the pool, `d` their distances to the nearest chosen centroid and
`cumulative[k] = d_0 + ... + d_k` for `k < m - 1`, the pool position selected for the drawn
value `r` is the first `k < m - 1` with `cumulative[k] > r`, and the last position
`m - 1` when there is none; the loop goes on from the state that holds this position. -/
theorem kmeansInitializer_selected_position (norm : squaredNorm_t) (gen : Nat → Nat)
    (startingEntitiesNumber : Nat) (s : SeedState) :
    (∀ statsNumber clustersNumber fuel, s.currentClustersNumber + 1 ≠ clustersNumber →
      kmeansInitializerLoop norm gen statsNumber startingEntitiesNumber clustersNumber
          (fuel + 1) s =
        kmeansInitializerLoop norm gen statsNumber startingEntitiesNumber clustersNumber fuel
          (kmeansInitializerNext norm gen startingEntitiesNumber s)) ∧
    (kmeansInitializerNext norm gen startingEntitiesNumber s).randomIndex ≤
      startingEntitiesNumber - (s.currentClustersNumber + 1) - 1 ∧
    ((kmeansInitializerNext norm gen startingEntitiesNumber s).randomIndex <
        startingEntitiesNumber - (s.currentClustersNumber + 1) - 1 →
      Flt.lt (seedRoundDraw norm gen startingEntitiesNumber s)
        (prefixSum (seedRoundDistances norm startingEntitiesNumber s)
          (kmeansInitializerNext norm gen startingEntitiesNumber s).randomIndex) = true) ∧
    (∀ k, k < (kmeansInitializerNext norm gen startingEntitiesNumber s).randomIndex →
      Flt.lt (seedRoundDraw norm gen startingEntitiesNumber s)
        (prefixSum (seedRoundDistances norm startingEntitiesNumber s) k) = false) := by
  obtain ⟨h1, h2, h3⟩ := upperBound_spec (seedRoundCumulative norm startingEntitiesNumber s)
    (startingEntitiesNumber - (s.currentClustersNumber + 1) - 1)
    (seedRoundDraw norm gen startingEntitiesNumber s)
  refine ⟨?_, h1, ?_, ?_⟩
  · intro statsNumber clustersNumber fuel hne
    rw [kmeansInitializerLoop_succ, if_neg hne]
  · intro hlt
    rw [← seedRoundCumulative_below norm startingEntitiesNumber s _ hlt]
    exact h2 hlt
  · intro k hk
    have h := h3 k hk
    have hk2 : k < startingEntitiesNumber - (s.currentClustersNumber + 1) - 1 :=
      lt_of_lt_of_le hk h1
    rw [seedRoundCumulative_below norm startingEntitiesNumber s k hk2] at h
    exact h

/-- Witness of the amended C14 on the worked example: the round after the first seed. -/
theorem kmeansInitializer_selected_position_witness :
    kmeansInitializerLoop euclideanNorm seedDraws 1 4 2 2
        (kmeansInitializerStart seedEntities seedCentroids seedDraws) =
      kmeansInitializerLoop euclideanNorm seedDraws 1 4 2 1
        (kmeansInitializerNext euclideanNorm seedDraws 4
          (kmeansInitializerStart seedEntities seedCentroids seedDraws)) :=
  (kmeansInitializer_selected_position euclideanNorm seedDraws 4
    (kmeansInitializerStart seedEntities seedCentroids seedDraws)).1 1 2 1 (by decide)

/-- C12 fails on the code: for the entities -1, 0 and 1, each the only member of a
cluster whose centroid lies on it, the singleton correction leaves the centroid of the
entity 0, which is the mean of the set, where it was: its distance to the entity is 0
after the correction, and the whole search, which selects these three clusters, ends in the
coincidence-guard violation. -/
theorem singletonCorrection_leaves_mean_centroid :
    threeSingletons.rowCount 1 = 1 ∧
    threeEntities.row 1 = [Flt.fin 0] ∧
    (List.range 3).map
        (fun i => (singletonCorrection threeEntities threeEntities threeSingletons 3).row i) =
      [[Flt.fin (-21 / 20)], [Flt.fin 0], [Flt.fin (21 / 20)]] ∧
    euclideanNorm ((singletonCorrection threeEntities threeEntities threeSingletons 3).row 1)
      (threeEntities.row 1) = Flt.fin 0 ∧
    returnedCount (clusterGeneratorApproximate Rat.sqrt 10 searchDraws threeEntities
      threeCentroids threeWeights threeBoolWeights euclideanNorm) = Outcome.violation := by
  decide!

/-- C13: for an entity matrix of `N` rows, `1 <= K <= N` centroids to choose and any
random draws, `kmeansInitializer` returns, each of the `K` centroids it returns is equal
to a row of the entity matrix, and the `K` centroids come from `K` pairwise distinct row
positions. -/
theorem kmeansInitializer_distinct_entity_rows (entities centroids : Mat Flt)
    (norm : squaredNorm_t) (gen : Nat → Nat) (hK : 1 ≤ centroids.rows)
    (hKN : centroids.rows ≤ entities.rows) (hcols : centroids.cols = entities.cols) :
    ∃ (out : Mat Flt) (chosen : Nat → Nat),
      kmeansInitializer entities centroids norm gen = Outcome.ok out ∧
      out.rows = centroids.rows ∧
      (∀ i, i < centroids.rows →
        chosen i < entities.rows ∧ out.row i = entities.row (chosen i)) ∧
      (∀ i k, i < centroids.rows → k < centroids.rows → chosen i = chosen k → i = k) := by
  obtain ⟨out, chosen, hout, hrows, hoc, hrow, hinj⟩ :=
    kmeansInitializer_returns entities centroids norm gen hK hKN hcols
  refine ⟨out, chosen, hout, hrows, ?_, hinj⟩
  intro i hi
  exact ⟨(hrow i hi).1, Mat.row_congr out entities i (chosen i) hoc (hrow i hi).2⟩

/-- Witness of C13 on the worked example of the seeding: two centroids out of four
entities. -/
theorem kmeansInitializer_distinct_entity_rows_witness :
    ∃ (out : Mat Flt) (chosen : Nat → Nat),
      kmeansInitializer seedEntities seedCentroids euclideanNorm seedDraws = Outcome.ok out ∧
      out.rows = seedCentroids.rows ∧
      (∀ i, i < seedCentroids.rows →
        chosen i < seedEntities.rows ∧ out.row i = seedEntities.row (chosen i)) ∧
      (∀ i k, i < seedCentroids.rows → k < seedCentroids.rows → chosen i = chosen k → i = k) :=
  kmeansInitializer_distinct_entity_rows seedEntities seedCentroids euclideanNorm seedDraws
    (by decide) (by decide) rfl


/-- C11 as stated fails: on four points of the plane, with room for two clusters and every
raw output of the engines 0, the three attempts end with the centroids (0, 0) and
(1/10, 0) and the valid score 60, which is not below the 50 that `fitnessCandidate`
starts with, so no attempt is selected: the call returns the count 2 with the centroids
it was handed, every entry 7, which are the centroids of no attempt. -/
theorem clusterGeneratorApproximate_selection_counterexample :
    loggedScores (searchLoopLogged Rat.sqrt 3 tallEntities euclideanNorm searchDraws
        tallCentroids.rows (searchStart tallEntities tallCentroids tallBoolWeights, [])) =
      Outcome.ok [Flt.fin 60, Flt.fin 60, Flt.fin 60] ∧
    loggedCentroids (searchLoopLogged Rat.sqrt 3 tallEntities euclideanNorm searchDraws
        tallCentroids.rows (searchStart tallEntities tallCentroids tallBoolWeights, [])) =
      Outcome.ok
        [[[Flt.fin 0, Flt.fin 0], [Flt.fin (1 / 10), Flt.fin 0]],
         [[Flt.fin 0, Flt.fin 0], [Flt.fin (1 / 10), Flt.fin 0]],
         [[Flt.fin 0, Flt.fin 0], [Flt.fin (1 / 10), Flt.fin 0]]] ∧
    returnedCount (clusterGeneratorApproximate Rat.sqrt 3 searchDraws tallEntities
        tallCentroids tallWeights tallBoolWeights euclideanNorm) = Outcome.ok 2 ∧
    returnedCentroidRows (clusterGeneratorApproximate Rat.sqrt 3 searchDraws tallEntities
        tallCentroids tallWeights tallBoolWeights euclideanNorm) =
      Outcome.ok [[Flt.fin 7, Flt.fin 7], [Flt.fin 7, Flt.fin 7]] :=
  ⟨by decide!, by decide!, by decide!, by decide!⟩

/-- C11, amended: for every run of `clusterGeneratorApproximate` in which at least one
attempt ends with a Davies-Bouldin score below 50, the value that `fitnessCandidate`
starts with, the selected cluster count, centroids and hard weights (before the singleton
correction) are those of an attempt whose score is the lowest among the final scores of
all attempts over all candidate counts 2..K_max: no attempt has a score below it. -/
theorem clusterGeneratorApproximate_selects_lowest_below_fifty (sqrtQ : ℚ → ℚ) (fuel : Nat)
    (rd : Nat → Nat → Nat) (entities centroids weights : Mat Flt) (boolWeights : Mat Bool)
    (norm : squaredNorm_t) (r : ClusterResult)
    (h : clusterGeneratorApproximate sqrtQ fuel rd entities centroids weights boolWeights
      norm = Outcome.ok r) :
    ∃ s log,
      searchLoopLogged sqrtQ fuel entities norm rd centroids.rows
        (searchStart entities centroids boolWeights, []) = Outcome.ok (s, log) ∧
      r.clustersNumber = s.clustersNumber ∧ r.boolWeights = s.boolWeights ∧
      r.centroids = singletonCorrection entities s.centroids s.boolWeights s.clustersNumber ∧
      ((∃ b, b ∈ log ∧ Flt.lt b.2.newFitness (Flt.fin 50) = true) →
        ∃ a, a ∈ log ∧ AttemptSelected entities a s ∧
          ∀ b, b ∈ log → Flt.lt b.2.newFitness a.2.newFitness = false) := by
  obtain ⟨_, s, w, hs, _, hnum, hcen, _, hbw⟩ :=
    clusterGeneratorApproximate_cases sqrtQ fuel rd entities centroids weights boolWeights
      norm r h
  obtain ⟨log, hlog⟩ := searchLoop_logged sqrtQ fuel entities norm rd centroids.rows
    (searchStart entities centroids boolWeights) s hs
  refine ⟨s, log, hlog, hnum, hbw, hcen, ?_⟩
  rintro ⟨b, hb, hb50⟩
  have hinv := searchLoopLogged_inv sqrtQ fuel entities norm rd centroids.rows
    (searchStart entities centroids boolWeights)
    (searchStart entities centroids boolWeights, []) (s, log)
    (Or.inl ⟨rfl, rfl, rfl, rfl, fun b hb => absurd hb (List.not_mem_nil b)⟩) hlog
  rcases hinv with ⟨_, _, _, _, hall⟩ | ⟨a, ha, _, hsel, hall⟩
  · rw [hall b hb] at hb50
    exact absurd hb50 (by simp)
  · exact ⟨a, ha, hsel, hall⟩

/-- Witness of C11: in the returning run of the worked example of the search the attempts
end with the score 0, below 50, and the outputs are those of an attempt that none beats. -/
theorem clusterGeneratorApproximate_selects_lowest_below_fifty_witness :
    ∃ r s log,
      clusterGeneratorApproximate Rat.sqrt 10 searchDraws exampleEntities searchCentroids
        searchWeights searchBoolWeights euclideanNorm = Outcome.ok r ∧
      searchLoopLogged Rat.sqrt 10 exampleEntities euclideanNorm searchDraws
        searchCentroids.rows (searchStart exampleEntities searchCentroids searchBoolWeights,
          []) = Outcome.ok (s, log) ∧
      r.clustersNumber = s.clustersNumber ∧ r.boolWeights = s.boolWeights ∧
      (∃ b, b ∈ log ∧ Flt.lt b.2.newFitness (Flt.fin 50) = true) ∧
      ∃ a, a ∈ log ∧ AttemptSelected exampleEntities a s ∧
        ∀ b, b ∈ log → Flt.lt b.2.newFitness a.2.newFitness = false := by
  obtain ⟨r, hr, _⟩ := returnedCount_ok
    (by decide! : returnedCount (clusterGeneratorApproximate Rat.sqrt 10 searchDraws
      exampleEntities searchCentroids searchWeights searchBoolWeights euclideanNorm) =
        Outcome.ok 2)
  obtain ⟨s, log, hlog, hnum, hbw, _, hsel⟩ :=
    clusterGeneratorApproximate_selects_lowest_below_fifty Rat.sqrt 10 searchDraws
      exampleEntities searchCentroids searchWeights searchBoolWeights euclideanNorm r hr
  have hscores : loggedScores (searchLoopLogged Rat.sqrt 10 exampleEntities euclideanNorm
      searchDraws searchCentroids.rows
      (searchStart exampleEntities searchCentroids searchBoolWeights, [])) =
      Outcome.ok [Flt.fin 0, Flt.fin 0, Flt.fin 0] := by decide!
  rw [hlog] at hscores
  obtain ⟨b, hb, hb0⟩ := loggedScores_ok_mem hscores
  have hb50 : ∃ b, b ∈ log ∧ Flt.lt b.2.newFitness (Flt.fin 50) = true :=
    ⟨b, hb, by rw [hb0]; decide!⟩
  exact ⟨r, s, log, hr, hlog, hnum, hbw, hb50, hsel hb50⟩


/-- C19 as stated fails, for the code rounds: on the points 1000, 3, 0, 1, 2, 4, 5 and 6
with two clusters and every raw output of the engine 0, `kmeansGenerator` with the
roundings of `float` returns with no empty cluster (1 and 7 entities), and the second
returned centroid is `21 * (float)(1.0 / 7) = 3 + 2 ^ -22` while the arithmetic mean of
the seven entities of its cluster is 3, a `float`. -/
theorem kmeansGenerator_mean_counterexample :
    clusterSizes (kmeansGeneratorFloat 10 eightEntities eightCentroids eightBoolWeights
      euclideanNormFloat (searchDraws 0)) = Outcome.ok [1, 7] ∧
    returnedMeans eightEntities (kmeansGeneratorFloat 10 eightEntities eightCentroids
      eightBoolWeights euclideanNormFloat (searchDraws 0)) =
        Outcome.ok [[(Flt.fin 1000, 1000)], [(Flt.fin (3 + 1 / 2 ^ 22), 3)]] ∧
    (Flt.fin 3).toFloat = Flt.fin 3 ∧ Flt.fin (3 + 1 / 2 ^ 22) ≠ Flt.fin 3 := by
  decide!

/-- C19, amended: over exact arithmetic, when `kmeansGenerator` returns with no empty
cluster, on finite entities and a weight matrix with one column for every entity, the
returned state is a fixed point of the iteration: the returned hard weights are exactly
what `calculateBooleanWeights` makes of the returned centroids, and every returned
centroid is the arithmetic mean of the entities that the returned weights assign to its
cluster.  That there is an entity follows from a cluster not being empty. -/
theorem kmeansGenerator_returns_fixed_point (fuel : Nat) (entities centroids : Mat Flt)
    (weights : Mat Bool) (norm : squaredNorm_t) (gen : Nat → Nat) (c : Mat Flt)
    (w : Mat Bool) (hfin : FiniteEntries entities) (hcols : weights.cols = entities.rows)
    (h : kmeansGenerator fuel entities centroids weights norm gen = Outcome.ok (c, w))
    (hne : ∀ i, i < c.rows → 0 < w.rowCount i) :
    w = calculateBooleanWeights entities c w norm ∧
    ∀ i k, i < c.rows → k < c.cols →
      c.coeff i k = Flt.fin (assignedMean entities w i k) := by
  obtain ⟨_, h2, _, h4, h5, h6⟩ :=
    kmeansGenerator_fixed fuel entities centroids weights norm gen c w h
  refine ⟨h5, ?_⟩
  intro i k hi hk
  obtain ⟨previous, hp1, hp2⟩ := h6 i hi (hne i hi)
  have hc := clusterMeans_fin entities previous w i k (by rw [hp1]; exact hi)
    (by rw [← h2]; exact hk) hfin (by rw [h4, hcols]) (hne i hi)
  rw [← hp2] at hc
  exact hc

/-- Witness of C19: the run on the points 1, 2, 3 and 0 with two clusters returns with
two entities in each cluster, and the returned centroids are the means 1/2 and 5/2. -/
theorem kmeansGenerator_returns_fixed_point_witness :
    returnedMeans seedEntities (kmeansGenerator 10 seedEntities seedCentroids
      seedBoolWeights euclideanNorm seedDraws) =
        Outcome.ok [[(Flt.fin (1 / 2), 1 / 2)], [(Flt.fin (5 / 2), 5 / 2)]] ∧
    ∃ c w, kmeansGenerator 10 seedEntities seedCentroids seedBoolWeights
        euclideanNorm seedDraws = Outcome.ok (c, w) ∧
      (∀ i, i < c.rows → 0 < w.rowCount i) ∧
      w = calculateBooleanWeights seedEntities c w euclideanNorm ∧
      ∀ i k, i < c.rows → k < c.cols →
        c.coeff i k = Flt.fin (assignedMean seedEntities w i k) := by
  refine ⟨by decide!, ?_⟩
  obtain ⟨c, w, h, hne⟩ := clusterSizes_pos
    (by decide! : clusterSizes (kmeansGenerator 10 seedEntities seedCentroids
      seedBoolWeights euclideanNorm seedDraws) = Outcome.ok [2, 2]) (by decide)
  exact ⟨c, w, h, hne, kmeansGenerator_returns_fixed_point 10 seedEntities
    seedCentroids seedBoolWeights euclideanNorm seedDraws c w
    seedEntities_finite rfl h hne⟩

/-- C15 as stated fails, for the code rounds: on the points 1000, 3, 0, 1, 2, 4, 5 and 6
with two clusters and every raw output of the engine 0, the seeds are 1000 and 3, no
cluster is empty (1 and 7 entities) and the total within-cluster distance is 28; in the
pass the second centroid becomes `21 * (float)(1.0 / 7) = 3 + 2 ^ -22`, not the mean 3,
the assignment stays, and the total within-cluster distance after the pass is above 28,
with the distances rounded as `float` and with exact distances alike. -/
theorem kmeansGenerator_pass_cost_counterexample :
    kmeansInitializer eightEntities eightCentroids euclideanNormFloat (searchDraws 0) =
      Outcome.ok eightSeeds ∧
    centroidRows (Outcome.ok eightSeeds) = Outcome.ok [[Flt.fin 1000], [Flt.fin 3]] ∧
    (List.range 2).map (fun i =>
      (kmeansStart eightEntities eightSeeds eightBoolWeights
        euclideanNormFloat).2.rowCount i) = [1, 7] ∧
    withinClusterDistance eightEntities
      (kmeansStart eightEntities eightSeeds eightBoolWeights euclideanNormFloat).1
      (kmeansStart eightEntities eightSeeds eightBoolWeights euclideanNormFloat).2
      euclideanNormFloat = Flt.fin 28 ∧
    kmeansMultiplier 7 = Flt.fin (9586981 / 2 ^ 26) ∧
    centroidRows (Outcome.ok (kmeansStepFloat eightEntities euclideanNormFloat
      (kmeansStart eightEntities eightSeeds eightBoolWeights euclideanNormFloat)).1) =
        Outcome.ok [[Flt.fin 1000], [Flt.fin (3 + 1 / 2 ^ 22)]] ∧
    (List.range 2).map (fun i =>
      (kmeansStepFloat eightEntities euclideanNormFloat
        (kmeansStart eightEntities eightSeeds eightBoolWeights
          euclideanNormFloat)).2.rowCount i) = [1, 7] ∧
    withinClusterDistance eightEntities
      (kmeansStepFloat eightEntities euclideanNormFloat
        (kmeansStart eightEntities eightSeeds eightBoolWeights euclideanNormFloat)).1
      (kmeansStepFloat eightEntities euclideanNormFloat
        (kmeansStart eightEntities eightSeeds eightBoolWeights euclideanNormFloat)).2
      euclideanNormFloat = Flt.fin (28 + 1 / 2 ^ 20 + 1 / 2 ^ 44) ∧
    withinClusterDistance eightEntities
      (kmeansStepFloat eightEntities euclideanNormFloat
        (kmeansStart eightEntities eightSeeds eightBoolWeights euclideanNormFloat)).1
      (kmeansStepFloat eightEntities euclideanNormFloat
        (kmeansStart eightEntities eightSeeds eightBoolWeights euclideanNormFloat)).2
      euclideanNorm = Flt.fin (28 + 7 / 2 ^ 44) ∧
    Flt.le (Flt.fin (28 + 1 / 2 ^ 20 + 1 / 2 ^ 44)) (Flt.fin 28) = false ∧
    Flt.le (Flt.fin (28 + 7 / 2 ^ 44)) (Flt.fin 28) = false :=
  ⟨eightSeeds_eq, by decide!, by decide!, by decide!, by decide!, by decide!, by decide!,
    by decide!, by decide!, by decide!, by decide!⟩

/-- C15, amended: over exact arithmetic, with the default squared Euclidean distance,
for finite entities, every pass of the loop of `kmeansGenerator` in which no cluster is
empty does not raise the total within-cluster squared distance: its value after the pass
(centroids recomputed as means, then entities reassigned) is less than or equal to its
value before the pass.  The state before the pass `n` is that of `kmeansStates` at `n`,
from the seeds that `kmeansInitializer` returned. -/
theorem kmeansGenerator_pass_cost_le (entities centroids : Mat Flt) (weights : Mat Bool)
    (gen : Nat → Nat) (seeds : Mat Flt) (n : Nat) (hfin : FiniteEntries entities)
    (hcols : entities.cols = centroids.cols) (hwr : weights.rows = centroids.rows)
    (hwc : weights.cols = entities.rows)
    (hseed : kmeansInitializer entities centroids euclideanNorm gen = Outcome.ok seeds)
    (hne : ∀ i, i < centroids.rows →
      0 < (kmeansStates entities euclideanNorm n
        (kmeansStart entities seeds weights euclideanNorm)).2.rowCount i) :
    Flt.le
      (withinClusterDistance entities
        (kmeansStates entities euclideanNorm (n + 1)
          (kmeansStart entities seeds weights euclideanNorm)).1
        (kmeansStates entities euclideanNorm (n + 1)
          (kmeansStart entities seeds weights euclideanNorm)).2 euclideanNorm)
      (withinClusterDistance entities
        (kmeansStates entities euclideanNorm n
          (kmeansStart entities seeds weights euclideanNorm)).1
        (kmeansStates entities euclideanNorm n
          (kmeansStart entities seeds weights euclideanNorm)).2 euclideanNorm) = true := by
  have hK := kmeansInitializer_rows_pos entities centroids euclideanNorm gen seeds hseed
  have hsd := kmeansInitializer_dims entities centroids euclideanNorm gen seeds hseed
  have hv := kmeansStates_valid entities seeds weights euclideanNorm
  have hK2 : 1 ≤ seeds.rows := by rw [hsd.1]; exact hK
  have hcols2 : seeds.cols = entities.cols := by rw [hsd.2, hcols]
  have hwr2 : weights.rows = seeds.rows := by rw [hsd.1]; exact hwr
  have hne2 : ∀ i, i < seeds.rows →
      0 < (kmeansStates entities euclideanNorm n
        (kmeansStart entities seeds weights euclideanNorm)).2.rowCount i :=
    fun i hi => hne i (by rw [← hsd.1]; exact hi)
  have hne0 := kmeansStates_nonempty_back entities seeds weights hfin hK2 hcols2 hwr2 hwc n
    hne2 0 (Nat.zero_le n)
  have hKN : centroids.rows ≤ entities.rows := by
    rw [← hsd.1]
    exact clusters_le_entities entities seeds weights euclideanNorm hwr2 hwc hne0
  have hsfin := kmeansInitializer_finite entities centroids euclideanNorm gen seeds hfin hKN
    hcols.symm hseed
  have hcfin := kmeansStates_finite entities seeds weights hfin hsfin hK2 hcols2 hwr2 hwc n
    hne2
  have hstep := kmeansStep_cost_le entities
    (kmeansStates entities euclideanNorm n
      (kmeansStart entities seeds weights euclideanNorm)).1 weights hfin hcfin
    (by rw [(hv n).1]; exact hK2) (by rw [(hv n).2.1]; exact hcols2)
    (by rw [(hv n).1]; exact hwr2) hwc
    (fun i hi => by
      rw [← (hv n).2.2]
      exact hne2 i (by rw [← (hv n).1]; exact hi))
  rw [← (hv n).2.2] at hstep
  rw [kmeansStates_succ]
  exact hstep

/-- Witness of C15: the first pass on the points 1, 2, 3 and 0 of a line, seeded at 0 and
3, takes the total within-cluster distance from 2 to 1. -/
theorem kmeansGenerator_pass_cost_le_witness :
    FiniteEntries seedEntities ∧
    kmeansInitializer seedEntities seedCentroids euclideanNorm seedDraws =
      Outcome.ok seedExampleSeeds ∧
    (∀ i, i < seedCentroids.rows →
      0 < (kmeansStates seedEntities euclideanNorm 0
        (kmeansStart seedEntities seedExampleSeeds seedBoolWeights
          euclideanNorm)).2.rowCount i) ∧
    withinClusterDistance seedEntities
      (kmeansStates seedEntities euclideanNorm 0
        (kmeansStart seedEntities seedExampleSeeds seedBoolWeights euclideanNorm)).1
      (kmeansStates seedEntities euclideanNorm 0
        (kmeansStart seedEntities seedExampleSeeds seedBoolWeights euclideanNorm)).2
      euclideanNorm = Flt.fin 2 ∧
    withinClusterDistance seedEntities
      (kmeansStates seedEntities euclideanNorm 1
        (kmeansStart seedEntities seedExampleSeeds seedBoolWeights euclideanNorm)).1
      (kmeansStates seedEntities euclideanNorm 1
        (kmeansStart seedEntities seedExampleSeeds seedBoolWeights euclideanNorm)).2
      euclideanNorm = Flt.fin 1 ∧
    Flt.le
      (withinClusterDistance seedEntities
        (kmeansStates seedEntities euclideanNorm (0 + 1)
          (kmeansStart seedEntities seedExampleSeeds seedBoolWeights euclideanNorm)).1
        (kmeansStates seedEntities euclideanNorm (0 + 1)
          (kmeansStart seedEntities seedExampleSeeds seedBoolWeights euclideanNorm)).2
        euclideanNorm)
      (withinClusterDistance seedEntities
        (kmeansStates seedEntities euclideanNorm 0
          (kmeansStart seedEntities seedExampleSeeds seedBoolWeights euclideanNorm)).1
        (kmeansStates seedEntities euclideanNorm 0
          (kmeansStart seedEntities seedExampleSeeds seedBoolWeights euclideanNorm)).2
        euclideanNorm) = true :=
  ⟨seedEntities_finite, seedExampleSeeds_eq, seedExample_nonempty, by decide!, by decide!,
    kmeansGenerator_pass_cost_le seedEntities seedCentroids seedBoolWeights seedDraws
      seedExampleSeeds 0 seedEntities_finite rfl rfl rfl seedExampleSeeds_eq
      seedExample_nonempty⟩

/-- C20: with the default squared Euclidean distance over exact arithmetic, for finite
entities, every number of clusters and every seeding that `kmeansInitializer` returns,
the loop of `kmeansGenerator` is left after finitely many passes, provided no pass
leaves a cluster empty: with enough fuel the call returns, and returns the same with any
more fuel. -/
theorem kmeansGenerator_terminates (entities centroids : Mat Flt) (weights : Mat Bool)
    (gen : Nat → Nat) (seeds : Mat Flt) (hfin : FiniteEntries entities)
    (hcols : entities.cols = centroids.cols) (hwr : weights.rows = centroids.rows)
    (hwc : weights.cols = entities.rows)
    (hseed : kmeansInitializer entities centroids euclideanNorm gen = Outcome.ok seeds)
    (hne : ∀ n i, i < centroids.rows →
      0 < (kmeansStates entities euclideanNorm n
        (kmeansStart entities seeds weights euclideanNorm)).2.rowCount i) :
    ∃ r n, ∀ fuel, n ≤ fuel →
      kmeansGenerator fuel entities centroids weights euclideanNorm gen = Outcome.ok r := by
  have hK := kmeansInitializer_rows_pos entities centroids euclideanNorm gen seeds hseed
  have hsd := kmeansInitializer_dims entities centroids euclideanNorm gen seeds hseed
  obtain ⟨n, hn⟩ := kmeansStates_settle entities seeds weights hfin (by rw [hsd.1]; exact hK)
    (by rw [hsd.2, hcols]) (by rw [hsd.1]; exact hwr) hwc
    (fun n i hi => hne n i (by rw [← hsd.1]; exact hi))
  obtain ⟨r, hr⟩ := kmeansLoop_exits entities euclideanNorm n seeds
    (calculateBooleanWeights entities seeds weights euclideanNorm)
    { rows := seeds.rows, cols := entities.rows, coeff := fun _ _ => false } hn
  refine ⟨r, n + 1, ?_⟩
  intro fuel hf
  unfold kmeansGenerator
  rw [if_pos hcols, hseed]
  exact hr fuel hf

/-- Witness of C20: the run on the two points 0 and 3 with two clusters, where every pass
leaves one entity in each cluster. -/
theorem kmeansGenerator_terminates_witness :
    FiniteEntries exampleEntities ∧
    kmeansInitializer exampleEntities searchCentroids euclideanNorm (searchDraws 0) =
      Outcome.ok exampleSeeds ∧
    (∀ n i, i < searchCentroids.rows →
      0 < (kmeansStates exampleEntities euclideanNorm n
        (kmeansStart exampleEntities exampleSeeds searchBoolWeights
          euclideanNorm)).2.rowCount i) ∧
    ∃ r n, ∀ fuel, n ≤ fuel →
      kmeansGenerator fuel exampleEntities searchCentroids searchBoolWeights euclideanNorm
        (searchDraws 0) = Outcome.ok r :=
  ⟨exampleEntities_finite, exampleSeeds_eq, exampleStates_nonempty,
    kmeansGenerator_terminates exampleEntities searchCentroids searchBoolWeights
      (searchDraws 0) exampleSeeds exampleEntities_finite rfl rfl rfl exampleSeeds_eq
      exampleStates_nonempty⟩


/-- C21: in `clusterGeneratorApproximate`, an attempt whose final Davies-Bouldin score is
NaN made all the `maxIterationPerClustersNumber` runs that the cap allows and is
discarded: the best score so far, the selected cluster count and the output centroids
and hard weights are exactly what they were before the attempt. -/
theorem searchAttempt_nan_discarded (sqrtQ : ℚ → ℚ) (fuel : Nat) (entities : Mat Flt)
    (norm : squaredNorm_t) (rd : Nat → Nat → Nat) (currentClustersNumber : Nat)
    (s t : SearchState)
    (h : searchAttempt sqrtQ fuel entities norm rd currentClustersNumber s = Outcome.ok t)
    (hnan : t.newFitness.isNaN = true) :
    t.calls = s.calls + maxIterationPerClustersNumber ∧
    t.fitnessCandidate = s.fitnessCandidate ∧ t.clustersNumber = s.clustersNumber ∧
    t.centroids = s.centroids ∧ t.boolWeights = s.boolWeights := by
  have hcases := searchAttempt_cases sqrtQ fuel entities norm rd currentClustersNumber s t h
  unfold searchAttempt at h
  obtain ⟨s1, hs1, hrest⟩ := Outcome.bind_eq_ok h
  have hs1t : s1.newFitness = t.newFitness ∧ s1.calls = t.calls := by
    by_cases hlt : Flt.lt s1.newFitness s1.fitnessCandidate = true
    · rw [if_pos hlt] at hrest
      rw [← Outcome.ok.inj hrest]
      exact ⟨rfl, rfl⟩
    · rw [if_neg hlt] at hrest
      rw [← Outcome.ok.inj hrest]
      exact ⟨rfl, rfl⟩
  obtain ⟨g1, g2, g3⟩ := searchAttemptRuns_calls sqrtQ fuel entities norm rd
    currentClustersNumber _ 0 s s1 hs1
  rw [hs1t.1, hs1t.2] at g3
  rw [hs1t.2] at g1 g2
  have g2b := g2 (by decide)
  have g3b := g3 hnan
  refine ⟨by omega, ?_⟩
  rcases hcases with ⟨hlt, _⟩ | ⟨_, h1, h2, h3, h4⟩
  · rw [Flt.eq_nan_of_isNaN hnan, Flt.lt_nan_left] at hlt
    cases hlt
  · exact ⟨h3, h4, h1, h2⟩

/-- Witness of C21: on the points 0, 0 and 3 the attempts with two clusters leave the best
score 0 after 3 runs, and the next attempt, with three clusters, ends with the score NaN
after 5 more runs. -/
theorem searchAttempt_nan_discarded_witness :
    ∃ s t,
      searchLoop Rat.sqrt 10 tripleEntities euclideanNorm tripleDraws 2
        (searchStart tripleEntities tripleCentroids tripleBoolWeights) = Outcome.ok s ∧
      searchAttempt Rat.sqrt 10 tripleEntities euclideanNorm tripleDraws 3 s = Outcome.ok t ∧
      t.newFitness.isNaN = true ∧
      s.fitnessCandidate = Flt.fin 0 ∧ s.clustersNumber = 2 ∧ s.calls = 3 ∧
      t.calls = s.calls + maxIterationPerClustersNumber ∧
      t.fitnessCandidate = s.fitnessCandidate ∧ t.clustersNumber = s.clustersNumber ∧
      t.centroids = s.centroids ∧ t.boolWeights = s.boolWeights := by
  have h1 : attemptSummary ((searchLoop Rat.sqrt 10 tripleEntities euclideanNorm tripleDraws 2
      (searchStart tripleEntities tripleCentroids tripleBoolWeights)).bind
      (searchAttempt Rat.sqrt 10 tripleEntities euclideanNorm tripleDraws 3)) =
      Outcome.ok (Flt.nan, Flt.fin 0, 2, 8) := by decide!
  have h2 : attemptSummary (searchLoop Rat.sqrt 10 tripleEntities euclideanNorm tripleDraws 2
      (searchStart tripleEntities tripleCentroids tripleBoolWeights)) =
      Outcome.ok (Flt.fin 0, Flt.fin 0, 2, 3) := by decide!
  obtain ⟨t, ht, htsum⟩ := Outcome.bind_eq_ok h1
  obtain ⟨s, hs, hst⟩ := Outcome.bind_eq_ok ht
  rw [hs] at h2
  have hsum := Outcome.ok.inj h2
  have htsum2 := Outcome.ok.inj htsum
  have hnan : t.newFitness.isNaN = true := by
    rw [(Prod.mk.inj htsum2).1]
    rfl
  have hp := Prod.mk.inj (Prod.mk.inj hsum).2
  have hp2 := Prod.mk.inj hp.2
  exact ⟨s, t, hs, hst, hnan, hp.1, hp2.1, hp2.2,
    searchAttempt_nan_discarded Rat.sqrt 10 tripleEntities euclideanNorm tripleDraws 3 s t
      hst hnan⟩

/-- C22: in the search of `clusterGeneratorApproximate`, when it is over, every candidate
count from 2 to the number of rows of `centroids` got exactly `attemptsPerClustersNumber`
(3) attempts, in that order, and within every attempt the run of `kmeansGenerator` with
its Davies-Bouldin score was made at least once and at most
`maxIterationPerClustersNumber` (5) times, a further run being made only when the score of
the run before was NaN; the calls of `kmeansGenerator` are as many as the scores. -/
theorem clusterGeneratorApproximate_attempts_and_runs (sqrtQ : ℚ → ℚ) (fuel : Nat)
    (rd : Nat → Nat → Nat) (entities centroids : Mat Flt) (boolWeights : Mat Bool)
    (norm : squaredNorm_t) (s : SearchState)
    (h : searchLoop sqrtQ fuel entities norm rd centroids.rows
      (searchStart entities centroids boolWeights) = Outcome.ok s) :
    ∃ log,
      searchLoopTraced sqrtQ fuel entities norm rd centroids.rows
        (searchStart entities centroids boolWeights, []) = Outcome.ok (s, log) ∧
      log.map Prod.fst =
        (List.range (centroids.rows - 1)).flatMap (fun i =>
          List.replicate attemptsPerClustersNumber (2 + i)) ∧
      (∀ a, a ∈ log →
        1 ≤ a.2.length ∧ a.2.length ≤ maxIterationPerClustersNumber ∧
        (∀ x, x ∈ a.2.dropLast → x.isNaN = true) ∧
        (a.2.length < maxIterationPerClustersNumber →
          ∀ x, x ∈ a.2.getLast? → x.isNaN = false)) ∧
      s.calls = (log.map fun a => a.2.length).sum := by
  obtain ⟨log, hlog⟩ := searchLoop_traced sqrtQ fuel entities norm rd centroids.rows
    (searchStart entities centroids boolWeights) s h
  have hcounts := searchLoopTraced_counts sqrtQ fuel entities norm rd centroids.rows _ _ hlog
  have hruns := searchLoopTraced_runs sqrtQ fuel entities norm rd centroids.rows
    (searchStart entities centroids boolWeights, []) (s, log)
    ⟨fun a ha => absurd ha (List.not_mem_nil a), rfl⟩ hlog
  refine ⟨log, hlog, ?_, fun a ha => hruns.1 a ha, hruns.2⟩
  simpa using hcounts

/-- Witness of C22: the search on the points 0, 0 and 3 with room for three clusters makes
three attempts of one run with two clusters, each with the score 0, then three attempts
of five runs with three clusters, each run with the score NaN. -/
theorem clusterGeneratorApproximate_attempts_and_runs_witness :
    tracedRuns (searchLoopTraced Rat.sqrt 10 tripleEntities euclideanNorm tripleDraws
        tripleCentroids.rows (searchStart tripleEntities tripleCentroids tripleBoolWeights,
          [])) =
      Outcome.ok
        [(2, [Flt.fin 0]), (2, [Flt.fin 0]), (2, [Flt.fin 0]),
         (3, [Flt.nan, Flt.nan, Flt.nan, Flt.nan, Flt.nan]),
         (3, [Flt.nan, Flt.nan, Flt.nan, Flt.nan, Flt.nan]),
         (3, [Flt.nan, Flt.nan, Flt.nan, Flt.nan, Flt.nan])] ∧
    ∃ s,
      searchLoop Rat.sqrt 10 tripleEntities euclideanNorm tripleDraws tripleCentroids.rows
        (searchStart tripleEntities tripleCentroids tripleBoolWeights) = Outcome.ok s ∧
      ∃ log,
        searchLoopTraced Rat.sqrt 10 tripleEntities euclideanNorm tripleDraws
          tripleCentroids.rows (searchStart tripleEntities tripleCentroids tripleBoolWeights,
            []) = Outcome.ok (s, log) ∧
        log.map Prod.fst =
          (List.range (tripleCentroids.rows - 1)).flatMap (fun i =>
            List.replicate attemptsPerClustersNumber (2 + i)) ∧
        (∀ a, a ∈ log →
          1 ≤ a.2.length ∧ a.2.length ≤ maxIterationPerClustersNumber ∧
          (∀ x, x ∈ a.2.dropLast → x.isNaN = true) ∧
          (a.2.length < maxIterationPerClustersNumber →
            ∀ x, x ∈ a.2.getLast? → x.isNaN = false)) ∧
        s.calls = (log.map fun a => a.2.length).sum := by
  have hruns : tracedRuns (searchLoopTraced Rat.sqrt 10 tripleEntities euclideanNorm
      tripleDraws tripleCentroids.rows
      (searchStart tripleEntities tripleCentroids tripleBoolWeights, [])) =
      Outcome.ok
        [(2, [Flt.fin 0]), (2, [Flt.fin 0]), (2, [Flt.fin 0]),
         (3, [Flt.nan, Flt.nan, Flt.nan, Flt.nan, Flt.nan]),
         (3, [Flt.nan, Flt.nan, Flt.nan, Flt.nan, Flt.nan]),
         (3, [Flt.nan, Flt.nan, Flt.nan, Flt.nan, Flt.nan])] := by decide!
  refine ⟨hruns, ?_⟩
  unfold tracedRuns at hruns
  obtain ⟨sl, hsl, _⟩ := Outcome.bind_eq_ok hruns
  have hs := searchLoop_of_traced Rat.sqrt 10 tripleEntities euclideanNorm tripleDraws
    tripleCentroids.rows _ sl hsl
  exact ⟨sl.1, hs, clusterGeneratorApproximate_attempts_and_runs Rat.sqrt 10 tripleDraws
    tripleEntities tripleCentroids tripleBoolWeights euclideanNorm sl.1 hs⟩

/-- C23: in a round of `kmeansInitializer` after the first seed, whenever the remaining
pool holds at least two entities and the drawn value is at least the first cumulative
entry, the selected pool position is never 0, whatever the distances: it lies between 1
and the last position of the pool, and the loop goes on from the state that holds it, so
the next centroid is not the entity at the front of the pool. -/
theorem kmeansInitializer_front_never_selected (norm : squaredNorm_t) (gen : Nat → Nat)
    (startingEntitiesNumber : Nat) (s : SeedState)
    (hpool : 2 ≤ startingEntitiesNumber - (s.currentClustersNumber + 1))
    (hdraw : Flt.le (seedRoundCumulative norm startingEntitiesNumber s 0)
      (seedRoundDraw norm gen startingEntitiesNumber s) = true) :
    (kmeansInitializerNext norm gen startingEntitiesNumber s).randomIndex ≠ 0 ∧
    1 ≤ (kmeansInitializerNext norm gen startingEntitiesNumber s).randomIndex ∧
    (kmeansInitializerNext norm gen startingEntitiesNumber s).randomIndex ≤
      startingEntitiesNumber - (s.currentClustersNumber + 1) - 1 ∧
    ∀ c, (seedRoundCentroids
        (kmeansInitializerNext norm gen startingEntitiesNumber s)).coeff
          (s.currentClustersNumber + 1) c =
      if s.currentClustersNumber + 1 < s.centroids.rows ∧ c < s.centroids.cols then
        (seedRoundPool startingEntitiesNumber s).coeff
          (kmeansInitializerNext norm gen startingEntitiesNumber s).randomIndex c
      else s.centroids.coeff (s.currentClustersNumber + 1) c := by
  obtain ⟨h1, _, h3⟩ := upperBound_spec (seedRoundCumulative norm startingEntitiesNumber s)
    (startingEntitiesNumber - (s.currentClustersNumber + 1) - 1)
    (seedRoundDraw norm gen startingEntitiesNumber s)
  have hpos : 0 < upperBound (seedRoundCumulative norm startingEntitiesNumber s)
      (startingEntitiesNumber - (s.currentClustersNumber + 1) - 1)
      (seedRoundDraw norm gen startingEntitiesNumber s) := by
    obtain ⟨n, hn⟩ : ∃ n, startingEntitiesNumber - (s.currentClustersNumber + 1) - 1 = n + 1 :=
      ⟨startingEntitiesNumber - (s.currentClustersNumber + 1) - 2, by omega⟩
    rw [hn]
    unfold upperBound upperBoundFrom
    rw [if_neg (by rw [Flt.not_lt_of_le hdraw]; exact Bool.false_ne_true)]
    exact lt_of_lt_of_le Nat.zero_lt_one
      (upperBoundFrom_spec _ _ n (0 + 1)).1
  refine ⟨Nat.pos_iff_ne_zero.mp hpos, hpos, h1, ?_⟩
  intro c
  show (if s.currentClustersNumber + 1 = s.currentClustersNumber + 1 ∧
      s.currentClustersNumber + 1 < (seedRoundCentroids s).rows ∧
      c < (seedRoundCentroids s).cols then _ else _) = _
  by_cases hc : s.currentClustersNumber + 1 < s.centroids.rows ∧ c < s.centroids.cols
  · rw [if_pos hc, if_pos ⟨rfl, hc.1, hc.2⟩]
    rfl
  · rw [if_neg hc, if_neg (fun h => hc ⟨h.2.1, h.2.2⟩)]
    show (if s.currentClustersNumber + 1 = s.currentClustersNumber ∧ _ then _ else _) = _
    rw [if_neg (fun h => absurd h.1 (by omega))]

/-- Witness of C23 on the worked example on the seeding: three entities are left in the
pool after the first seed, the first cumulative entry is 1 and the drawn value 5. -/
theorem kmeansInitializer_front_never_selected_witness :
    2 ≤ 4 - ((kmeansInitializerStart seedEntities seedCentroids seedDraws).currentClustersNumber
      + 1) ∧
    Flt.le (seedRoundCumulative euclideanNorm 4
        (kmeansInitializerStart seedEntities seedCentroids seedDraws) 0)
      (seedRoundDraw euclideanNorm seedDraws 4
        (kmeansInitializerStart seedEntities seedCentroids seedDraws)) = true ∧
    (kmeansInitializerNext euclideanNorm seedDraws 4
      (kmeansInitializerStart seedEntities seedCentroids seedDraws)).randomIndex ≠ 0 :=
  ⟨by decide, by decide!,
    (kmeansInitializer_front_never_selected euclideanNorm seedDraws 4
      (kmeansInitializerStart seedEntities seedCentroids seedDraws) (by decide)
      (by decide!)).1⟩

end SimpleClusterization
